import Mathlib

/-!
# Latte-Dock `Layout` (src/app/layout.cpp, src/app/layout.h)

A shallow embedding of the class `Latte::Layout` and of the part of its environment
it talks to, followed by theorems about it.

Conventions of the embedding

* Objects owned by the shell (`Plasma::Containment`, `Plasma::Applet`) are addressed by
  pointers, natural numbers with `0` for `nullptr`; their attributes live in `World`.
* A `DockView *` is represented by the record of the attributes the layout code reads
  from it; a `QHash` is an association list with one entry per key, iterated in list order.
* `KConfig` is the flat entry map of the KDE library: every entry is keyed by the path of
  its group and by its key. A group exists exactly when some entry lies in it or below it.
  A config file on disk and the `KSharedConfig` object opened on it are one thing here.
* Functions of `DockCorona`, `ScreenPool`, `LayoutManager` and Qt, which are not part of
  these two source files, are fields of `World` (they are parameters of every theorem).
* Qt signals of the layout are logged in the field `emitted`; the slots connected to them
  inside layout.cpp run at the emission. Signals of the corona have no slot in layout.cpp
  and are left out, and so is the debug output.
* Integers of the source are `Int`; the `uint` ids of containments and applets are natural
  numbers below `2^32`, and the conversions between `uint` and `int` are explicit.
-/

namespace Latte

/-! ## Qt strings -/

/-- Decimal text of an integer, `QString::number`. -/
def qNumber (i : Int) : String := toString i

/-- Value of a text of decimal digits read after the number `acc`; `none` when a character
is no digit. -/
def qDigits : List Char → Nat → Option Nat
  | [], acc => some acc
  | ch :: rest, acc =>
    if ch.isDigit then qDigits rest (10 * acc + (ch.toNat - 48)) else none

/-- The integer a text stands for, `toInt`: an optional sign and decimal digits; `none`
for any other text. -/
def qToInt (s : String) : Option Int :=
  match s.data with
  | [] => none
  | '-' :: rest => if rest = [] then none else (qDigits rest 0).map (fun n => -(n : Int))
  | '+' :: rest => if rest = [] then none else (qDigits rest 0).map (fun n => (n : Int))
  | cs => (qDigits cs 0).map (fun n => (n : Int))

/-- The parts of a text between the occurrences of `sep`, `QString::split`; `cur` is the
part read so far, in reverse. -/
def qSplitFrom (sep : Char) : List Char → List Char → List String
  | [], cur => [String.mk cur.reverse]
  | ch :: rest, cur =>
    if ch = sep then String.mk cur.reverse :: qSplitFrom sep rest [] else qSplitFrom sep rest (ch :: cur)

/-- The parts of a text between the occurrences of `sep`, `QString::split`. -/
def qSplit (s : String) (sep : Char) : List String := qSplitFrom sep s.data []

/-- The lower-case form of a text. -/
def qToLower (s : String) : String := String.mk (s.data.map Char.toLower)

/-- Search of `needle` in `s` at the positions `k, k-1, ..., 0`; `-1` when it is at none. -/
def qLastIndexOfFrom (s needle : List Char) : Nat → Int
  | 0 => if needle.isPrefixOf s then 0 else -1
  | k + 1 =>
    if needle.isPrefixOf (s.drop (k + 1)) then ((k + 1 : Nat) : Int)
    else qLastIndexOfFrom s needle k

/-- Position of the last occurrence of `needle`, `QString::lastIndexOf`; `-1` when absent. -/
def qLastIndexOf (s needle : List Char) : Int :=
  if s.length < needle.length then -1
  else qLastIndexOfFrom s needle (s.length - needle.length)

/-- Removal of `len` characters from `pos` on, `QString::remove(int, int)`: a negative
position counts from the end, a position outside the string removes nothing, a length
reaching the end truncates. -/
def qRemove (s : List Char) (pos len : Int) : List Char :=
  let p : Int := if pos < 0 then pos + s.length else pos
  if p < 0 ∨ (s.length : Int) ≤ p then s
  else if (s.length : Int) - p ≤ len then s.take p.toNat
  else if 0 < len then s.take p.toNat ++ s.drop (p.toNat + len.toNat)
  else s

/-! ## KConfig -/

/-- Value of a config entry. The library keeps text; the embedding keeps the value that was
written and converts on a read at another type. -/
inductive KValue where
  | int (i : Int)
  | bool (b : Bool)
  | str (s : String)
  | strList (l : List String)
deriving DecidableEq, Repr

/-- One entry of the entry map: path of the group, key, value. -/
structure KEntry where
  mGroup : List String
  mKey : String
  value : KValue
deriving DecidableEq, Repr

/-- Entry map of a config object. -/
abbrev KConfig := List KEntry

namespace KConfig

/-- Value stored under key `k` of group `g`. -/
def lookup (c : KConfig) (g : List String) (k : String) : Option KValue :=
  (c.find? (fun e => decide (e.mGroup = g ∧ e.mKey = k))).map KEntry.value

/-- Does the entry exist. -/
def hasKey (c : KConfig) (g : List String) (k : String) : Bool :=
  c.any (fun e => decide (e.mGroup = g ∧ e.mKey = k))

/-- Write of an entry, `KConfigGroup::writeEntry`: the value of an existing entry is
replaced in place, a new entry is added. -/
def writeEntry (c : KConfig) (g : List String) (k : String) (v : KValue) : KConfig :=
  if c.hasKey g k then
    c.map (fun e => if e.mGroup = g ∧ e.mKey = k then { e with value := v } else e)
  else c ++ [⟨g, k, v⟩]

/-- Name of the child of `g` on the way to group `p`, when `p` lies strictly below `g`. -/
def childOf (g p : List String) : Option String :=
  if g.isPrefixOf p then (p.drop g.length).head? else none

/-- Names of the subgroups of `g`, `KConfigGroup::groupList`, each once. The library
returns them in the order of a `QSet`. -/
def groupList (c : KConfig) (g : List String) : List String :=
  (c.filterMap (fun e => childOf g e.mGroup)).dedup

/-- Removal of group `g` with everything below it, `KConfigGroup::deleteGroup`. -/
def deleteGroup (c : KConfig) (g : List String) : KConfig :=
  c.filter (fun e => !g.isPrefixOf e.mGroup)

/-- Entries of `c` in group `g` or below it. -/
def entriesBelow (c : KConfig) (g : List String) : List KEntry :=
  c.filter (fun e => g.isPrefixOf e.mGroup)

/-- Copy of group `sg` of `src` with everything below it into group `dg` of `dst`,
`KConfigGroup::copyTo`: entries of the target that are not overwritten stay. -/
def copyGroup (src : KConfig) (sg : List String) (dst : KConfig) (dg : List String) : KConfig :=
  (src.entriesBelow sg).foldl
    (fun acc e => acc.writeEntry (dg ++ e.mGroup.drop sg.length) e.mKey e.value) dst

/-- Splitting of the text of a list at the commas that are not escaped by a backslash. -/
def splitList : List Char → List Char → Bool → List String
  | [], val, _ => [String.mk val.reverse]
  | ch :: rest, val, true => splitList rest (ch :: val) false
  | ch :: rest, val, false =>
    if ch = '\\' then splitList rest val true
    else if ch = ',' then String.mk val.reverse :: splitList rest [] false
    else splitList rest (ch :: val) false

/-- Text of a list entry read back as a list. -/
def deserializeList (data : String) : List String :=
  if data = "" then []
  else if data = "\\0" then [""]
  else splitList data.data [] false

/-- Read of an `int` entry with a default. -/
def readInt (c : KConfig) (g : List String) (k : String) (dflt : Int) : Int :=
  match c.lookup g k with
  | some (KValue.int i) => i
  | some (KValue.str s) => (qToInt s).getD dflt
  | _ => dflt

/-- Read of a `bool` entry with a default. -/
def readBool (c : KConfig) (g : List String) (k : String) (dflt : Bool) : Bool :=
  match c.lookup g k with
  | some (KValue.bool b) => b
  | some (KValue.str s) => !(["false", "no", "off", "0"].contains (qToLower s))
  | some (KValue.int i) => decide (i ≠ 0)
  | _ => dflt

/-- Read of a `QString` entry with a default. -/
def readString (c : KConfig) (g : List String) (k : String) (dflt : String) : String :=
  match c.lookup g k with
  | some (KValue.str s) => s
  | some (KValue.int i) => qNumber i
  | some (KValue.bool b) => if b then "true" else "false"
  | _ => dflt

/-- Read of a `QStringList` entry with a default. -/
def readStringList (c : KConfig) (g : List String) (k : String) (dflt : List String) :
    List String :=
  match c.lookup g k with
  | some (KValue.strList l) => l
  | some (KValue.str s) => deserializeList s
  | _ => dflt

end KConfig

/-! ## The environment of a layout -/

/-- Address of a `Plasma::Containment`; `0` is `nullptr`. -/
abbrev ContainmentPtr := Nat

/-- Address of a `Plasma::Applet`; `0` is `nullptr`. -/
abbrev AppletPtr := Nat

/-- Value of `Plasma::Types::Location`. -/
abbrev Location := Int

/-- `Plasma::Types::BottomEdge`. -/
def BottomEdge : Location := 4

/-- `Dock::LayoutsMemoryUsage`, the two values the source names. -/
inductive MemoryUsage where
  | SingleLayout
  | MultipleLayouts
deriving DecidableEq, Repr

/-- A `QScreen`: its address and its name. -/
structure QScreen where
  ptr : Nat
  name : String
deriving DecidableEq, Repr

/-- What the layout reads from a `DockView`. -/
structure DockView where
  containment : ContainmentPtr
  onPrimary : Bool
  currentScreen : String
  tasksPresent : Bool
  location : Location
  dockWin : Bool
  managedLayout : String
deriving DecidableEq, Repr

/-- A `QHash<const Plasma::Containment *, DockView *>`. -/
abbrev DockViewHash := List (ContainmentPtr × DockView)

/-- What the layout reads from a `Plasma::Applet`. -/
structure AppletObj where
  id : Nat
  containment : ContainmentPtr
deriving DecidableEq, Repr

/-- What the layout reads from a `Plasma::Containment`. `config` is the containment's own
config group, its entries keyed by their path inside that group; `parent` is the result of
`qobject_cast<Plasma::Applet *>(parent())`. -/
structure ContainmentObj where
  id : Nat
  config : KConfig
  parent : AppletPtr
  applets : List AppletPtr
  screen : Int
  lastScreen : Int
  location : Location
  kPackageValid : Bool
  pluginId : String

/-- State outside the layout object: the objects of the shell, the config files, and what
layout.cpp asks of `DockCorona`, `LayoutManager`, `ScreenPool`, `DockView`, `Dock` and Qt,
none of which is part of the two source files. The functions that look at the dock views
of the running layout take its dock-view map. -/
structure World where
  /-- The containment at an address. -/
  containment : ContainmentPtr → ContainmentObj
  /-- The applet at an address. -/
  applet : AppletPtr → AppletObj
  /-- The config files by path. -/
  files : String → Option KConfig
  /-- `QDir::homePath()`. -/
  homePath : String
  /-- `qGuiApp->primaryScreen()`, the first of the screens of the application. The source
  reads its name without a test for null, so there is one. -/
  primaryScreen : QScreen
  /-- The screens of the application after the primary one. -/
  otherScreens : List QScreen
  /-- `m_corona->containments()`. -/
  coronaContainments : List ContainmentPtr
  /-- `m_corona->layoutManager()->memoryUsage()`. -/
  memoryUsage : MemoryUsage
  /-- The immutability of the corona, set by `setImmutability`. -/
  immutability : Int
  /-- `m_corona->containmentsIds()`. -/
  containmentsIds : List String
  /-- `m_corona->appletsIds()`. -/
  appletsIds : List String
  /-- `m_corona->screenPool()->connector(id)`. -/
  connector : Int → String
  /-- `m_corona->screenPool()->id(name)`. -/
  screenId : String → Int
  /-- `m_corona->screenPool()->primaryScreenId()`. -/
  primaryScreenId : Int
  /-- `m_corona->explicitDockOccupyEdge(screen, location)`. -/
  explicitDockOccupyEdge : DockViewHash → Int → Location → Bool
  /-- `m_corona->freeEdges(QScreen *)`. -/
  freeEdges : DockViewHash → QScreen → List Location
  /-- `m_corona->freeEdges(int)`. -/
  freeEdgesOfId : DockViewHash → Int → List Location
  /-- Whether `m_corona->layoutManager()->activeLayout(name)` is a layout. -/
  activeLayout : String → Bool
  /-- `m_corona->layoutManager()->orphanedActivities()`. -/
  orphanedActivities : List String
  /-- `m_corona->activitiesConsumer()->currentActivity()`. -/
  currentActivity : String
  /-- Whether a view made for the containment has `tasksPresent()`. -/
  tasksInContainment : ContainmentPtr → Bool
  /-- The name of the screen a view follows after `reconsiderScreen()`. -/
  reconsiderScreen : DockView → String
  /-- `Dock::AlwaysVisible`. -/
  AlwaysVisible : Int
  /-- `Dock::DodgeActive`. -/
  DodgeActive : Int
  /-- `Dock::WindowsGoBelow`. -/
  WindowsGoBelow : Int

/-- `qGuiApp->screens()`: the primary screen comes first. -/
def World.screens (w : World) : List QScreen := w.primaryScreen :: w.otherScreens

/-- `Plasma::Applet::id()`, a `uint`. -/
def World.idOf (w : World) (c : ContainmentPtr) : Nat := (w.containment c).id % 4294967296

/-- `Plasma::Applet::id()` of an applet, a `uint`. -/
def World.appletIdOf (w : World) (a : AppletPtr) : Nat := (w.applet a).id % 4294967296

/-- `QFile(path).exists()`; no file has the empty name. -/
def World.fileExists (w : World) (path : String) : Bool :=
  decide (path ≠ "") && (w.files path).isSome

/-- `KSharedConfig::openConfig(path)`: the config of the file, empty when there is none. -/
def World.openConfig (w : World) (path : String) : KConfig := (w.files path).getD []

/-- The config object of `path` after a change. A config without entries does not make a
file that was not there. -/
def World.setConfig (w : World) (path : String) (c : KConfig) : World :=
  { w with files := fun p =>
      if p = path then (if c = [] ∧ w.files path = none then none else some c)
      else w.files p }

/-- `QFile(path).remove()`. -/
def World.removeFile (w : World) (path : String) : World :=
  { w with files := fun p => if p = path then none else w.files p }

/-- The config group of a containment after a change. -/
def World.setContainmentConfig (w : World) (c : ContainmentPtr) (cfg : KConfig) : World :=
  { w with containment := fun p => if p = c then { w.containment c with config := cfg }
                                   else w.containment p }

/-- `containment->setLocation(loc)`. -/
def World.setLocation (w : World) (c : ContainmentPtr) (loc : Location) : World :=
  { w with containment := fun p => if p = c then { w.containment c with location := loc }
                                   else w.containment p }

/-! ## The layout object -/

/-- Signals of `Layout`. -/
inductive Signal where
  | activitiesChanged
  | colorChanged
  | fileChanged
  | launchersChanged
  | nameChanged
  | versionChanged
  | showInMenuChanged
deriving DecidableEq, Repr

/-- Members of `Layout`. `m_corona` tells whether the pointer is set; `m_layoutGroup` is the
file whose group `LayoutSettings` the handle is bound to, `none` for the invalid handle of
a fresh object; `saveConnected` tells whether `init()` has connected the five change
signals to `saveConfig`; `emitted` is the log of the signals emitted so far. -/
structure Layout where
  m_showInMenu : Bool
  m_version : Int
  m_color : String
  m_lastUsedActivityId : String
  m_layoutFile : String
  m_layoutName : String
  m_activities : List String
  m_launchers : List String
  m_unloadedContainmentsIds : List String
  m_corona : Bool
  m_layoutGroup : Option String
  m_containments : List ContainmentPtr
  m_dockViews : DockViewHash
  m_waitingDockViews : DockViewHash
  saveConnected : Bool
  emitted : List Signal

/-- The members as their initialisers in layout.h leave them. -/
def Layout.fresh : Layout :=
  { m_showInMenu := false, m_version := 2, m_color := "", m_lastUsedActivityId := "0",
    m_layoutFile := "", m_layoutName := "", m_activities := [], m_launchers := [],
    m_unloadedContainmentsIds := [], m_corona := false, m_layoutGroup := none,
    m_containments := [], m_dockViews := [], m_waitingDockViews := [],
    saveConnected := false, emitted := [] }

/-- Path of the group of the general settings. -/
def layoutSettings : List String := ["LayoutSettings"]

/-- `Layout::saveConfig`. Nothing is written through an invalid handle. -/
def saveConfig (w : World) (l : Layout) : World :=
  match l.m_layoutGroup with
  | none => w
  | some f =>
    let c := w.openConfig f
    let c := c.writeEntry layoutSettings "version" (KValue.int l.m_version)
    let c := c.writeEntry layoutSettings "showInMenu" (KValue.bool l.m_showInMenu)
    let c := c.writeEntry layoutSettings "color" (KValue.str l.m_color)
    let c := c.writeEntry layoutSettings "launchers" (KValue.strList l.m_launchers)
    let c := c.writeEntry layoutSettings "activities" (KValue.strList l.m_activities)
    w.setConfig f c

/-- Emission of a signal of the layout: it is logged, and a change signal of one of the
five settings runs `saveConfig` once `init()` has connected it. -/
def emit (w : World) (l : Layout) (s : Signal) : World × Layout :=
  let l1 := { l with emitted := l.emitted ++ [s] }
  if l.saveConnected ∧ s ≠ Signal.nameChanged ∧ s ≠ Signal.fileChanged then
    (saveConfig w l1, l1)
  else (w, l1)

/-- The config the handle `m_layoutGroup` reads from. -/
def layoutGroupConfig (w : World) (l : Layout) : KConfig :=
  match l.m_layoutGroup with
  | none => []
  | some f => w.openConfig f

/-- `Layout::loadConfig`. -/
def loadConfig (w : World) (l : Layout) : World × Layout :=
  let c := layoutGroupConfig w l
  let l1 := { l with
    m_version := c.readInt layoutSettings "version" 2,
    m_color := c.readString layoutSettings "color" "blue",
    m_showInMenu := c.readBool layoutSettings "showInMenu" false,
    m_activities := c.readStringList layoutSettings "activities" [],
    m_launchers := c.readStringList layoutSettings "launchers" [] }
  emit w l1 Signal.activitiesChanged

/-- `Layout::init`. -/
def init (l : Layout) : Layout := { l with saveConnected := true }

/-- `Layout::version`. -/
def version (l : Layout) : Int := l.m_version

/-- `Layout::setVersion`. -/
def setVersion (w : World) (l : Layout) (ver : Int) : World × Layout :=
  if l.m_version = ver then (w, l)
  else emit w { l with m_version := ver } Signal.versionChanged

/-- `Layout::showInMenu`. -/
def showInMenu (l : Layout) : Bool := l.m_showInMenu

/-- `Layout::setShowInMenu`. -/
def setShowInMenu (w : World) (l : Layout) (shown : Bool) : World × Layout :=
  if l.m_showInMenu = shown then (w, l)
  else emit w { l with m_showInMenu := shown } Signal.showInMenuChanged

/-- `Layout::name`. -/
def name (l : Layout) : String := l.m_layoutName

/-- `Layout::setName`. -/
def setName (w : World) (l : Layout) (name : String) : World × Layout :=
  if l.m_layoutName = name then (w, l)
  else emit w { l with m_layoutName := name } Signal.nameChanged

/-- `Layout::color`. -/
def color (l : Layout) : String := l.m_color

/-- `Layout::setColor`. -/
def setColor (w : World) (l : Layout) (color : String) : World × Layout :=
  if l.m_color = color then (w, l)
  else emit w { l with m_color := color } Signal.colorChanged

/-- `Layout::file`. -/
def file (l : Layout) : String := l.m_layoutFile

/-- `Layout::setFile`. -/
def setFile (w : World) (l : Layout) (file : String) : World × Layout :=
  if l.m_layoutFile = file then (w, l)
  else emit w { l with m_layoutFile := file, m_layoutGroup := some file } Signal.fileChanged

/-- `Layout::launchers`. -/
def launchers (l : Layout) : List String := l.m_launchers

/-- `Layout::setLaunchers`. -/
def setLaunchers (w : World) (l : Layout) (launcherList : List String) : World × Layout :=
  if l.m_launchers = launcherList then (w, l)
  else emit w { l with m_launchers := launcherList } Signal.launchersChanged

/-- `Layout::activities`. -/
def activities (l : Layout) : List String := l.m_activities

/-- `Layout::setActivities`. -/
def setActivities (w : World) (l : Layout) (activities : List String) : World × Layout :=
  if l.m_activities = activities then (w, l)
  else emit w { l with m_activities := activities } Signal.activitiesChanged

/-- `Layout::unloadedContainmentsIds`. -/
def unloadedContainmentsIds (l : Layout) : List String := l.m_unloadedContainmentsIds

/-- `Layout::layoutName`. -/
def layoutName (fileName : String) : String :=
  let lastSlash := qLastIndexOf fileName.data "/".data
  let layoutName := qRemove fileName.data 0 (lastSlash + 1)
  let ext := qLastIndexOf layoutName ".layout.latte".data
  String.mk (qRemove layoutName ext 13)

/-- The constructor `Layout::Layout(parent, layoutFile, assignedName)`. -/
def Layout.new (w : World) (layoutFile assignedName : String) : World × Layout :=
  if w.fileExists layoutFile then
    let assignedName := if assignedName = "" then layoutName layoutFile else assignedName
    let (w1, l1) := setFile w Layout.fresh layoutFile
    let (w2, l2) := setName w1 l1 assignedName
    let (w3, l3) := loadConfig w2 l2
    (w3, init l3)
  else (w, Layout.fresh)

/-! ## Hashes -/

/-- `QHash::contains` on a dock-view map. -/
def hashContains (h : DockViewHash) (k : ContainmentPtr) : Bool := h.any (fun kv => kv.1 = k)

/-- `QHash::value`: the view stored under `k`, `none` for the null pointer of a missing key. -/
def hashValue (h : DockViewHash) (k : ContainmentPtr) : Option DockView :=
  (h.find? (fun kv => kv.1 = k)).map Prod.snd

/-- The assignment `h[k] = v`. -/
def hashInsert (h : DockViewHash) (k : ContainmentPtr) (v : DockView) : DockViewHash :=
  if hashContains h k then h.map (fun kv => if kv.1 = k then (k, v) else kv) else h ++ [(k, v)]

/-- `QHash::remove` and the map left by `QHash::take`. -/
def hashRemove (h : DockViewHash) (k : ContainmentPtr) : DockViewHash :=
  h.filter (fun kv => kv.1 ≠ k)

/-- A `QHash<QString, QString>`. -/
abbrev QStringHash := List (String × String)

/-- `QHash::contains` on a hash of strings. -/
def strContains (h : QStringHash) (k : String) : Bool := h.any (fun kv => kv.1 = k)

/-- Value of `h[k]`, the empty string for a missing key. (The read `h[k]` of a missing key
also stores the empty string under `k`; no later read can tell, so it is left out.) -/
def strValue (h : QStringHash) (k : String) : String :=
  ((h.find? (fun kv => kv.1 = k)).map Prod.snd).getD ""

/-- The assignment `h[k] = v` on a hash of strings. -/
def strInsert (h : QStringHash) (k v : String) : QStringHash :=
  if strContains h k then h.map (fun kv => if kv.1 = k then (k, v) else kv) else h ++ [(k, v)]

/-! ## Containments actions -/

/-- Modelled from the spec: the class `DockView` is not part of the sources. A view made
for a containment on a screen follows that screen, takes `onPrimary` from the entry of
the containment, its location from the containment, and has tasks when the containment
holds a tasks applet. -/
def DockView.create (w : World) (containment : ContainmentPtr) (screen : QScreen)
    (dockWin : Bool) : DockView :=
  { containment := containment,
    onPrimary := (w.containment containment).config.readBool [] "onPrimary" true,
    currentScreen := screen.name,
    tasksPresent := w.tasksInContainment containment,
    location := (w.containment containment).location,
    dockWin := dockWin,
    managedLayout := "" }

/-- The end of `Layout::addDock`, from the choice of the window flag on: the view is made
on `nextScreen` and stored in the dock-view map. -/
def createDock (w : World) (l : Layout) (containment : ContainmentPtr) (nextScreen : QScreen)
    (forceLoading : Bool) : World × Layout :=
  let cfg := (w.containment containment).config
  let mode := cfg.readInt [] "visibility" w.DodgeActive
  let dockWin :=
    if mode = w.AlwaysVisible ∨ mode = w.WindowsGoBelow then true
    else cfg.readBool [] "dockWindowBehavior" true
  let dockView := DockView.create w containment nextScreen dockWin
  let dockView := { dockView with managedLayout := l.m_layoutName }
  let dockView := if forceLoading then { dockView with onPrimary := true } else dockView
  (w, { l with m_dockViews := hashInsert l.m_dockViews containment dockView })

/-- `Layout::addDock`. -/
def addDock (w : World) (l : Layout) (containment : ContainmentPtr) (forceLoading : Bool)
    (expDockScreen : Int) : World × Layout :=
  if containment = 0 ∨ l.m_corona = false ∨ (w.containment containment).kPackageValid = false
  then (w, l)
  else if (w.containment containment).pluginId ≠ "org.kde.latte.containment" then (w, l)
  else if l.m_dockViews.any (fun kv => kv.2.containment = containment) then (w, l)
  else
    let nextScreen := w.primaryScreen
    let onPrimary := (w.containment containment).config.readBool [] "onPrimary" true
    let id := (w.containment containment).screen
    let id := if id = -1 ∧ expDockScreen = -1 then (w.containment containment).lastScreen else id
    let id := if expDockScreen > -1 then expDockScreen else id
    if id ≥ 0 ∧ onPrimary = false ∧ forceLoading = false then
      let connector := w.connector id
      match w.screens.find? (fun scr => scr.name = connector) with
      | some scr => createDock w l containment scr forceLoading
      | none => (w, l)
    else if onPrimary = true ∧
        w.explicitDockOccupyEdge l.m_dockViews w.primaryScreenId
          (w.containment containment).location = true then (w, l)
    else createDock w l containment nextScreen forceLoading

/-- `Layout::addContainment`. -/
def addContainment (w : World) (l : Layout) (containment : ContainmentPtr) : World × Layout :=
  if containment = 0 ∨ l.m_containments.contains containment then (w, l)
  else
    match w.memoryUsage with
    | MemoryUsage.SingleLayout =>
      addDock w { l with m_containments := l.m_containments ++ [containment] } containment
        false (-1)
    | MemoryUsage.MultipleLayouts =>
      let layoutId := (w.containment containment).config.readString [] "layoutId" ""
      if layoutId ≠ "" ∧ layoutId = l.m_layoutName then
        addDock w { l with m_containments := l.m_containments ++ [containment] } containment
          false (-1)
      else (w, l)

/-- `Layout::appliedActivities`. -/
def appliedActivities (w : World) (l : Layout) : List String :=
  if l.m_corona = false then []
  else
    match w.memoryUsage with
    | MemoryUsage.SingleLayout => ["0"]
    | MemoryUsage.MultipleLayouts =>
      if l.m_activities.isEmpty then w.orphanedActivities else l.m_activities

/-- `Layout::updateLastUsedActivity`. -/
def updateLastUsedActivity (w : World) (l : Layout) : Layout :=
  if l.m_corona = false then l
  else if (appliedActivities w l).contains w.currentActivity then
    { l with m_lastUsedActivityId := w.currentActivity }
  else l

/-- The loop of `Layout::initToCorona` over the containments of the corona. -/
def initContainments (w : World) (l : Layout) : List ContainmentPtr → World × Layout
  | [] => (w, l)
  | containment :: rest =>
    match w.memoryUsage with
    | MemoryUsage.SingleLayout =>
      let r := addContainment w l containment
      initContainments r.1 r.2 rest
    | MemoryUsage.MultipleLayouts =>
      let layoutId := (w.containment containment).config.readString [] "layoutId" ""
      if layoutId ≠ "" ∧ layoutId = l.m_layoutName then
        let r := addContainment w l containment
        initContainments r.1 r.2 rest
      else initContainments w l rest

/-- `Layout::initToCorona`. -/
def initToCorona (w : World) (l : Layout) : World × Layout :=
  let r := initContainments w { l with m_corona := true } w.coronaContainments
  (r.1, updateLastUsedActivity r.1 r.2)

/-- `Layout::isActiveLayout`. -/
def isActiveLayout (w : World) (l : Layout) : Bool :=
  if l.m_corona = false then false
  else if w.activeLayout l.m_layoutName then true else false

/-- `Layout::isOriginalLayout`. -/
def isOriginalLayout (l : Layout) : Bool := l.m_layoutName ≠ ".multiple-layouts_hidden"

/-- `Layout::containmentDestroyed`, the slot of the signal `destroyed` of a containment. -/
def containmentDestroyed (l : Layout) (containment : ContainmentPtr) : Layout :=
  if l.m_corona = false then l
  else if containment = 0 then l
  else
    let l1 := { l with m_containments := l.m_containments.erase containment }
    if hashContains l1.m_dockViews containment then
      { l1 with m_dockViews := hashRemove l1.m_dockViews containment }
    else { l1 with m_waitingDockViews := hashRemove l1.m_waitingDockViews containment }

/-! ## Copies and imports -/

/-- The loop of `Layout::availableId`: `fuel` bounds the number of rounds left. -/
def availableIdLoop (all assigned : List String) : Nat → Int → String
  | 0, _ => ""
  | fuel + 1, i =>
    if i < 32000 then
      let iStr := qNumber i
      if ¬ all.contains iStr ∧ ¬ assigned.contains iStr then iStr
      else availableIdLoop all assigned fuel (i + 1)
    else ""

/-- `Layout::availableId`: the first number from `base` on and below 32000 whose text is in
neither list, the empty string when there is none. The loop makes at most `32000 - base`
rounds. -/
def availableId (all assigned : List String) (base : Int) : String :=
  availableIdLoop all assigned (32000 - base).toNat base

/-- The two loops of `newUniqueIdsLayoutFromFile` that give every id of the file a new id:
the ids given so far and the hash from old to new id. -/
def assignIds (allIds : List String) (base : Int) :
    List String → List String × QStringHash → List String × QStringHash
  | [], st => st
  | oldId :: rest, st =>
    let newId := availableId allIds st.1 base
    assignIds allIds base rest (st.1 ++ [newId], strInsert st.2 oldId newId)

/-- One round of the loops that undo a swap: when `cId` got the id `value` and `value`
got the id `cId`, both keep their old id. -/
def fixSwap (assigned : QStringHash) (cId : String) : QStringHash :=
  let value := strValue assigned cId
  if strContains assigned value then
    let value2 := strValue assigned value
    if cId ≠ strValue assigned cId ∧ value2 ≠ "" ∧ cId = value2 then
      strInsert (strInsert assigned cId cId) value value
    else assigned
  else assigned

/-- Path of the group of a containment in a layout file. -/
def contGroup (cId : String) : List String := ["Containments", cId]

/-- Path of the group of the applets of a containment in a layout file. -/
def appletsGroup (cId : String) : List String := ["Containments", cId, "Applets"]

/-- Path of the group `Configuration` of an applet in a layout file. -/
def appletConfiguration (cId appletId : String) : List String :=
  ["Containments", cId, "Applets", appletId, "Configuration"]

/-- The systrays recorded by the first loop of `newUniqueIdsLayoutFromFile` in the applets
of one containment: the text of the systray containment id with the containment and the
applet it was found in. -/
def systraysIn (cfg : KConfig) (cId : String) : List (String × String × String) :=
  (cfg.groupList (appletsGroup cId)).filterMap (fun appletId =>
    let tSysId := cfg.readInt (appletConfiguration cId appletId) "SystrayContainmentId" (-1)
    if tSysId ≠ -1 then some (qNumber tSysId, cId, appletId) else none)

/-- Rewrite of one of the two id lists of the group `General` of a containment. -/
def fixOrder (assigned : QStringHash) (cfg : KConfig) (cId settingStr : String) : KConfig :=
  let order1 := cfg.readString (contGroup cId ++ ["General"]) settingStr ""
  if order1 ≠ "" then
    let fixedOrder1Ids := (qSplit order1 ';').map (strValue assigned)
    cfg.writeEntry (contGroup cId ++ ["General"]) settingStr
      (KValue.str (String.intercalate ";" fixedOrder1Ids))
  else cfg

/-- One round of the loop that updates the applet order and, in multiple layouts, the
`layoutId` of a containment of the file. -/
def fixContainment (usage : MemoryUsage) (layoutName : String) (assigned : QStringHash)
    (cfg : KConfig) (cId : String) : KConfig :=
  let cfg := fixOrder assigned cfg cId "appletOrder"
  let cfg := fixOrder assigned cfg cId "lockedZoomApplets"
  if usage = MemoryUsage.MultipleLayouts then
    cfg.writeEntry (contGroup cId) "layoutId" (KValue.str layoutName)
  else cfg

/-- One round of the loop that writes the new systray id into the applet of the systray. -/
def fixSystray (assigned parents applets : QStringHash) (cfg : KConfig) (systrayId : String) :
    KConfig :=
  cfg.writeEntry (appletConfiguration (strValue parents systrayId) (strValue applets systrayId))
    "SystrayContainmentId" (KValue.str (strValue assigned systrayId))

/-- One round of the inner loop of the copy into the second file: the applet `appId` of
`contId` goes to its new id below the new id of the containment. -/
def copyApplet (file tempFile : String) (assigned : QStringHash) (contId : String)
    (w : World) (appId : String) : World :=
  w.setConfig tempFile
    (KConfig.copyGroup (w.openConfig file) (appletsGroup contId ++ [appId])
      (w.openConfig tempFile) (appletsGroup (strValue assigned contId) ++ [strValue assigned appId]))

/-- One round of the loop that copies the containments into the second file. -/
def copyContainment (file tempFile : String) (assigned : QStringHash) (w : World)
    (contId : String) : World :=
  let w1 := w.setConfig tempFile
    (KConfig.copyGroup (w.openConfig file) (contGroup contId)
      (w.openConfig tempFile) (contGroup (strValue assigned contId)))
  let w2 := w1.setConfig tempFile
    ((w1.openConfig tempFile).deleteGroup (appletsGroup (strValue assigned contId)))
  ((w2.openConfig file).groupList (appletsGroup contId)).foldl
    (copyApplet file tempFile assigned contId) w2

/-- The containment ids that `newUniqueIdsLayoutFromFile` records from the file. -/
def investigatedContainmentIds (cfg : KConfig) : List String := cfg.groupList ["Containments"]

/-- The applet ids that `newUniqueIdsLayoutFromFile` records from the file, containment
after containment. -/
def investigatedAppletIds (cfg : KConfig) : List String :=
  (investigatedContainmentIds cfg).flatMap (fun cId => cfg.groupList (appletsGroup cId))

/-- The two loops that reassign the ids: containments from 12 on, then applets from 40 on.
The result is `(assignedIds, assigned)`. -/
def assignAll (allIds : List String) (cfg : KConfig) : List String × QStringHash :=
  assignIds allIds 40 (investigatedAppletIds cfg)
    (assignIds allIds 12 (investigatedContainmentIds cfg) ([], []))

/-- The hash `assigned` after the two loops that undo swaps. -/
def fixedAssignments (allIds : List String) (cfg : KConfig) : QStringHash :=
  (investigatedAppletIds cfg).foldl fixSwap
    ((investigatedContainmentIds cfg).foldl fixSwap (assignAll allIds cfg).2)

/-- The file of `newUniqueIdsLayoutFromFile` after the loop over its containments that
updates the applet orders and the `layoutId`, and the loop that updates the systray ids. -/
def updatedFile (usage : MemoryUsage) (layoutName : String) (assigned : QStringHash)
    (cfg : KConfig) : KConfig :=
  let systrays := (investigatedContainmentIds cfg).flatMap (systraysIn cfg)
  let toInvestigateSystrayContIds := systrays.map (fun t => t.1)
  let systrayParentContainmentIds : QStringHash :=
    systrays.foldl (fun h t => strInsert h t.1 t.2.1) []
  let systrayAppletIds : QStringHash :=
    systrays.foldl (fun h t => strInsert h t.1 t.2.2) []
  let cfg1 := (cfg.groupList ["Containments"]).foldl (fixContainment usage layoutName assigned) cfg
  toInvestigateSystrayContIds.foldl
    (fixSystray assigned systrayParentContainmentIds systrayAppletIds) cfg1

/-- `Layout::newUniqueIdsLayoutFromFile`: the world after it and the path it returns. -/
def newUniqueIdsLayoutFromFile (w : World) (l : Layout) (file : String) : World × String :=
  if l.m_corona = false then (w, "")
  else
    let tempFile := w.homePath ++ "/.config/lattedock.copy2.bak"
    let w := if w.fileExists tempFile then w.removeFile tempFile else w
    let allIds := w.containmentsIds ++ w.appletsIds
    let cfg := w.openConfig file
    let assigned := fixedAssignments allIds cfg
    let w := w.setConfig file (updatedFile w.memoryUsage l.m_layoutName assigned cfg)
    let w := ((w.openConfig file).groupList ["Containments"]).foldl
      (copyContainment file tempFile assigned) w
    (w, tempFile)

/-- `Layout::importLayoutFile`. `importLayout` is `DockCorona::importLayout`, which makes
the containments of the file in the corona; the corona announces each of them with
`containmentAdded`, the signal `initToCorona` has connected to `addContainment`. -/
def importLayoutFile (importLayout : World → KConfig → World × List ContainmentPtr)
    (w : World) (l : Layout) (file : String) : (World × Layout) × List ContainmentPtr :=
  let r := importLayout w (w.openConfig file)
  let newContainments := r.2
  let st := newContainments.foldl (fun st c => addContainment st.1 st.2 c) (r.1, l)
  (st, newContainments.filter
    (fun c => (st.1.containment c).pluginId = "org.kde.latte.containment"))

/-- The systray of a containment as `copyDock` looks for it: the first applet with an
entry `SystrayContainmentId` other than `-1` gives the id, `-1` when there is none. -/
def findSystrayId (cfg : KConfig) : Int :=
  ((cfg.groupList ["Applets"]).map
      (fun applet => cfg.readInt ["Applets", applet, "Configuration"] "SystrayContainmentId" (-1))
    |>.find? (fun tSysId => tSysId ≠ -1)).getD (-1)

/-- `Plasma::Types::Mutable`. -/
def Mutable : Int := 1

/-- `Layout::copyDock`. The read `m_dockViews[containment]` of the source is a lookup here;
`reactToScreenChange` of the new containment has no effect on what is modelled. The two
calls of `addDock` at the end pass the screen id where `addDock` expects `forceLoading`, so
the id arrives as the flag, true when it is not zero. -/
def copyDock (importLayout : World → KConfig → World × List ContainmentPtr)
    (w : World) (l : Layout) (containment : ContainmentPtr) : World × Layout :=
  if containment = 0 ∨ l.m_corona = false then (w, l)
  else
    let w := { w with immutability := Mutable }
    let temp1File := w.homePath ++ "/.config/lattedock.copy1.bak"
    let w := if w.fileExists temp1File then w.removeFile temp1File else w
    let cconf := (w.containment containment).config
    let w := w.setConfig temp1File
      (KConfig.copyGroup cconf [] (w.openConfig temp1File) (contGroup (qNumber (w.idOf containment))))
    let systrayId := findSystrayId cconf
    let w :=
      if systrayId ≠ -1 then
        match w.coronaContainments.find?
            (fun c => decide (w.idOf c = (systrayId % 4294967296).toNat)) with
        | some systray =>
          w.setConfig temp1File
            (KConfig.copyGroup (w.containment systray).config [] (w.openConfig temp1File)
              (contGroup (qNumber (w.idOf systray))))
        | none => w
      else w
    let r := newUniqueIdsLayoutFromFile w l temp1File
    let imported := importLayoutFile importLayout r.1 l r.2
    let w := imported.1.1
    let l := imported.1.2
    let importedDocks := imported.2
    let newContainment : ContainmentPtr :=
      if importedDocks.length = 1 then importedDocks.headD 0 else 0
    if newContainment = 0 ∨ (w.containment newContainment).kPackageValid = false then (w, l)
    else
      let location := (w.containment containment).location
      let dockScrId : Int :=
        match hashValue l.m_dockViews containment with
        | some dock => w.screenId dock.currentScreen
        | none => -1
      let explicitScreen : Option Int :=
        match hashValue l.m_dockViews containment with
        | some _ =>
          if dockScrId ≠ -1 ∧ w.screens.length > 1 then
            (w.screens.map (fun scr => w.screenId scr.name)).find? (fun copyScrId =>
              decide (copyScrId > -1 ∧ copyScrId ≠ dockScrId) &&
              (w.freeEdgesOfId l.m_dockViews copyScrId).contains location)
          else none
        | none => none
      match explicitScreen with
      | some copyScrId =>
        let config := (w.containment newContainment).config
        let config := config.writeEntry [] "onPrimary" (KValue.bool false)
        let config := config.writeEntry [] "lastScreen" (KValue.int copyScrId)
        let w := w.setContainmentConfig newContainment config
        let w := w.setLocation newContainment location
        addDock w l newContainment (decide (copyScrId ≠ 0)) (-1)
      | none =>
        let edges := w.freeEdgesOfId l.m_dockViews (w.containment newContainment).screen
        let w := w.setLocation newContainment (edges.headD BottomEdge)
        let config := (w.containment newContainment).config
        let config := config.writeEntry [] "onPrimary" (KValue.bool false)
        let config := config.writeEntry [] "lastScreen" (KValue.int dockScrId)
        let w := w.setContainmentConfig newContainment config
        addDock w l newContainment (decide (dockScrId ≠ 0)) (-1)

/-- `Layout::importToCorona`. -/
def importToCorona (importLayout : World → KConfig → World × List ContainmentPtr)
    (w : World) (l : Layout) : World × Layout :=
  if l.m_corona = false then (w, l)
  else
    let w := { w with immutability := Mutable }
    let temp1File := w.homePath ++ "/.config/lattedock.copy1.bak"
    let w := if w.fileExists temp1File then w.removeFile temp1File else w
    let w := w.setConfig temp1File
      (KConfig.copyGroup (w.openConfig l.m_layoutFile) ["Containments"]
        (w.openConfig temp1File) ["Containments"])
    let r := newUniqueIdsLayoutFromFile w l temp1File
    (importLayoutFile importLayout r.1 l r.2).1

/-- `Layout::layoutIsBroken`. -/
def layoutIsBroken (w : World) (l : Layout) : Bool :=
  if l.m_layoutFile = "" ∨ w.fileExists l.m_layoutFile = false then false
  else
    let lFile := w.openConfig l.m_layoutFile
    let ids : List String :=
      if l.m_corona = false then
        lFile.groupList ["Containments"] ++
          (lFile.groupList ["Containments"]).flatMap (fun cId => lFile.groupList (appletsGroup cId))
      else
        l.m_containments.flatMap (fun containment =>
          qNumber (w.idOf containment) ::
            (w.containment containment).applets.map (fun applet => qNumber (w.appletIdOf applet)))
    let idsSet := ids.dedup
    if idsSet.length ≠ ids.length then true else false

/-! ## Loading and unloading -/

/-- One round of the loop of `Layout::syncToLayoutFile`: the `layoutId` of the containment
is emptied and its config is copied into its group of the layout file. -/
def syncContainment (file : String) (w : World) (containment : ContainmentPtr) : World :=
  let w1 := w.setContainmentConfig containment
    ((w.containment containment).config.writeEntry [] "layoutId" (KValue.str ""))
  w1.setConfig file
    (KConfig.copyGroup (w1.containment containment).config [] (w1.openConfig file)
      (contGroup (qNumber (w1.idOf containment))))

/-- `Layout::syncToLayoutFile`. -/
def syncToLayoutFile (w : World) (l : Layout) : World :=
  if l.m_corona = false then w
  else
    let w1 := w.setConfig l.m_layoutFile
      ((w.openConfig l.m_layoutFile).deleteGroup ["Containments"])
    l.m_containments.foldl (syncContainment l.m_layoutFile) w1

/-- The first loop of `Layout::unloadContainments` after the systrays are found: each
systray is recorded, removed from the containments and deleted; its deletion emits
`destroyed`, which runs `containmentDestroyed`. -/
def unloadSystrays : List ContainmentPtr → World → Layout → Layout
  | [], _, l => l
  | systray :: systrays, w, l =>
    let l1 := { l with
      m_unloadedContainmentsIds := l.m_unloadedContainmentsIds ++ [qNumber (w.idOf systray)],
      m_containments := l.m_containments.filter (fun c => c ≠ systray) }
    unloadSystrays systrays w (containmentDestroyed l1 systray)

/-- The second loop of `Layout::unloadContainments`: the first containment is recorded,
removed and deleted until none is left. Each round shortens the list, `fuel` is its
length at the start. -/
def unloadRest : Nat → World → Layout → Layout
  | 0, _, l => l
  | fuel + 1, w, l =>
    match l.m_containments with
    | [] => l
    | containment :: rest =>
      let l1 := { l with
        m_unloadedContainmentsIds :=
          l.m_unloadedContainmentsIds ++ [qNumber (w.idOf containment)],
        m_containments := rest }
      unloadRest fuel w (containmentDestroyed l1 containment)

/-- `Layout::unloadContainments`. -/
def unloadContainments (w : World) (l : Layout) : Layout :=
  if l.m_corona = false then l
  else
    let l1 := { l with m_unloadedContainmentsIds := [] }
    let systrays := l1.m_containments.filter (fun c => (w.containment c).parent ≠ 0)
    let l2 := unloadSystrays systrays w l1
    unloadRest l2.m_containments.length w l2

/-- `Layout::unloadDockViews`. -/
def unloadDockViews (l : Layout) : Layout :=
  if l.m_corona = false then l
  else { l with m_dockViews := [], m_waitingDockViews := [] }

/-! ## Moving a dock view between layouts -/

/-- `Layout::assignToLayout`; `dockView` is `none` for a null pointer. -/
def assignToLayout (w : World) (l : Layout) (dockView : Option DockView)
    (containments : List ContainmentPtr) : World × Layout :=
  if l.m_corona = false then (w, l)
  else
    match dockView with
    | none => (w, l)
    | some dv =>
      let l1 := { l with
        m_dockViews := hashInsert l.m_dockViews dv.containment
          { dv with managedLayout := l.m_layoutName },
        m_containments := l.m_containments ++ containments }
      let w1 := containments.foldl (fun w c =>
        w.setContainmentConfig c
          ((w.containment c).config.writeEntry [] "layoutId" (KValue.str (name l)))) w
      (w1, l1)

/-- The test of `unassignFromLayout` for a systray of the view: the parent of the
containment is an applet, that applet has a containment, and it is the one of the view. -/
def isSystrayOf (w : World) (viewContainment containment : ContainmentPtr) : Bool :=
  let parentApplet := (w.containment containment).parent
  decide (parentApplet ≠ 0 ∧ (w.applet parentApplet).containment ≠ 0 ∧
    (w.applet parentApplet).containment = viewContainment)

/-- `Layout::unassignFromLayout`: the layout after the call and the list it returns. -/
def unassignFromLayout (w : World) (l : Layout) (dockView : DockView) :
    Layout × List ContainmentPtr :=
  if l.m_corona = false then (l, [])
  else
    let containments :=
      dockView.containment :: l.m_containments.filter (isSystrayOf w dockView.containment)
    let l1 := { l with
      m_containments := containments.foldl (fun cs c => cs.filter (fun x => x ≠ c))
        l.m_containments }
    let l2 :=
      if containments.length > 0 then
        { l1 with m_dockViews := hashRemove l1.m_dockViews dockView.containment }
      else l1
    (l2, containments)

/-! ## Dock views and screens -/

/-- Modelled from the spec: `DockCorona::noDocksWithTasks` is not part of the sources. It
is the number of dock views that contain a tasks applet, the count that the source
compares with one in order not to delete the last dock containing tasks. -/
def noDocksWithTasks (views : DockViewHash) : Int :=
  ((views.filter (fun kv => kv.2.tasksPresent)).length : Int)

/-- Conversion of a `uint` to `int`. -/
def toInt32 (n : Nat) : Int :=
  if n % 4294967296 < 2147483648 then ((n % 4294967296 : Nat) : Int)
  else ((n % 4294967296 : Nat) : Int) - 4294967296

/-- Conversion of an `int` to `uint`, as a comparison of the two does it. -/
def toUInt32 (i : Int) : Nat := (i % 4294967296).toNat

/-- The search of a screen for a view in `syncDockViewsToScreens`: some screen has the name
of the screen of the view, or the view is on primary and the primary screen is there. -/
def screenFound (w : World) (view : DockView) : Bool :=
  w.screens.any (fun scr =>
    decide (scr.name = view.currentScreen ∨ (view.onPrimary = true ∧ scr = w.primaryScreen)))

/-- The test of `syncDockViewsToScreens` for an explicit dock that can be deleted; `views`
is the dock-view map at the time of the test. -/
def explicitDeletable (w : World) (views : DockViewHash) (view : DockView) : Bool :=
  decide (screenFound w view = false ∧ view.onPrimary = false ∧ views.length > 1 ∧
    hashContains views view.containment = true ∧
    ¬ (view.tasksPresent = true ∧ noDocksWithTasks views = 1))

/-- One round of the inner loop that adds the views that are missing. -/
def syncAddOne (scr : QScreen) (st : World × Layout) (cont : ContainmentPtr) : World × Layout :=
  let w := st.1
  let l := st.2
  let id := (w.containment cont).screen
  let id := if id = -1 then (w.containment cont).lastScreen else id
  let onPrimary := (w.containment cont).config.readBool [] "onPrimary" true
  let location : Location := (w.containment cont).config.readInt [] "location" BottomEdge
  if ((onPrimary = true ∧ (w.freeEdges l.m_dockViews w.primaryScreen).contains location = true) ∨
      (onPrimary = false ∧ w.connector id = scr.name)) ∧
      hashContains l.m_dockViews cont = false then
    addDock w l cont false (-1)
  else (w, l)

/-- The first part of `syncDockViewsToScreens`: for every screen and every containment of
the corona a view is added when it must be. -/
def syncAdd (w : World) (l : Layout) : World × Layout :=
  w.screens.foldl (fun st scr => st.1.coronaContainments.foldl (syncAddOne scr) st) (w, l)

/-- One round of the loop that finds the containment to preserve and whether a dock with
tasks will be shown; the state is `(preserveContainmentId, dockWithTasksWillBeShown)`. -/
def preserveStep (w : World) (views : DockViewHash) (st : Int × Bool) (view : DockView) :
    Int × Bool :=
  let shown := if screenFound w view = true ∧ view.tasksPresent = true then true else st.2
  let preserve :=
    if explicitDeletable w views view = true then
      if view.tasksPresent = true then
        if st.1 = -1 then toInt32 (w.idOf view.containment)
        else if w.idOf view.containment < toUInt32 st.1 then toInt32 (w.idOf view.containment)
        else st.1
      else st.1
    else st.1
  (preserve, shown)

/-- `view->reconsiderScreen()` seen from the dock-view map: the view follows the screen
that `DockView::reconsiderScreen` picks. -/
def reconsider (w : World) (views : DockViewHash) (view : DockView) : DockViewHash :=
  views.map (fun kv =>
    if kv.2 = view then (kv.1, { view with currentScreen := w.reconsiderScreen view }) else kv)

/-- One round of the loop that deletes the views whose screen is gone. -/
def deleteStep (w : World) (preserveContainmentId : Int) (dockWithTasksWillBeShown : Bool)
    (views : DockViewHash) (view : DockView) : DockViewHash :=
  if explicitDeletable w views view = true then
    if dockWithTasksWillBeShown = true ∨
        toUInt32 preserveContainmentId ≠ w.idOf view.containment then
      hashRemove views view.containment
    else views
  else if view.onPrimary = true ∧ screenFound w view = false ∧
      (w.freeEdges views w.primaryScreen).contains view.location = false then
    hashRemove views view.containment
  else reconsider w views view

/-- The second part of `syncDockViewsToScreens`: the two loops over the dock views as they
are when each loop starts. -/
def syncRemove (w : World) (l : Layout) : Layout :=
  let st := (l.m_dockViews.map Prod.snd).foldl (preserveStep w l.m_dockViews) (-1, false)
  { l with m_dockViews :=
      (l.m_dockViews.map Prod.snd).foldl (deleteStep w st.1 st.2) l.m_dockViews }

/-- `Layout::syncDockViewsToScreens`. -/
def syncDockViewsToScreens (w : World) (l : Layout) : World × Layout :=
  if l.m_corona = false then (w, l)
  else
    let r := syncAdd w l
    (r.1, syncRemove r.1 r.2)

/-! ## The ids of a layout -/

/-- The ids in a layout file: the names of the containment groups followed by the names of
the applet groups of each of them. -/
def configIds (cfg : KConfig) : List String :=
  cfg.groupList ["Containments"] ++
    (cfg.groupList ["Containments"]).flatMap
      (fun cId => cfg.groupList ["Containments", cId, "Applets"])

/-- The ids of a layout that is not loaded, as its file lists them. -/
def idsInFile (w : World) (l : Layout) : List String := configIds (w.openConfig l.m_layoutFile)

/-- The ids of a loaded layout: the ids of its containments followed by the ids of the
applets of each of them. -/
def idsLoaded (w : World) (l : Layout) : List Nat :=
  l.m_containments.map w.idOf ++
    l.m_containments.flatMap (fun c => (w.containment c).applets.map w.appletIdOf)

/-! ## Runs of setter calls -/

/-- A call of one of the five setters of the general settings. -/
inductive SetterCall where
  | setVersion (ver : Int)
  | setColor (color : String)
  | setShowInMenu (shown : Bool)
  | setLaunchers (launcherList : List String)
  | setActivities (activities : List String)

/-- The call made on a layout. -/
def SetterCall.run (st : World × Layout) : SetterCall → World × Layout
  | SetterCall.setVersion ver => Latte.setVersion st.1 st.2 ver
  | SetterCall.setColor c => Latte.setColor st.1 st.2 c
  | SetterCall.setShowInMenu b => Latte.setShowInMenu st.1 st.2 b
  | SetterCall.setLaunchers ls => Latte.setLaunchers st.1 st.2 ls
  | SetterCall.setActivities acts => Latte.setActivities st.1 st.2 acts

/-- The five entries of the group `LayoutSettings`, read with the defaults of `loadConfig`,
are the values of the five settings in memory. -/
def settingsInSync (w : World) (l : Layout) : Prop :=
  (layoutGroupConfig w l).readInt layoutSettings "version" 2 = version l ∧
  (layoutGroupConfig w l).readString layoutSettings "color" "blue" = color l ∧
  (layoutGroupConfig w l).readBool layoutSettings "showInMenu" false = showInMenu l ∧
  (layoutGroupConfig w l).readStringList layoutSettings "activities" [] = activities l ∧
  (layoutGroupConfig w l).readStringList layoutSettings "launchers" [] = launchers l

/-! ## Auxiliary notions of the proofs -/

/-- The state in which the setters keep the file up to date: the handle is bound, `init()`
has run, and the entries read as the settings. -/
def savedState (st : World × Layout) : Prop :=
  st.2.m_layoutGroup ≠ none ∧ st.2.saveConnected = true ∧ settingsInSync st.1 st.2

/-- Value of a list of decimal digits read after the number `start`. -/
def decodeDigits (cs : List Char) (start : Nat) : Nat :=
  cs.foldl (fun a c => 10 * a + (c.toNat - 48)) start

/-- The ids handed out so far and the hash from old to new id fit together: the value of
every key is one of the ids handed out, different keys have different values, and no id
handed out is an id of the corona. -/
def GoodAssignment (allIds : List String) (ids : List String) (h : QStringHash) : Prop :=
  (∀ k, strContains h k = true → strValue h k ∈ ids) ∧
  (∀ k1 k2, strContains h k1 = true → strContains h k2 = true →
    strValue h k1 = strValue h k2 → k1 = k2) ∧
  (∀ v ∈ ids, v ∉ allIds)

/-- Different keys of the hash have different values and no value is an id of the corona. -/
def InjectiveFresh (allIds : List String) (h : QStringHash) : Prop :=
  (∀ k1 k2, strContains h k1 = true → strContains h k2 = true →
    strValue h k1 = strValue h k2 → k1 = k2) ∧
  (∀ k, strContains h k = true → strValue h k ∉ allIds)

/-- The group with path `p` exists in the config: some entry lies in it or below it. -/
def groupExists (c : KConfig) (p : List String) : Prop := ∃ e ∈ c, p <+: e.mGroup

/-- A group path as the copy into the second file may make it: below the new id of a
containment of the first file, and, when it lies in an applet, in the new id of an applet
of that containment. -/
def GoodGroup (A : QStringHash) (src : KConfig) (p : List String) : Prop :=
  ∃ c rest, groupExists src (contGroup c) ∧ p = "Containments" :: strValue A c :: rest ∧
    (∀ x rest', rest = "Applets" :: x :: rest' →
      ∃ a, groupExists src (appletsGroup c ++ [a]) ∧ x = strValue A a)

/-- Every entry of the second file lies in a good group. -/
def WrittenWell (A : QStringHash) (src dst : KConfig) : Prop :=
  ∀ e ∈ dst, GoodGroup A src e.mGroup

/-- A dock-view map as the layout keeps it: one entry per key, every view stored under its
own containment. -/
def DockViewsWF (views : DockViewHash) : Prop :=
  (views.map Prod.fst).Nodup ∧ ∀ kv ∈ views, kv.2.containment = kv.1

/-- The map has an entry under key `k` whose view has the tasks flag `b`. -/
def hasFlag (views : DockViewHash) (k : ContainmentPtr) (b : Bool) : Prop :=
  ∃ kv ∈ views, kv.1 = k ∧ kv.2.tasksPresent = b

/-- An entry map holds one entry under a key of a group. -/
def UniqueKeys (c : KConfig) : Prop := (c.map (fun e => (e.mGroup, e.mKey))).Nodup

/-! ## A small concrete world -/

/-- Path of the layout file of the examples. -/
def samplePath : String := "/home/user/.config/latte/My.layout.latte"

/-- The layout file of the examples: a dock `1` with a systray applet `10` whose systray is
the containment `2`, and the general settings. -/
def sampleFile : KConfig :=
  [⟨["LayoutSettings"], "version", KValue.str "2"⟩,
   ⟨["LayoutSettings"], "color", KValue.str "red"⟩,
   ⟨["Containments", "1"], "onPrimary", KValue.str "true"⟩,
   ⟨["Containments", "1", "General"], "appletOrder", KValue.str "10"⟩,
   ⟨["Containments", "1", "Applets", "10", "Configuration"], "SystrayContainmentId",
     KValue.str "2"⟩,
   ⟨["Containments", "2"], "plugin", KValue.str "org.kde.plasma.private.systemtray"⟩]

/-- The containments of the examples: the dock at address `1` with id `1`, its systray at
address `2` with id `2`, whose parent is the applet at address `10`. -/
def sampleContainment (p : ContainmentPtr) : ContainmentObj :=
  if p = 1 then
    { id := 1, config := [⟨[], "layoutId", KValue.str "My"⟩], parent := 0, applets := [10],
      screen := 0, lastScreen := 0, location := BottomEdge, kPackageValid := true,
      pluginId := "org.kde.latte.containment" }
  else if p = 2 then
    { id := 2, config := [⟨[], "layoutId", KValue.str "My"⟩], parent := 10, applets := [],
      screen := -1, lastScreen := -1, location := BottomEdge, kPackageValid := true,
      pluginId := "org.kde.plasma.private.systemtray" }
  else
    { id := 0, config := [], parent := 0, applets := [], screen := -1, lastScreen := -1,
      location := BottomEdge, kPackageValid := false, pluginId := "" }

/-- The world of the examples: one screen, one layout file, a single layout in memory. -/
def sampleWorld : World :=
  { containment := sampleContainment,
    applet := fun a => if a = 10 then { id := 10, containment := 1 } else { id := 0, containment := 0 },
    files := fun path => if path = samplePath then some sampleFile else none,
    homePath := "/home/user",
    primaryScreen := ⟨1, "eDP-1"⟩,
    otherScreens := [],
    coronaContainments := [1, 2],
    memoryUsage := MemoryUsage.SingleLayout,
    immutability := 1,
    containmentsIds := ["1", "2"],
    appletsIds := ["10"],
    connector := fun _ => "eDP-1",
    screenId := fun _ => 0,
    primaryScreenId := 0,
    explicitDockOccupyEdge := fun _ _ _ => false,
    freeEdges := fun _ _ => [BottomEdge],
    freeEdgesOfId := fun _ _ => [BottomEdge],
    activeLayout := fun _ => true,
    orphanedActivities := [],
    currentActivity := "0",
    tasksInContainment := fun c => decide (c = 1),
    reconsiderScreen := fun v => v.currentScreen,
    AlwaysVisible := 0,
    DodgeActive := 2,
    WindowsGoBelow := 4 }

/-- The dock view of the dock of the examples. -/
def sampleView : DockView :=
  { containment := 1, onPrimary := true, currentScreen := "eDP-1", tasksPresent := true,
    location := BottomEdge, dockWin := true, managedLayout := "My" }

/-- A loaded layout of the examples: it holds the dock, its systray and the dock view. -/
def sampleLayout : Layout :=
  { Layout.fresh with
    m_layoutFile := samplePath, m_layoutName := "My", m_layoutGroup := some samplePath,
    m_corona := true, m_containments := [1, 2], m_dockViews := [(1, sampleView)],
    saveConnected := true }

/-- A second loaded layout of the examples, without containments. -/
def otherLayout : Layout :=
  { Layout.fresh with
    m_layoutFile := "/home/user/.config/latte/Other.layout.latte", m_layoutName := "Other",
    m_layoutGroup := some "/home/user/.config/latte/Other.layout.latte", m_corona := true }

/-- A world for the examples of screen changes: the containment at address `p` has id `p`,
the corona lists no containment, and the only screen is the primary one. -/
def goneScreenWorld : World :=
  { sampleWorld with
    containment := fun p => { sampleContainment p with id := p },
    coronaContainments := [] }

/-- An explicit dock view with tasks whose screen `HDMI-1` is not connected. -/
def goneView (c : ContainmentPtr) : DockView :=
  { containment := c, onPrimary := false, currentScreen := "HDMI-1", tasksPresent := true,
    location := BottomEdge, dockWin := true, managedLayout := "My" }

/-- A loaded layout with two explicit docks with tasks, of ids `5` and `3`, both on a
screen that is gone. -/
def goneScreenLayout : Layout :=
  { Layout.fresh with
    m_layoutName := "My", m_corona := true, m_containments := [5, 3],
    m_dockViews := [(5, goneView 5), (3, goneView 3)] }

/-- A world for the examples of forced loading: the containments at the addresses `3` and
`4` are Latte docks at the bottom edge whose entry `onPrimary` is false and whose screen
has the id `0`, and the corona reports an edge of the screen `0` as occupied when an
explicit view of the running layout stands at it. -/
def occupiedWorld : World :=
  { sampleWorld with
    containment := fun p =>
      if p = 3 ∨ p = 4 then
        { id := p, config := [⟨[], "onPrimary", KValue.bool false⟩], parent := 0, applets := [],
          screen := 0, lastScreen := 0, location := BottomEdge, kPackageValid := true,
          pluginId := "org.kde.latte.containment" }
      else sampleContainment p,
    coronaContainments := [3, 4],
    explicitDockOccupyEdge := fun views scr loc =>
      views.any (fun kv => decide (kv.2.onPrimary = false ∧ kv.2.location = loc ∧ scr = 0)) }

/-- The view of the explicit dock of the containment at address `3`, at the bottom edge of
the screen `eDP-1`. -/
def explicitView : DockView :=
  { containment := 3, onPrimary := false, currentScreen := "eDP-1", tasksPresent := false,
    location := BottomEdge, dockWin := true, managedLayout := "My" }

/-- A loaded layout that shows the explicit dock and holds a second dock without a view. -/
def occupiedLayout : Layout :=
  { Layout.fresh with
    m_layoutName := "My", m_corona := true, m_containments := [3, 4],
    m_dockViews := [(3, explicitView)] }

/-! # Theorems -/

/-! ## Entries of a config -/

namespace KConfig

theorem lookup_nil (g : List String) (k : String) : lookup [] g k = none := rfl

theorem lookup_cons (e : KEntry) (c : KConfig) (g : List String) (k : String) :
    lookup (e :: c) g k = if e.mGroup = g ∧ e.mKey = k then some e.value else lookup c g k := by
  unfold lookup
  by_cases h : e.mGroup = g ∧ e.mKey = k
  · simp [List.find?_cons, h]
  · rw [if_neg h, List.find?_cons]
    have : decide (e.mGroup = g ∧ e.mKey = k) = false := by simpa using h
    rw [this]

theorem hasKey_cons (e : KEntry) (c : KConfig) (g : List String) (k : String) :
    hasKey (e :: c) g k = (decide (e.mGroup = g ∧ e.mKey = k) || hasKey c g k) := by
  simp [hasKey]

theorem hasKey_eq_isSome (c : KConfig) (g : List String) (k : String) :
    hasKey c g k = (lookup c g k).isSome := by
  induction c with
  | nil => rfl
  | cons e c ih =>
    rw [hasKey_cons, lookup_cons, ih]
    by_cases h : e.mGroup = g ∧ e.mKey = k
    · simp [h]
    · rw [if_neg h]
      have : decide (e.mGroup = g ∧ e.mKey = k) = false := by simpa using h
      rw [this]; rfl

theorem lookup_map_write (c : KConfig) (g : List String) (k : String) (v : KValue)
    (g2 : List String) (k2 : String) :
    lookup (c.map (fun e => if e.mGroup = g ∧ e.mKey = k then { e with value := v } else e)) g2 k2
      = if g2 = g ∧ k2 = k then (lookup c g k).map (fun _ => v) else lookup c g2 k2 := by
  induction c with
  | nil => simp [lookup_nil]
  | cons e c ih =>
    rw [List.map_cons, lookup_cons, ih, lookup_cons, lookup_cons]
    by_cases he : e.mGroup = g ∧ e.mKey = k
    · by_cases h2 : g2 = g ∧ k2 = k
      · obtain ⟨rfl, rfl⟩ := h2
        simp [he]
      · have h4 : ¬ (g = g2 ∧ k = k2) := fun ⟨a, b⟩ => h2 ⟨a.symm, b.symm⟩
        simp [he, h2, h4]
    · by_cases h3 : e.mGroup = g2 ∧ e.mKey = k2
      · have h2 : ¬ (g2 = g ∧ k2 = k) := by
          rintro ⟨a, b⟩; exact he ⟨h3.1.trans a, h3.2.trans b⟩
        simp [he, h3, h2]
      · simp [he, h3]

theorem lookup_append_single (c : KConfig) (e : KEntry) (g : List String) (k : String) :
    lookup (c ++ [e]) g k =
      match lookup c g k with
      | some v => some v
      | none => if e.mGroup = g ∧ e.mKey = k then some e.value else none := by
  induction c with
  | nil => simp [lookup_cons, lookup_nil]
  | cons a c ih =>
    rw [List.cons_append, lookup_cons, lookup_cons, ih]
    by_cases h : a.mGroup = g ∧ a.mKey = k
    · simp [h]
    · simp [h]

/-- An entry read after a write: the written value under the written key, the old value
under every other key. -/
theorem lookup_writeEntry (c : KConfig) (g : List String) (k : String) (v : KValue)
    (g2 : List String) (k2 : String) :
    lookup (writeEntry c g k v) g2 k2 = if g2 = g ∧ k2 = k then some v else lookup c g2 k2 := by
  unfold writeEntry
  by_cases h : hasKey c g k = true
  · rw [if_pos h, lookup_map_write]
    rw [hasKey_eq_isSome, Option.isSome_iff_exists] at h
    obtain ⟨u, hu⟩ := h
    simp [hu]
  · rw [if_neg h, lookup_append_single]
    have h' : lookup c g k = none := by
      rw [hasKey_eq_isSome] at h
      simpa using h
    by_cases h2 : g2 = g ∧ k2 = k
    · obtain ⟨rfl, rfl⟩ := h2
      simp [h']
    · have : ¬ (g = g2 ∧ k = k2) := fun ⟨a, b⟩ => h2 ⟨a.symm, b.symm⟩
      simp only [this, if_false, h2]
      cases lookup c g2 k2 <;> rfl

end KConfig

theorem openConfig_setConfig (w : World) (path : String) (c : KConfig) :
    (w.setConfig path c).openConfig path = c := by
  unfold World.openConfig World.setConfig
  by_cases h : c = [] ∧ w.files path = none
  · simp [h]
  · simp [h]

theorem openConfig_setConfig_ne (w : World) (path : String) (c : KConfig) (q : String)
    (h : q ≠ path) : (w.setConfig path c).openConfig q = w.openConfig q := by
  simp [World.openConfig, World.setConfig, h]

/-- What the five entries read as once `saveConfig` has run on a bound handle. -/
theorem reads_after_save (w : World) (l : Layout) (f : String) (h : l.m_layoutGroup = some f) :
    ((saveConfig w l).openConfig f).readInt layoutSettings "version" 2 = l.m_version ∧
    ((saveConfig w l).openConfig f).readString layoutSettings "color" "blue" = l.m_color ∧
    ((saveConfig w l).openConfig f).readBool layoutSettings "showInMenu" false = l.m_showInMenu ∧
    ((saveConfig w l).openConfig f).readStringList layoutSettings "activities" []
      = l.m_activities ∧
    ((saveConfig w l).openConfig f).readStringList layoutSettings "launchers" []
      = l.m_launchers := by
  simp [saveConfig, h, openConfig_setConfig, KConfig.readInt, KConfig.readString,
    KConfig.readBool, KConfig.readStringList, KConfig.lookup_writeEntry]

theorem emit_fields (w : World) (l : Layout) (s : Signal) :
    (emit w l s).2 = { l with emitted := l.emitted ++ [s] } := by
  unfold emit
  split <;> rfl

/-! ## Hashes of strings -/

theorem strValue_cons (kv : String × String) (h : QStringHash) (k : String) :
    strValue (kv :: h) k = if kv.1 = k then kv.2 else strValue h k := by
  unfold strValue
  by_cases e : kv.1 = k
  · simp [List.find?_cons, e]
  · simp [List.find?_cons, e]

theorem strContains_cons (kv : String × String) (h : QStringHash) (k : String) :
    strContains (kv :: h) k = (decide (kv.1 = k) || strContains h k) := by
  simp [strContains]

theorem strContains_map_insert (h : QStringHash) (k v k2 : String) :
    strContains (h.map (fun kv => if kv.1 = k then (k, v) else kv)) k2 = strContains h k2 := by
  induction h with
  | nil => rfl
  | cons kv h ih =>
    rw [List.map_cons, strContains_cons, strContains_cons, ih]
    by_cases e : kv.1 = k
    · simp [e]
    · simp [e]

theorem strValue_map_insert (h : QStringHash) (k v k2 : String) :
    strValue (h.map (fun kv => if kv.1 = k then (k, v) else kv)) k2 =
      if k2 = k ∧ strContains h k = true then v else strValue h k2 := by
  induction h with
  | nil => simp [strValue, strContains]
  | cons kv h ih =>
    rw [List.map_cons, strValue_cons, ih, strValue_cons, strContains_cons]
    by_cases e : kv.1 = k
    · by_cases e2 : k2 = k
      · simp [e, e2]
      · have : ¬ k = k2 := fun x => e2 x.symm
        simp [e, e2, this]
    · by_cases e2 : k2 = k
      · subst e2
        simp [e]
      · simp [e, e2]

theorem strContains_append_single (h : QStringHash) (kv : String × String) (k : String) :
    strContains (h ++ [kv]) k = (strContains h k || decide (kv.1 = k)) := by
  simp [strContains]

theorem strValue_append_single (h : QStringHash) (kv : String × String) (k : String) :
    strValue (h ++ [kv]) k =
      if strContains h k = true then strValue h k else if kv.1 = k then kv.2 else "" := by
  induction h with
  | nil =>
    by_cases e : kv.1 = k
    · simp [strValue_cons, strValue, strContains, e]
    · simp [strValue_cons, strValue, strContains, e]
  | cons a h ih =>
    rw [List.cons_append, strValue_cons, strValue_cons, ih, strContains_cons]
    by_cases e : a.1 = k
    · simp [e]
    · simp [e]

/-- The keys of a hash after `h[k] = v`. -/
theorem strContains_insert (h : QStringHash) (k v k2 : String) :
    strContains (strInsert h k v) k2 = (decide (k2 = k) || strContains h k2) := by
  unfold strInsert
  by_cases c : strContains h k = true
  · rw [if_pos c, strContains_map_insert]
    by_cases e : k2 = k
    · subst e; simp [c]
    · simp [e]
  · rw [if_neg c, strContains_append_single]
    by_cases e : k2 = k
    · subst e; simp
    · have : ¬ k = k2 := fun x => e x.symm
      simp [e, this]

/-- The values of a hash after `h[k] = v`. -/
theorem strValue_insert (h : QStringHash) (k v k2 : String) :
    strValue (strInsert h k v) k2 = if k2 = k then v else strValue h k2 := by
  unfold strInsert
  by_cases c : strContains h k = true
  · rw [if_pos c, strValue_map_insert]
    by_cases e : k2 = k
    · simp [e, c]
    · simp [e]
  · rw [if_neg c, strValue_append_single]
    have c2 : strContains h k = false := by simpa using c
    by_cases e : k2 = k
    · subst e
      simp [c2]
    · have : ¬ k = k2 := fun x => e x.symm
      simp only [this, if_false, e]
      by_cases c3 : strContains h k2 = true
      · simp [c3]
      · have c4 : strContains h k2 = false := by simpa using c3
        rw [if_neg c3]
        unfold strValue
        unfold strContains at c4
        rw [List.any_eq_false] at c4
        have : h.find? (fun kv => decide (kv.1 = k2)) = none := by
          rw [List.find?_eq_none]
          intro x hx
          exact c4 x hx
        simp [this]

/-! ## New ids -/

/-- What `availableId` returns is the empty string or a text in neither list. -/
theorem availableIdLoop_spec (all assigned : List String) (fuel : Nat) (i : Int) :
    availableIdLoop all assigned fuel i = "" ∨
      (availableIdLoop all assigned fuel i ∉ all ∧ availableIdLoop all assigned fuel i ∉ assigned) := by
  induction fuel generalizing i with
  | zero => exact Or.inl rfl
  | succ fuel ih =>
    unfold availableIdLoop
    by_cases h : i < 32000
    · rw [if_pos h]
      simp only []
      by_cases h2 : ¬ (all.contains (qNumber i) = true) ∧ ¬ (assigned.contains (qNumber i) = true)
      · rw [if_pos h2]
        right
        exact ⟨by simpa using h2.1, by simpa using h2.2⟩
      · rw [if_neg h2]
        exact ih (i + 1)
    · rw [if_neg h]
      exact Or.inl rfl

/-- More rounds than the distance to 32000 change nothing: the fuel of `availableId` is
enough for the loop to end by its own test. -/
theorem availableIdLoop_fuel (all assigned : List String) (fuel : Nat) (i : Int)
    (h : (32000 - i).toNat ≤ fuel) :
    availableIdLoop all assigned fuel i = availableIdLoop all assigned (32000 - i).toNat i := by
  induction fuel generalizing i with
  | zero =>
    have : (32000 - i).toNat = 0 := by omega
    rw [this]
  | succ fuel ih =>
    by_cases hi : i < 32000
    · obtain ⟨n, hn⟩ : ∃ n, (32000 - i).toNat = n + 1 := ⟨(32000 - i).toNat - 1, by omega⟩
      rw [hn]
      unfold availableIdLoop
      rw [if_pos hi, if_pos hi]
      simp only []
      split
      · rfl
      · have h1 : (32000 - (i + 1)).toNat = n := by omega
        rw [ih (i + 1) (by omega), h1]
    · have : (32000 - i).toNat = 0 := by omega
      rw [this]
      unfold availableIdLoop
      rw [if_neg hi]

theorem availableId_spec (all assigned : List String) (base : Int) :
    availableId all assigned base = "" ∨
      (availableId all assigned base ∉ all ∧ availableId all assigned base ∉ assigned) :=
  availableIdLoop_spec all assigned _ base

theorem assignIds_ids_sub (allIds : List String) (base : Int) (ks : List String)
    (st : List String × QStringHash) (v : String) (hv : v ∈ st.1) :
    v ∈ (assignIds allIds base ks st).1 := by
  induction ks generalizing st with
  | nil => exact hv
  | cons k ks ih =>
    unfold assignIds
    exact ih _ (List.mem_append_left _ hv)

theorem assignIds_spec (allIds : List String) (base : Int) (ks : List String)
    (st : List String × QStringHash)
    (hg : GoodAssignment allIds st.1 st.2) (hnd : ks.Nodup)
    (hk : ∀ k ∈ ks, strContains st.2 k = false)
    (hne : "" ∉ (assignIds allIds base ks st).1) :
    GoodAssignment allIds (assignIds allIds base ks st).1 (assignIds allIds base ks st).2 ∧
    ∀ k, strContains (assignIds allIds base ks st).2 k = true ↔
      (strContains st.2 k = true ∨ k ∈ ks) := by
  induction ks generalizing st with
  | nil =>
    refine ⟨hg, fun k => ?_⟩
    simp [assignIds]
  | cons k ks ih =>
    unfold assignIds at hne ⊢
    simp only [] at hne ⊢
    have hnew : availableId allIds st.1 base ≠ "" := by
      intro e
      apply hne
      apply assignIds_ids_sub
      rw [e]
      simp
    obtain ⟨hf1, hf2⟩ := (availableId_spec allIds st.1 base).resolve_left hnew
    have hkf : strContains st.2 k = false := hk k (List.mem_cons_self _ _)
    have hg' : GoodAssignment allIds (st.1 ++ [availableId allIds st.1 base])
        (strInsert st.2 k (availableId allIds st.1 base)) := by
      obtain ⟨g1, g2, g3⟩ := hg
      refine ⟨?_, ?_, ?_⟩
      · intro k1 hk1
        rw [strValue_insert]
        rw [strContains_insert] at hk1
        by_cases e : k1 = k
        · simp [e]
        · simp only [e, decide_False, Bool.false_or] at hk1
          rw [if_neg e]
          exact List.mem_append_left _ (g1 k1 hk1)
      · intro k1 k2 hk1 hk2 hv
        rw [strValue_insert, strValue_insert] at hv
        rw [strContains_insert] at hk1 hk2
        by_cases e1 : k1 = k
        · by_cases e2 : k2 = k
          · rw [e1, e2]
          · simp only [e2, decide_False, Bool.false_or] at hk2
            rw [if_pos e1, if_neg e2] at hv
            exact absurd (hv ▸ g1 k2 hk2) hf2
        · simp only [e1, decide_False, Bool.false_or] at hk1
          by_cases e2 : k2 = k
          · rw [if_neg e1, if_pos e2] at hv
            exact absurd (hv ▸ g1 k1 hk1) hf2
          · simp only [e2, decide_False, Bool.false_or] at hk2
            rw [if_neg e1, if_neg e2] at hv
            exact g2 k1 k2 hk1 hk2 hv
      · intro v hv
        rcases List.mem_append.mp hv with hv | hv
        · exact g3 v hv
        · rw [List.mem_singleton.mp hv]
          exact hf1
    have hk' : ∀ k' ∈ ks, strContains (strInsert st.2 k (availableId allIds st.1 base)) k' = false := by
      intro k' hk'
      rw [strContains_insert]
      have e : k' ≠ k := fun e => (List.nodup_cons.mp hnd).1 (e ▸ hk')
      simp [e, hk k' (List.mem_cons_of_mem _ hk')]
    obtain ⟨r1, r2⟩ := ih _ hg' (List.nodup_cons.mp hnd).2 hk' hne
    refine ⟨r1, fun k' => ?_⟩
    rw [r2 k', strContains_insert]
    by_cases e : k' = k
    · simp [e]
    · have e' : ¬ k = k' := fun x => e x.symm
      simp [e, e']

theorem fixSwap_spec (allIds : List String) (h : QStringHash) (cId : String)
    (hi : InjectiveFresh allIds h) (hc : strContains h cId = true) :
    InjectiveFresh allIds (fixSwap h cId) ∧
      ∀ k, strContains (fixSwap h cId) k = strContains h k := by
  unfold fixSwap
  simp only []
  by_cases h1 : strContains h (strValue h cId) = true
  · rw [if_pos h1]
    by_cases h2 : cId ≠ strValue h cId ∧ strValue h (strValue h cId) ≠ "" ∧
        cId = strValue h (strValue h cId)
    · rw [if_pos h2]
      obtain ⟨hne, _, hback⟩ := h2
      obtain ⟨inj, fresh⟩ := hi
      have hkeys : ∀ k, strContains (strInsert (strInsert h cId cId) (strValue h cId)
          (strValue h cId)) k = strContains h k := by
        intro k
        rw [strContains_insert, strContains_insert]
        by_cases e1 : k = strValue h cId
        · rw [e1]; simp [h1]
        · by_cases e2 : k = cId
          · rw [e2]; simp [hc]
          · simp [e1, e2]
      have hval : ∀ k, strValue (strInsert (strInsert h cId cId) (strValue h cId)
          (strValue h cId)) k =
          if k = strValue h cId then strValue h cId else if k = cId then cId else strValue h k := by
        intro k
        rw [strValue_insert, strValue_insert]
      refine ⟨⟨?_, ?_⟩, hkeys⟩
      · intro k1 k2 hk1 hk2 hv
        rw [hkeys] at hk1 hk2
        rw [hval, hval] at hv
        by_cases a1 : k1 = strValue h cId
        · by_cases b1 : k2 = strValue h cId
          · rw [a1, b1]
          · rw [if_pos a1, if_neg b1] at hv
            by_cases b2 : k2 = cId
            · rw [if_pos b2] at hv
              exact absurd hv.symm hne
            · rw [if_neg b2] at hv
              exact absurd (inj k2 cId hk2 hc hv.symm) b2
        · rw [if_neg a1] at hv
          by_cases a2 : k1 = cId
          · rw [if_pos a2] at hv
            by_cases b1 : k2 = strValue h cId
            · rw [if_pos b1] at hv
              exact absurd hv hne
            · rw [if_neg b1] at hv
              by_cases b2 : k2 = cId
              · rw [a2, b2]
              · rw [if_neg b2] at hv
                rw [hback] at hv
                exact absurd (inj k2 _ hk2 h1 hv.symm) b1
          · rw [if_neg a2] at hv
            by_cases b1 : k2 = strValue h cId
            · rw [if_pos b1] at hv
              exact absurd (inj k1 cId hk1 hc hv) a2
            · rw [if_neg b1] at hv
              by_cases b2 : k2 = cId
              · rw [if_pos b2] at hv
                rw [hback] at hv
                exact absurd (inj k1 _ hk1 h1 hv) a1
              · rw [if_neg b2] at hv
                exact inj k1 k2 hk1 hk2 hv
      · intro k hk
        rw [hkeys] at hk
        rw [hval]
        by_cases a1 : k = strValue h cId
        · rw [if_pos a1]
          exact fresh cId hc
        · rw [if_neg a1]
          by_cases a2 : k = cId
          · rw [if_pos a2, hback]
            exact fresh _ h1
          · rw [if_neg a2]
            exact fresh k hk
    · rw [if_neg h2]
      exact ⟨hi, fun _ => rfl⟩
  · rw [if_neg h1]
    exact ⟨hi, fun _ => rfl⟩

theorem fixSwap_foldl_spec (allIds : List String) (ks : List String) (h : QStringHash)
    (hi : InjectiveFresh allIds h) (hc : ∀ k ∈ ks, strContains h k = true) :
    InjectiveFresh allIds (ks.foldl fixSwap h) ∧
      ∀ k, strContains (ks.foldl fixSwap h) k = strContains h k := by
  induction ks generalizing h with
  | nil => exact ⟨hi, fun _ => rfl⟩
  | cons k ks ih =>
    rw [List.foldl_cons]
    obtain ⟨s1, s2⟩ := fixSwap_spec allIds h k hi (hc k (List.mem_cons_self _ _))
    obtain ⟨r1, r2⟩ := ih (fixSwap h k) s1
      (fun k' hk' => by rw [s2]; exact hc k' (List.mem_cons_of_mem _ hk'))
    exact ⟨r1, fun k' => by rw [r2, s2]⟩

/-- The hash `assigned` of `newUniqueIdsLayoutFromFile` when the ids of the file are
pairwise distinct and no new id is empty: every id of the file is a key, no value is an
id of the corona, and different keys have different values. -/
theorem fixedAssignments_spec (allIds : List String) (cfg : KConfig)
    (hnd : (investigatedContainmentIds cfg ++ investigatedAppletIds cfg).Nodup)
    (hne : "" ∉ (assignAll allIds cfg).1) :
    InjectiveFresh allIds (fixedAssignments allIds cfg) ∧
    ∀ k, strContains (fixedAssignments allIds cfg) k = true ↔
      (k ∈ investigatedContainmentIds cfg ∨ k ∈ investigatedAppletIds cfg) := by
  obtain ⟨nd1, nd2, dis⟩ := List.nodup_append.mp hnd
  unfold assignAll at hne
  have g0 : GoodAssignment allIds ([] : List String) ([] : QStringHash) := by
    refine ⟨?_, ?_, ?_⟩
    · intro k hk; simp [strContains] at hk
    · intro k1 k2 hk; simp [strContains] at hk
    · intro v hv; simp at hv
  have hne1 : "" ∉ (assignIds allIds 12 (investigatedContainmentIds cfg) ([], [])).1 :=
    fun hx => hne (assignIds_ids_sub _ _ _ _ _ hx)
  obtain ⟨a1, a2⟩ := assignIds_spec allIds 12 (investigatedContainmentIds cfg) ([], []) g0 nd1
    (fun k _ => by simp [strContains]) hne1
  have hk2 : ∀ k ∈ investigatedAppletIds cfg,
      strContains (assignIds allIds 12 (investigatedContainmentIds cfg) ([], [])).2 k = false := by
    intro k hk
    cases hx : strContains (assignIds allIds 12 (investigatedContainmentIds cfg) ([], [])).2 k
    · rfl
    · rcases (a2 k).mp hx with hy | hy
      · simp [strContains] at hy
      · exact absurd hk (dis hy)
  obtain ⟨b1, b2⟩ := assignIds_spec allIds 40 (investigatedAppletIds cfg) _ a1 nd2 hk2 hne
  have keys : ∀ k, strContains (assignAll allIds cfg).2 k = true ↔
      (k ∈ investigatedContainmentIds cfg ∨ k ∈ investigatedAppletIds cfg) := by
    intro k
    unfold assignAll
    rw [b2 k, a2 k]
    simp [strContains]
  have hif : InjectiveFresh allIds (assignAll allIds cfg).2 := by
    obtain ⟨g1, g2, g3⟩ := b1
    exact ⟨g2, fun k hk => g3 _ (g1 k hk)⟩
  obtain ⟨c1, c2⟩ := fixSwap_foldl_spec allIds (investigatedContainmentIds cfg) _ hif
    (fun k hk => (keys k).mpr (Or.inl hk))
  obtain ⟨d1, d2⟩ := fixSwap_foldl_spec allIds (investigatedAppletIds cfg) _ c1
    (fun k hk => by rw [c2]; exact (keys k).mpr (Or.inr hk))
  refine ⟨d1, fun k => ?_⟩
  unfold fixedAssignments
  rw [d2, c2]
  exact keys k

/-! ## Groups of a config -/

theorem isPrefixOf_iff (g p : List String) : g.isPrefixOf p = true ↔ g <+: p :=
  List.isPrefixOf_iff_prefix

theorem childOf_eq_some (g p : List String) (x : String) :
    KConfig.childOf g p = some x ↔ (g ++ [x]) <+: p := by
  unfold KConfig.childOf
  constructor
  · intro h
    by_cases hp : g.isPrefixOf p = true
    · rw [if_pos hp] at h
      obtain ⟨t, rfl⟩ := (isPrefixOf_iff g p).mp hp
      rw [List.drop_left] at h
      cases t with
      | nil => simp at h
      | cons y t =>
        simp only [List.head?_cons, Option.some.injEq] at h
        subst h
        exact ⟨t, by simp⟩
    · rw [if_neg hp] at h
      exact absurd h (by simp)
  · rintro ⟨t, rfl⟩
    have hp : g.isPrefixOf (g ++ [x] ++ t) = true :=
      (isPrefixOf_iff _ _).mpr ⟨[x] ++ t, by simp⟩
    rw [if_pos hp]
    have : g ++ [x] ++ t = g ++ (x :: t) := by simp
    rw [this, List.drop_left]
    rfl

/-- A name is in the group list of `g` exactly when the group of that name below `g`
exists. -/
theorem mem_groupList (c : KConfig) (g : List String) (x : String) :
    x ∈ c.groupList g ↔ groupExists c (g ++ [x]) := by
  unfold KConfig.groupList groupExists
  rw [List.mem_dedup, List.mem_filterMap]
  constructor
  · rintro ⟨e, he, hx⟩
    exact ⟨e, he, (childOf_eq_some _ _ _).mp hx⟩
  · rintro ⟨e, he, hx⟩
    exact ⟨e, he, (childOf_eq_some _ _ _).mpr hx⟩

theorem hasKey_iff (c : KConfig) (g : List String) (k : String) :
    c.hasKey g k = true ↔ ∃ e ∈ c, e.mGroup = g ∧ e.mKey = k := by
  unfold KConfig.hasKey
  rw [List.any_eq_true]
  constructor
  · rintro ⟨e, he, hx⟩
    exact ⟨e, he, by simpa using hx⟩
  · rintro ⟨e, he, hx⟩
    exact ⟨e, he, by simpa using hx⟩

/-- The groups of the entries after a write: the groups before, and the group written. -/
theorem mem_writeEntry_group (c : KConfig) (g : List String) (k : String) (v : KValue)
    (p : List String) :
    (∃ e ∈ c.writeEntry g k v, e.mGroup = p) ↔ ((∃ e ∈ c, e.mGroup = p) ∨ p = g) := by
  unfold KConfig.writeEntry
  by_cases h : c.hasKey g k = true
  · rw [if_pos h]
    obtain ⟨e0, he0, hg0, _⟩ := (hasKey_iff c g k).mp h
    constructor
    · rintro ⟨e, he, hp⟩
      rw [List.mem_map] at he
      obtain ⟨e1, he1, rfl⟩ := he
      left
      refine ⟨e1, he1, ?_⟩
      rw [← hp]
      split <;> rfl
    · rintro (⟨e, he, hp⟩ | hp)
      · refine ⟨_, List.mem_map.mpr ⟨e, he, rfl⟩, ?_⟩
        rw [← hp]
        split <;> rfl
      · refine ⟨_, List.mem_map.mpr ⟨e0, he0, rfl⟩, ?_⟩
        rw [hp, ← hg0]
        split <;> rfl
  · rw [if_neg h]
    constructor
    · rintro ⟨e, he, hp⟩
      rcases List.mem_append.mp he with he | he
      · exact Or.inl ⟨e, he, hp⟩
      · rw [List.mem_singleton.mp he] at hp
        exact Or.inr hp.symm
    · rintro (⟨e, he, hp⟩ | hp)
      · exact ⟨e, List.mem_append_left _ he, hp⟩
      · exact ⟨⟨g, k, v⟩, List.mem_append_right _ (List.mem_singleton.mpr rfl), hp.symm⟩

theorem groupExists_iff (c : KConfig) (p : List String) :
    groupExists c p ↔ ∃ q, (∃ e ∈ c, e.mGroup = q) ∧ p <+: q := by
  unfold groupExists
  constructor
  · rintro ⟨e, he, hp⟩
    exact ⟨e.mGroup, ⟨e, he, rfl⟩, hp⟩
  · rintro ⟨q, ⟨e, he, rfl⟩, hp⟩
    exact ⟨e, he, hp⟩

/-- A write into a group that exists makes no new group. -/
theorem groupExists_writeEntry (c : KConfig) (g : List String) (k : String) (v : KValue)
    (hg : groupExists c g) (p : List String) :
    groupExists (c.writeEntry g k v) p ↔ groupExists c p := by
  rw [groupExists_iff, groupExists_iff]
  constructor
  · rintro ⟨q, hq, hp⟩
    rcases (mem_writeEntry_group c g k v q).mp hq with hq | hq
    · exact ⟨q, hq, hp⟩
    · obtain ⟨e, he, hge⟩ := hg
      exact ⟨e.mGroup, ⟨e, he, rfl⟩, (hq ▸ hp).trans hge⟩
  · rintro ⟨q, hq, hp⟩
    exact ⟨q, (mem_writeEntry_group c g k v q).mpr (Or.inl hq), hp⟩

theorem lookup_some_groupExists (c : KConfig) (g : List String) (k : String)
    (h : c.lookup g k ≠ none) : groupExists c g := by
  have h2 : c.hasKey g k = true := by
    rw [KConfig.hasKey_eq_isSome]
    exact Option.isSome_iff_ne_none.mpr h
  obtain ⟨e, he, hg, _⟩ := (hasKey_iff c g k).mp h2
  exact ⟨e, he, hg ▸ List.prefix_refl _⟩

theorem fixOrder_groups (assigned : QStringHash) (cfg : KConfig) (cId settingStr : String)
    (p : List String) :
    groupExists (fixOrder assigned cfg cId settingStr) p ↔ groupExists cfg p := by
  unfold fixOrder
  simp only []
  by_cases h : cfg.readString (contGroup cId ++ ["General"]) settingStr "" ≠ ""
  · rw [if_pos h]
    apply groupExists_writeEntry
    apply lookup_some_groupExists cfg _ settingStr
    intro hn
    apply h
    unfold KConfig.readString
    rw [hn]
  · rw [if_neg h]

theorem fixContainment_groups (usage : MemoryUsage) (layoutName : String)
    (assigned : QStringHash) (cfg : KConfig) (cId : String)
    (hc : groupExists cfg (contGroup cId)) (p : List String) :
    groupExists (fixContainment usage layoutName assigned cfg cId) p ↔ groupExists cfg p := by
  unfold fixContainment
  simp only []
  have h2 : ∀ q, groupExists (fixOrder assigned (fixOrder assigned cfg cId "appletOrder") cId
      "lockedZoomApplets") q ↔ groupExists cfg q := by
    intro q
    rw [fixOrder_groups, fixOrder_groups]
  split
  · rw [groupExists_writeEntry _ _ _ _ ((h2 _).mpr hc), h2]
  · exact h2 p

theorem fixContainment_foldl_groups (usage : MemoryUsage) (layoutName : String)
    (assigned : QStringHash) (cs : List String) (cfg0 cfg : KConfig)
    (hc : ∀ c ∈ cs, groupExists cfg0 (contGroup c))
    (h0 : ∀ p, groupExists cfg p ↔ groupExists cfg0 p) (p : List String) :
    groupExists (cs.foldl (fixContainment usage layoutName assigned) cfg) p ↔
      groupExists cfg0 p := by
  induction cs generalizing cfg with
  | nil => exact h0 p
  | cons c cs ih =>
    rw [List.foldl_cons]
    refine ih _ (fun c' hc' => hc c' (List.mem_cons_of_mem _ hc')) ?_
    intro q
    rw [fixContainment_groups usage layoutName assigned cfg c
      ((h0 _).mpr (hc c (List.mem_cons_self _ _))), h0]

/-- The two systray hashes give, for a recorded systray id, the containment and the applet
of one and the same record. -/
theorem systray_hashes (T : List (String × String × String)) (s : String)
    (hs : s ∈ T.map (fun t => t.1)) :
    ∃ t ∈ T, strValue (T.foldl (fun h t => strInsert h t.1 t.2.1) []) s = t.2.1 ∧
      strValue (T.foldl (fun h t => strInsert h t.1 t.2.2) []) s = t.2.2 := by
  induction T using List.reverseRecOn with
  | nil => simp at hs
  | append_singleton T t ih =>
    rw [List.foldl_append, List.foldl_append]
    simp only [List.foldl_cons, List.foldl_nil, strValue_insert]
    by_cases e : s = t.1
    · exact ⟨t, by simp, by simp [e], by simp [e]⟩
    · have hs' : s ∈ T.map (fun t => t.1) := by
        simp only [List.map_append, List.map_cons, List.map_nil, List.mem_append,
          List.mem_singleton] at hs
        rcases hs with hs | hs
        · exact hs
        · exact absurd hs e
      obtain ⟨t', ht', h1, h2⟩ := ih hs'
      exact ⟨t', List.mem_append_left _ ht', by simp [e, h1], by simp [e, h2]⟩

theorem systraysIn_groupExists (cfg : KConfig) (cId : String) (t : String × String × String)
    (ht : t ∈ systraysIn cfg cId) : groupExists cfg (appletConfiguration t.2.1 t.2.2) := by
  unfold systraysIn at ht
  rw [List.mem_filterMap] at ht
  obtain ⟨appletId, _, h⟩ := ht
  simp only [] at h
  by_cases hx : cfg.readInt (appletConfiguration cId appletId) "SystrayContainmentId" (-1) ≠ -1
  · rw [if_pos hx] at h
    have : t = (qNumber (cfg.readInt (appletConfiguration cId appletId) "SystrayContainmentId" (-1)),
        cId, appletId) := (Option.some.inj h).symm
    rw [this]
    apply lookup_some_groupExists cfg _ "SystrayContainmentId"
    intro hn
    apply hx
    unfold KConfig.readInt
    rw [hn]
  · rw [if_neg hx] at h
    exact absurd h (by simp)

theorem fixSystray_foldl_groups (assigned parents applets : QStringHash) (ss : List String)
    (cfg0 cfg : KConfig)
    (hs : ∀ s ∈ ss, groupExists cfg0 (appletConfiguration (strValue parents s) (strValue applets s)))
    (h0 : ∀ p, groupExists cfg p ↔ groupExists cfg0 p) (p : List String) :
    groupExists (ss.foldl (fixSystray assigned parents applets) cfg) p ↔ groupExists cfg0 p := by
  induction ss generalizing cfg with
  | nil => exact h0 p
  | cons s ss ih =>
    rw [List.foldl_cons]
    refine ih _ (fun s' hs' => hs s' (List.mem_cons_of_mem _ hs')) ?_
    intro q
    unfold fixSystray
    rw [groupExists_writeEntry _ _ _ _ ((h0 _).mpr (hs s (List.mem_cons_self _ _))), h0]

/-- The updates of the file make no new group and remove none. -/
theorem updatedFile_groups (usage : MemoryUsage) (layoutName : String) (assigned : QStringHash)
    (cfg : KConfig) (p : List String) :
    groupExists (updatedFile usage layoutName assigned cfg) p ↔ groupExists cfg p := by
  unfold updatedFile
  simp only []
  apply fixSystray_foldl_groups
  · intro s hs
    obtain ⟨t, ht, h1, h2⟩ := systray_hashes _ s hs
    rw [h1, h2]
    rw [List.mem_flatMap] at ht
    obtain ⟨cId, _, htc⟩ := ht
    exact systraysIn_groupExists cfg cId t htc
  · intro q
    apply fixContainment_foldl_groups
    · intro c hc
      exact (mem_groupList cfg ["Containments"] c).mp hc
    · intro _; rfl

/-! ## The copy into the second file -/

theorem foldl_write_groups (L : List KEntry) (sg dg : List String) (dst : KConfig) (e : KEntry)
    (he : e ∈ L.foldl
      (fun acc e => acc.writeEntry (dg ++ e.mGroup.drop sg.length) e.mKey e.value) dst) :
    (∃ e0 ∈ dst, e0.mGroup = e.mGroup) ∨
      (∃ e1 ∈ L, e.mGroup = dg ++ e1.mGroup.drop sg.length) := by
  induction L generalizing dst with
  | nil => exact Or.inl ⟨e, he, rfl⟩
  | cons x L ih =>
    rw [List.foldl_cons] at he
    rcases ih _ he with h | ⟨e1, h1, h2⟩
    · rcases (mem_writeEntry_group dst _ x.mKey x.value e.mGroup).mp h with h | h
      · exact Or.inl h
      · exact Or.inr ⟨x, List.mem_cons_self _ _, h⟩
    · exact Or.inr ⟨e1, List.mem_cons_of_mem _ h1, h2⟩

/-- The group of an entry after a copy: a group of the target before, or the copy of a
group of the source. -/
theorem copyGroup_groups (src : KConfig) (sg : List String) (dst : KConfig) (dg : List String)
    (e : KEntry) (he : e ∈ KConfig.copyGroup src sg dst dg) :
    (∃ e0 ∈ dst, e0.mGroup = e.mGroup) ∨
      (∃ e1 ∈ src, sg <+: e1.mGroup ∧ e.mGroup = dg ++ e1.mGroup.drop sg.length) := by
  unfold KConfig.copyGroup at he
  rcases foldl_write_groups _ sg dg dst e he with h | ⟨e1, h1, h2⟩
  · exact Or.inl h
  · unfold KConfig.entriesBelow at h1
    rw [List.mem_filter] at h1
    exact Or.inr ⟨e1, h1.1, (isPrefixOf_iff _ _).mp h1.2, h2⟩

theorem mem_deleteGroup (c : KConfig) (g : List String) (e : KEntry) :
    e ∈ c.deleteGroup g ↔ e ∈ c ∧ ¬ g <+: e.mGroup := by
  unfold KConfig.deleteGroup
  rw [List.mem_filter]
  constructor
  · rintro ⟨h1, h2⟩
    refine ⟨h1, fun h3 => ?_⟩
    rw [(isPrefixOf_iff _ _).mpr h3] at h2
    exact absurd h2 (by decide)
  · rintro ⟨h1, h2⟩
    refine ⟨h1, ?_⟩
    cases hx : g.isPrefixOf e.mGroup
    · rfl
    · exact absurd ((isPrefixOf_iff _ _).mp hx) h2

theorem copyDelete_written (A : QStringHash) (src dst : KConfig) (c : String)
    (hw : WrittenWell A src dst) (hc : groupExists src (contGroup c)) :
    WrittenWell A src
      ((KConfig.copyGroup src (contGroup c) dst (contGroup (strValue A c))).deleteGroup
        (appletsGroup (strValue A c))) := by
  intro e he
  rw [mem_deleteGroup] at he
  obtain ⟨he1, he2⟩ := he
  rcases copyGroup_groups _ _ _ _ e he1 with ⟨e0, h0, hg⟩ | ⟨e1, _, _, hg⟩
  · rw [← hg]
    exact hw e0 h0
  · refine ⟨c, e1.mGroup.drop (contGroup c).length, hc, ?_, ?_⟩
    · rw [hg]; rfl
    · intro x rest' hr
      exfalso
      apply he2
      rw [hg, hr]
      exact ⟨x :: rest', rfl⟩

theorem copyApplet_written (A : QStringHash) (src dst : KConfig) (c a : String)
    (hw : WrittenWell A src dst) (hc : groupExists src (contGroup c))
    (ha : groupExists src (appletsGroup c ++ [a])) :
    WrittenWell A src
      (KConfig.copyGroup src (appletsGroup c ++ [a]) dst
        (appletsGroup (strValue A c) ++ [strValue A a])) := by
  intro e he
  rcases copyGroup_groups _ _ _ _ e he with ⟨e0, h0, hg⟩ | ⟨e1, _, _, hg⟩
  · rw [← hg]
    exact hw e0 h0
  · refine ⟨c, "Applets" :: strValue A a :: e1.mGroup.drop (appletsGroup c ++ [a]).length,
      hc, ?_, ?_⟩
    · rw [hg]; rfl
    · intro x rest' hr
      refine ⟨a, ha, ?_⟩
      have := (List.cons.inj (List.cons.inj hr).2).1
      exact this.symm

theorem copyApplet_foldl (file tempFile : String) (hne : file ≠ tempFile) (A : QStringHash)
    (src : KConfig) (c : String) (hc : groupExists src (contGroup c))
    (apps : List String) (w : World)
    (ha : ∀ a ∈ apps, groupExists src (appletsGroup c ++ [a]))
    (h1 : w.openConfig file = src) (h2 : WrittenWell A src (w.openConfig tempFile)) :
    (apps.foldl (copyApplet file tempFile A c) w).openConfig file = src ∧
      WrittenWell A src ((apps.foldl (copyApplet file tempFile A c) w).openConfig tempFile) := by
  induction apps generalizing w with
  | nil => exact ⟨h1, h2⟩
  | cons a apps ih =>
    rw [List.foldl_cons]
    refine ih _ (fun a' ha' => ha a' (List.mem_cons_of_mem _ ha')) ?_ ?_
    · unfold copyApplet
      rw [openConfig_setConfig_ne _ _ _ _ hne, h1]
    · unfold copyApplet
      rw [openConfig_setConfig, h1]
      exact copyApplet_written A src _ c a h2 hc (ha a (List.mem_cons_self _ _))

theorem copyContainment_step (file tempFile : String) (hne : file ≠ tempFile) (A : QStringHash)
    (src : KConfig) (c : String) (hc : groupExists src (contGroup c)) (w : World)
    (h1 : w.openConfig file = src) (h2 : WrittenWell A src (w.openConfig tempFile)) :
    (copyContainment file tempFile A w c).openConfig file = src ∧
      WrittenWell A src ((copyContainment file tempFile A w c).openConfig tempFile) := by
  unfold copyContainment
  simp only []
  have e1 : ∀ (w' : World) (cfg : KConfig), (w'.setConfig tempFile cfg).openConfig file
      = w'.openConfig file := fun w' cfg => openConfig_setConfig_ne _ _ _ _ hne
  apply copyApplet_foldl file tempFile hne A src c hc
  · intro a ha
    rw [e1, e1, h1] at ha
    exact (mem_groupList src (appletsGroup c) a).mp ha
  · rw [e1, e1, h1]
  · rw [openConfig_setConfig, openConfig_setConfig, h1]
    exact copyDelete_written A src _ c h2 hc

theorem copyContainment_foldl (file tempFile : String) (hne : file ≠ tempFile) (A : QStringHash)
    (src : KConfig) (cs : List String) (w : World)
    (hc : ∀ c ∈ cs, groupExists src (contGroup c))
    (h1 : w.openConfig file = src) (h2 : WrittenWell A src (w.openConfig tempFile)) :
    WrittenWell A src ((cs.foldl (copyContainment file tempFile A) w).openConfig tempFile) := by
  induction cs generalizing w with
  | nil => exact h2
  | cons c cs ih =>
    rw [List.foldl_cons]
    obtain ⟨s1, s2⟩ := copyContainment_step file tempFile hne A src c
      (hc c (List.mem_cons_self _ _)) w h1 h2
    exact ih _ (fun c' hc' => hc c' (List.mem_cons_of_mem _ hc')) s1 s2

/-! ## The ids of the second file -/

theorem written_containment (A : QStringHash) (cfg src out : KConfig)
    (hsrc : ∀ p, groupExists src p ↔ groupExists cfg p) (hw : WrittenWell A src out)
    (x : String) (hx : x ∈ out.groupList ["Containments"]) :
    ∃ c ∈ investigatedContainmentIds cfg, x = strValue A c := by
  obtain ⟨e, he, hp⟩ := (mem_groupList out _ x).mp hx
  obtain ⟨c, rest, hc, hg, _⟩ := hw e he
  rw [hg] at hp
  have h1 : "Containments" :: [x] <+: "Containments" :: strValue A c :: rest := hp
  rw [List.cons_prefix_cons, List.cons_prefix_cons] at h1
  exact ⟨c, (mem_groupList cfg ["Containments"] c).mpr ((hsrc _).mp hc), h1.2.1⟩

theorem written_applet (A : QStringHash) (cfg src out : KConfig)
    (hsrc : ∀ p, groupExists src p ↔ groupExists cfg p) (hw : WrittenWell A src out)
    (x y : String) (hy : y ∈ out.groupList ["Containments", x, "Applets"]) :
    ∃ c ∈ investigatedContainmentIds cfg, ∃ a ∈ cfg.groupList (appletsGroup c),
      x = strValue A c ∧ y = strValue A a := by
  obtain ⟨e, he, hp⟩ := (mem_groupList out _ y).mp hy
  obtain ⟨c, rest, hc, hg, hcl⟩ := hw e he
  rw [hg] at hp
  have h1 : "Containments" :: x :: "Applets" :: [y] <+: "Containments" :: strValue A c :: rest := hp
  rw [List.cons_prefix_cons, List.cons_prefix_cons] at h1
  obtain ⟨_, hxc, h2⟩ := h1
  obtain ⟨t, ht⟩ := h2
  obtain ⟨a, ha, hya⟩ := hcl y t (by rw [← ht]; rfl)
  exact ⟨c, (mem_groupList cfg ["Containments"] c).mpr ((hsrc _).mp hc), a,
    (mem_groupList cfg (appletsGroup c) a).mpr ((hsrc _).mp ha), hxc, hya⟩

/-- The ids of a file written well through an injective hash with fresh values: none is
an id of the corona and none occurs twice. -/
theorem written_ids_good (allIds : List String) (A : QStringHash) (cfg src out : KConfig)
    (hA : InjectiveFresh allIds A)
    (hkeys : ∀ k, strContains A k = true ↔
      (k ∈ investigatedContainmentIds cfg ∨ k ∈ investigatedAppletIds cfg))
    (hsrc : ∀ p, groupExists src p ↔ groupExists cfg p)
    (hnd : (investigatedContainmentIds cfg ++ investigatedAppletIds cfg).Nodup)
    (hw : WrittenWell A src out) :
    (∀ id ∈ configIds out, id ∉ allIds) ∧ (configIds out).Nodup := by
  obtain ⟨inj, fresh⟩ := hA
  obtain ⟨_, nd2, dis⟩ := List.nodup_append.mp hnd
  have happ : ∀ c ∈ investigatedContainmentIds cfg, ∀ a ∈ cfg.groupList (appletsGroup c),
      a ∈ investigatedAppletIds cfg := by
    intro c hc a ha
    unfold investigatedAppletIds
    exact List.mem_flatMap.mpr ⟨c, hc, ha⟩
  have hpair := (List.nodup_flatMap.mp nd2).2
  have hdisj : ∀ c1 ∈ investigatedContainmentIds cfg, ∀ c2 ∈ investigatedContainmentIds cfg,
      c1 ≠ c2 → ∀ a, a ∈ cfg.groupList (appletsGroup c1) → a ∈ cfg.groupList (appletsGroup c2) →
      False := by
    intro c1 h1 c2 h2 hne a ha1 ha2
    have hsym : Symmetric (Function.onFun List.Disjoint
        (fun cId => cfg.groupList (appletsGroup cId))) := by
      intro u v huv
      exact List.Disjoint.symm huv
    exact (List.Pairwise.forall hsym hpair h1 h2 hne) ha1 ha2
  constructor
  · intro id hid
    unfold configIds at hid
    rcases List.mem_append.mp hid with h | h
    · obtain ⟨c, hc, rfl⟩ := written_containment A cfg src out hsrc hw id h
      exact fresh c ((hkeys c).mpr (Or.inl hc))
    · obtain ⟨x, _, hy⟩ := List.mem_flatMap.mp h
      obtain ⟨c, hc, a, ha, _, rfl⟩ := written_applet A cfg src out hsrc hw x id hy
      exact fresh a ((hkeys a).mpr (Or.inr (happ c hc a ha)))
  · unfold configIds
    rw [List.nodup_append]
    refine ⟨List.nodup_dedup _, ?_, ?_⟩
    · rw [List.nodup_flatMap]
      refine ⟨fun x _ => List.nodup_dedup _, ?_⟩
      apply List.Nodup.pairwise_of_forall_ne (List.nodup_dedup _)
      intro x1 _ x2 _ hne y hy1 hy2
      obtain ⟨c1, hc1, a1, ha1, hx1, hya1⟩ := written_applet A cfg src out hsrc hw x1 y hy1
      obtain ⟨c2, hc2, a2, ha2, hx2, hya2⟩ := written_applet A cfg src out hsrc hw x2 y hy2
      have ha : a1 = a2 := inj a1 a2 ((hkeys a1).mpr (Or.inr (happ c1 hc1 a1 ha1)))
        ((hkeys a2).mpr (Or.inr (happ c2 hc2 a2 ha2))) (hya1.symm.trans hya2)
      have hcne : c1 ≠ c2 := by
        intro e
        apply hne
        rw [hx1, hx2, e]
      exact hdisj c1 hc1 c2 hc2 hcne a1 ha1 (ha ▸ ha2)
    · intro x hx1 hx2
      obtain ⟨c, hc, hxc⟩ := written_containment A cfg src out hsrc hw x hx1
      obtain ⟨x', _, hy⟩ := List.mem_flatMap.mp hx2
      obtain ⟨c', hc', a, ha, _, hxa⟩ := written_applet A cfg src out hsrc hw x' x hy
      have hca : c = a := inj c a ((hkeys c).mpr (Or.inl hc))
        ((hkeys a).mpr (Or.inr (happ c' hc' a ha))) (hxc.symm.trans hxa)
      exact dis hc (hca ▸ happ c' hc' a ha)

theorem tempFile_ne_empty (home : String) : home ++ "/.config/lattedock.copy2.bak" ≠ "" := by
  intro h
  have := congrArg String.length h
  rw [String.length_append] at this
  have h2 : "/.config/lattedock.copy2.bak".length = 28 := by decide
  rw [h2] at this
  have h3 : "".length = 0 := rfl
  omega

/-- C1. `newUniqueIdsLayoutFromFile` on a layout with a corona: for every input file whose
containment ids and applet ids are pairwise distinct, and every list of ids loaded in the
corona for which `availableId` never returns the empty string, every containment id and
applet id in the written file is absent from the containment ids and from the applet ids
of the corona, and no id is used twice in the written file. -/
theorem newUniqueIds_fresh_and_distinct (w : World) (l : Layout) (file : String)
    (hc : l.m_corona = true)
    (hnd : (configIds (w.openConfig file)).Nodup)
    (hne : "" ∉ (assignAll (w.containmentsIds ++ w.appletsIds) (w.openConfig file)).1) :
    (∀ id ∈ configIds ((newUniqueIdsLayoutFromFile w l file).1.openConfig
        (newUniqueIdsLayoutFromFile w l file).2),
      id ∉ w.containmentsIds ∧ id ∉ w.appletsIds) ∧
    (configIds ((newUniqueIdsLayoutFromFile w l file).1.openConfig
        (newUniqueIdsLayoutFromFile w l file).2)).Nodup := by
  have hsplit : ∀ (out : KConfig),
      ((∀ id ∈ configIds out, id ∉ w.containmentsIds ++ w.appletsIds) ∧ (configIds out).Nodup) →
      ((∀ id ∈ configIds out, id ∉ w.containmentsIds ∧ id ∉ w.appletsIds) ∧
        (configIds out).Nodup) := by
    rintro out ⟨h1, h2⟩
    refine ⟨fun id hid => ?_, h2⟩
    have := h1 id hid
    rw [List.mem_append, not_or] at this
    exact this
  apply hsplit
  -- the world after the removal of the second file
  generalize hw1 : (if w.fileExists (w.homePath ++ "/.config/lattedock.copy2.bak") = true
      then w.removeFile (w.homePath ++ "/.config/lattedock.copy2.bak") else w) = w1
  have ht : w1.openConfig (w.homePath ++ "/.config/lattedock.copy2.bak") = [] := by
    rw [← hw1]
    by_cases hx : w.fileExists (w.homePath ++ "/.config/lattedock.copy2.bak") = true
    · rw [if_pos hx]
      simp [World.openConfig, World.removeFile]
    · rw [if_neg hx]
      unfold World.fileExists at hx
      simp only [Bool.and_eq_true, decide_eq_true_eq, not_and] at hx
      have := hx (tempFile_ne_empty w.homePath)
      unfold World.openConfig
      cases hf : w.files (w.homePath ++ "/.config/lattedock.copy2.bak") with
      | none => rfl
      | some c => rw [hf] at this; exact absurd rfl this
  have hf : ∀ q, q ≠ w.homePath ++ "/.config/lattedock.copy2.bak" →
      w1.openConfig q = w.openConfig q := by
    intro q hq
    rw [← hw1]
    split
    · simp [World.openConfig, World.removeFile, hq]
    · rfl
  have hids : w1.containmentsIds = w.containmentsIds ∧ w1.appletsIds = w.appletsIds ∧
      w1.homePath = w.homePath := by
    rw [← hw1]
    split <;> exact ⟨rfl, rfl, rfl⟩
  have hres : newUniqueIdsLayoutFromFile w l file =
      (((((w1.setConfig file (updatedFile w1.memoryUsage l.m_layoutName
            (fixedAssignments (w.containmentsIds ++ w.appletsIds) (w1.openConfig file))
            (w1.openConfig file))).openConfig file).groupList ["Containments"]).foldl
          (copyContainment file (w.homePath ++ "/.config/lattedock.copy2.bak")
            (fixedAssignments (w.containmentsIds ++ w.appletsIds) (w1.openConfig file)))
          (w1.setConfig file (updatedFile w1.memoryUsage l.m_layoutName
            (fixedAssignments (w.containmentsIds ++ w.appletsIds) (w1.openConfig file))
            (w1.openConfig file)))),
        w.homePath ++ "/.config/lattedock.copy2.bak") := by
    unfold newUniqueIdsLayoutFromFile
    rw [if_neg (by rw [hc]; decide)]
    simp only [hw1, hids.1, hids.2.1]
  rw [hres]
  simp only []
  rw [openConfig_setConfig]
  by_cases hal : file = w.homePath ++ "/.config/lattedock.copy2.bak"
  · -- the input file is the second file itself: it was just removed
    have hempty : w1.openConfig file = [] := by rw [hal]; exact ht
    rw [hempty]
    have hu : updatedFile w1.memoryUsage l.m_layoutName
        (fixedAssignments (w.containmentsIds ++ w.appletsIds) []) [] = [] := by
      simp [updatedFile, investigatedContainmentIds, KConfig.groupList]
    rw [hu]
    simp only [KConfig.groupList, List.filterMap_nil, List.dedup_nil, List.foldl_nil]
    rw [← hal, openConfig_setConfig]
    simp [configIds, KConfig.groupList]
  · have hcfg : w1.openConfig file = w.openConfig file := hf file hal
    rw [hcfg]
    have hnd' : (investigatedContainmentIds (w.openConfig file) ++
        investigatedAppletIds (w.openConfig file)).Nodup := hnd
    obtain ⟨hA, hkeys⟩ := fixedAssignments_spec (w.containmentsIds ++ w.appletsIds)
      (w.openConfig file) hnd' hne
    have hsrc := updatedFile_groups w1.memoryUsage l.m_layoutName
      (fixedAssignments (w.containmentsIds ++ w.appletsIds) (w.openConfig file))
      (w.openConfig file)
    apply written_ids_good (w.containmentsIds ++ w.appletsIds) _ (w.openConfig file)
      (updatedFile w1.memoryUsage l.m_layoutName
        (fixedAssignments (w.containmentsIds ++ w.appletsIds) (w.openConfig file))
        (w.openConfig file)) _ hA hkeys hsrc hnd'
    apply copyContainment_foldl file _ hal
    · intro c hcm
      exact (mem_groupList _ ["Containments"] c).mp hcm
    · exact openConfig_setConfig _ _ _
    · rw [openConfig_setConfig_ne _ _ _ _ (fun e => hal e.symm), ht]
      intro e he
      simp at he

theorem newUniqueIds_fresh_and_distinct_witness :
    sampleLayout.m_corona = true ∧ (configIds (sampleWorld.openConfig samplePath)).Nodup ∧
    "" ∉ (assignAll (sampleWorld.containmentsIds ++ sampleWorld.appletsIds)
      (sampleWorld.openConfig samplePath)).1 ∧
    (configIds ((newUniqueIdsLayoutFromFile sampleWorld sampleLayout samplePath).1.openConfig
      (newUniqueIdsLayoutFromFile sampleWorld sampleLayout samplePath).2)).Nodup :=
  ⟨rfl, by decide, by decide,
    (newUniqueIds_fresh_and_distinct sampleWorld sampleLayout samplePath rfl (by decide)
      (by decide)).2⟩

/-! ## Broken layouts -/

theorem digitChar_toNat (d : Nat) (h : d < 10) : (Nat.digitChar d).toNat - 48 = d := by
  interval_cases d <;> rfl

theorem decode_toDigitsCore (fuel n : Nat) (ds : List Char) (h : n < fuel) :
    decodeDigits (Nat.toDigitsCore 10 fuel n ds) 0 = decodeDigits ds n := by
  induction fuel generalizing n ds with
  | zero => omega
  | succ fuel ih =>
    unfold Nat.toDigitsCore
    simp only []
    by_cases h0 : n / 10 = 0
    · rw [if_pos h0]
      have hn : n < 10 := by omega
      unfold decodeDigits
      rw [List.foldl_cons, digitChar_toNat _ (Nat.mod_lt _ (by decide))]
      have : 10 * 0 + n % 10 = n := by omega
      rw [this]
    · rw [if_neg h0, ih (n / 10) _ (by omega)]
      unfold decodeDigits
      rw [List.foldl_cons, digitChar_toNat _ (Nat.mod_lt _ (by decide))]
      have : 10 * (n / 10) + n % 10 = n := by omega
      rw [this]

/-- Two natural numbers with the same decimal text are equal. -/
theorem qNumber_natCast_injective (a b : Nat) (h : qNumber (a : Int) = qNumber (b : Int)) :
    a = b := by
  have h1 : ∀ n : Nat, qNumber (n : Int) = String.mk (Nat.toDigits 10 n) := fun n => rfl
  rw [h1, h1] at h
  have h2 : Nat.toDigits 10 a = Nat.toDigits 10 b := by
    injection h
  have ha := decode_toDigitsCore (a + 1) a [] (by omega)
  have hb := decode_toDigitsCore (b + 1) b [] (by omega)
  unfold Nat.toDigits at h2
  rw [h2, hb] at ha
  simpa [decodeDigits] using ha.symm

theorem ite_bool_iff (p : Prop) [Decidable p] : (if p then true else false) = true ↔ p := by
  split <;> simp [*]

theorem dedup_length_ne_iff {α : Type} [DecidableEq α] (xs : List α) :
    xs.dedup.length ≠ xs.length ↔ ¬ xs.Nodup := by
  constructor
  · intro h hn
    exact h (by rw [List.dedup_eq_self.mpr hn])
  · intro h hl
    exact h (List.dedup_eq_self.mp ((List.dedup_sublist xs).eq_of_length hl))

theorem not_nodup_iff_count {α : Type} [DecidableEq α] (xs : List α) :
    ¬ xs.Nodup ↔ ∃ a, 2 ≤ xs.count a := by
  rw [List.nodup_iff_count_le_one]
  push_neg
  constructor
  · rintro ⟨a, ha⟩; exact ⟨a, ha⟩
  · rintro ⟨a, ha⟩; exact ⟨a, ha⟩

theorem flatMap_cons_perm {α β : Type} (xs : List α) (a : α → β) (f : α → List β) :
    (xs.flatMap (fun x => a x :: f x)).Perm (xs.map a ++ xs.flatMap f) := by
  induction xs with
  | nil => simp
  | cons x xs ih =>
    simp only [List.flatMap_cons, List.map_cons, List.cons_append]
    refine List.Perm.cons _ ?_
    refine (List.Perm.append_left (f x) ih).trans ?_
    simp only [← List.append_assoc]
    exact List.Perm.append_right _ List.perm_append_comm

/-- The two cases of `layoutIsBroken`, without and with a corona. -/
theorem layoutIsBroken_cases (w : World) (l : Layout) :
    (l.m_corona = false →
      (layoutIsBroken w l = true ↔
        l.m_layoutFile ≠ "" ∧ w.fileExists l.m_layoutFile = true ∧
          ∃ id, 2 ≤ (idsInFile w l).count id)) ∧
    (l.m_corona = true →
      (layoutIsBroken w l = true ↔
        l.m_layoutFile ≠ "" ∧ w.fileExists l.m_layoutFile = true ∧
          ∃ id, 2 ≤ (idsLoaded w l).count id)) := by
  constructor
  · intro hc
    by_cases hf : l.m_layoutFile = "" ∨ w.fileExists l.m_layoutFile = false
    · have : ¬ (l.m_layoutFile ≠ "" ∧ w.fileExists l.m_layoutFile = true) := by
        rintro ⟨a, b⟩
        rcases hf with hf | hf
        · exact a hf
        · rw [b] at hf; exact absurd hf (by decide)
      simp only [layoutIsBroken, if_pos hf, Bool.false_eq_true, false_iff]
      exact fun hx => this ⟨hx.1, hx.2.1⟩
    · have hf1 : l.m_layoutFile ≠ "" := fun e => hf (Or.inl e)
      have hf2 : w.fileExists l.m_layoutFile = true := by
        cases hx : w.fileExists l.m_layoutFile
        · exact absurd (Or.inr hx) hf
        · rfl
      rw [← not_nodup_iff_count, ← dedup_length_ne_iff]
      simp only [layoutIsBroken, if_neg hf, hc, if_true, appletsGroup, idsInFile, configIds]
      rw [ite_bool_iff]
      exact ⟨fun hx => ⟨hf1, hf2, hx⟩, fun hx => hx.2.2⟩
  · intro hc
    have hperm : (l.m_containments.flatMap (fun containment =>
          qNumber (w.idOf containment) ::
            (w.containment containment).applets.map (fun applet => qNumber (w.appletIdOf applet)))) =
        (l.m_containments.flatMap (fun c =>
          w.idOf c :: (w.containment c).applets.map w.appletIdOf)).map (fun n : Nat => qNumber n) := by
      simp [List.map_flatMap, Function.comp_def]
    have hinj : Function.Injective (fun n : Nat => qNumber n) :=
      fun a b hab => qNumber_natCast_injective a b hab
    by_cases hf : l.m_layoutFile = "" ∨ w.fileExists l.m_layoutFile = false
    · have : ¬ (l.m_layoutFile ≠ "" ∧ w.fileExists l.m_layoutFile = true) := by
        rintro ⟨a, b⟩
        rcases hf with hf | hf
        · exact a hf
        · rw [b] at hf; exact absurd hf (by decide)
      simp only [layoutIsBroken, if_pos hf, Bool.false_eq_true, false_iff]
      exact fun hx => this ⟨hx.1, hx.2.1⟩
    · have hf1 : l.m_layoutFile ≠ "" := fun e => hf (Or.inl e)
      have hf2 : w.fileExists l.m_layoutFile = true := by
        cases hx : w.fileExists l.m_layoutFile
        · exact absurd (Or.inr hx) hf
        · rfl
      have hnd : (idsLoaded w l).Nodup ↔ (l.m_containments.flatMap (fun containment =>
          qNumber (w.idOf containment) ::
            (w.containment containment).applets.map
              (fun applet => qNumber (w.appletIdOf applet)))).Nodup := by
        rw [hperm, List.nodup_map_iff hinj]
        exact (flatMap_cons_perm l.m_containments w.idOf
          (fun c => (w.containment c).applets.map w.appletIdOf)).nodup_iff.symm
      rw [← not_nodup_iff_count, hnd, ← dedup_length_ne_iff]
      simp only [layoutIsBroken, if_neg hf, hc, Bool.true_eq_false, if_false]
      rw [ite_bool_iff]
      exact ⟨fun hx => ⟨hf1, hf2, hx⟩, fun hx => hx.2.2⟩

/-- C2. `layoutIsBroken` returns true exactly when the path of the layout file is
non-empty, the file exists, and some id occurs more than once in the list made of the
containment ids of the layout followed by the ids of their applets: the group names read
from the file when no corona is set, the ids of the loaded containments and applets
otherwise. In every other case it returns false. -/
theorem layoutIsBroken_iff (w : World) (l : Layout) :
    layoutIsBroken w l = true ↔
      (l.m_layoutFile ≠ "" ∧ w.fileExists l.m_layoutFile = true ∧
        if l.m_corona = true then ∃ id, 2 ≤ (idsLoaded w l).count id
        else ∃ id, 2 ≤ (idsInFile w l).count id) := by
  cases hc : l.m_corona
  · simpa using (layoutIsBroken_cases w l).1 hc
  · simpa using (layoutIsBroken_cases w l).2 hc

/-! ## Adding a containment -/

theorem createDock_frame (w : World) (l : Layout) (c : ContainmentPtr) (scr : QScreen)
    (f : Bool) :
    (createDock w l c scr f).2.m_containments = l.m_containments ∧
    (createDock w l c scr f).2.m_waitingDockViews = l.m_waitingDockViews ∧
    (createDock w l c scr f).2.m_layoutName = l.m_layoutName := by
  simp [createDock]

/-- `addDock` either returns at once or ends in `createDock` on some screen. -/
theorem addDock_cases (w : World) (l : Layout) (c : ContainmentPtr) (f : Bool) (e : Int) :
    addDock w l c f e = (w, l) ∨ ∃ scr, addDock w l c f e = createDock w l c scr f := by
  unfold addDock
  simp only []
  split_ifs <;>
    first
    | exact Or.inl rfl
    | exact Or.inr ⟨_, rfl⟩
    | (split <;> first | exact Or.inl rfl | exact Or.inr ⟨_, rfl⟩)

/-- `addDock` touches neither the containment list nor the waiting dock views. -/
theorem addDock_frame (w : World) (l : Layout) (c : ContainmentPtr) (f : Bool) (e : Int) :
    (addDock w l c f e).2.m_containments = l.m_containments ∧
    (addDock w l c f e).2.m_waitingDockViews = l.m_waitingDockViews ∧
    (addDock w l c f e).2.m_layoutName = l.m_layoutName := by
  rcases addDock_cases w l c f e with h | ⟨scr, h⟩
  · rw [h]; exact ⟨rfl, rfl, rfl⟩
  · rw [h]; exact createDock_frame _ _ _ _ _

/-- C3. `addContainment` appends the containment to the containment list of the layout
exactly when it is non-null, not already in the list, and either the memory usage is
SingleLayout, or it is MultipleLayouts and the `layoutId` entry of the containment is
non-empty and equal to the name of the layout; in every other case the containment list
and the two dock-view maps are unchanged. -/
theorem addContainment_appends_iff (w : World) (l : Layout) (containment : ContainmentPtr) :
    ((addContainment w l containment).2.m_containments = l.m_containments ++ [containment] ↔
      (containment ≠ 0 ∧ containment ∉ l.m_containments ∧
        (w.memoryUsage = MemoryUsage.SingleLayout ∨
          (w.memoryUsage = MemoryUsage.MultipleLayouts ∧
            (w.containment containment).config.readString [] "layoutId" "" ≠ "" ∧
            (w.containment containment).config.readString [] "layoutId" "" = l.m_layoutName)))) ∧
    (¬ (containment ≠ 0 ∧ containment ∉ l.m_containments ∧
        (w.memoryUsage = MemoryUsage.SingleLayout ∨
          (w.memoryUsage = MemoryUsage.MultipleLayouts ∧
            (w.containment containment).config.readString [] "layoutId" "" ≠ "" ∧
            (w.containment containment).config.readString [] "layoutId" "" = l.m_layoutName))) →
      (addContainment w l containment).2.m_containments = l.m_containments ∧
      (addContainment w l containment).2.m_dockViews = l.m_dockViews ∧
      (addContainment w l containment).2.m_waitingDockViews = l.m_waitingDockViews) := by
  have hne : ∀ xs : List ContainmentPtr, xs ≠ xs ++ [containment] := by
    intro xs hx
    have := congrArg List.length hx
    simp at this
  unfold addContainment
  by_cases h0 : containment = 0 ∨ l.m_containments.contains containment = true
  · rw [if_pos h0]
    have hn : ¬ (containment ≠ 0 ∧ containment ∉ l.m_containments) := by
      rintro ⟨a, b⟩
      rcases h0 with h0 | h0
      · exact a h0
      · exact b (by simpa using h0)
    constructor
    · constructor
      · intro hx; exact absurd hx (hne _)
      · intro hx; exact absurd ⟨hx.1, hx.2.1⟩ hn
    · intro _; exact ⟨rfl, rfl, rfl⟩
  · rw [if_neg h0]
    have h1 : containment ≠ 0 := fun e => h0 (Or.inl e)
    have h2 : containment ∉ l.m_containments := fun e => h0 (Or.inr (by simpa using e))
    cases hm : w.memoryUsage with
    | SingleLayout =>
      dsimp only
      constructor
      · constructor
        · intro _; exact ⟨h1, h2, Or.inl rfl⟩
        · intro _; exact (addDock_frame _ _ _ _ _).1
      · intro hx; exact absurd ⟨h1, h2, Or.inl rfl⟩ hx
    | MultipleLayouts =>
      dsimp only
      by_cases hl : (w.containment containment).config.readString [] "layoutId" "" ≠ "" ∧
          (w.containment containment).config.readString [] "layoutId" "" = l.m_layoutName
      · rw [if_pos hl]
        constructor
        · constructor
          · intro _; exact ⟨h1, h2, Or.inr ⟨rfl, hl⟩⟩
          · intro _; exact (addDock_frame _ _ _ _ _).1
        · intro hx; exact absurd ⟨h1, h2, Or.inr ⟨rfl, hl⟩⟩ hx
      · rw [if_neg hl]
        constructor
        · constructor
          · intro hx; exact absurd hx (hne _)
          · rintro ⟨_, _, hx | hx⟩
            · exact absurd hx (by decide)
            · exact absurd hx.2 hl
        · intro _; exact ⟨rfl, rfl, rfl⟩

/-! ## Dock-view maps -/

theorem hashValue_cons (kv : ContainmentPtr × DockView) (h : DockViewHash) (k : ContainmentPtr) :
    hashValue (kv :: h) k = if kv.1 = k then some kv.2 else hashValue h k := by
  unfold hashValue
  by_cases e : kv.1 = k
  · simp [List.find?_cons, e]
  · simp [List.find?_cons, e]

theorem hashContains_eq_isSome (h : DockViewHash) (k : ContainmentPtr) :
    hashContains h k = (hashValue h k).isSome := by
  induction h with
  | nil => rfl
  | cons kv h ih =>
    rw [hashValue_cons]
    unfold hashContains at ih ⊢
    rw [List.any_cons, ih]
    by_cases e : kv.1 = k
    · simp [e]
    · simp [e]

theorem hashValue_remove (h : DockViewHash) (k0 k : ContainmentPtr) :
    hashValue (hashRemove h k0) k = if k = k0 then none else hashValue h k := by
  induction h with
  | nil => simp [hashRemove, hashValue]
  | cons kv h ih =>
    unfold hashRemove at ih ⊢
    by_cases e : kv.1 = k0
    · rw [List.filter_cons_of_neg (by simpa using e), ih, hashValue_cons]
      by_cases e2 : k = k0
      · simp [e2]
      · have : ¬ kv.1 = k := fun x => e2 (x.symm.trans e)
        simp [e2, this]
    · rw [List.filter_cons_of_pos (by simpa using e), hashValue_cons, ih, hashValue_cons]
      by_cases e2 : k = k0
      · have : ¬ kv.1 = k := fun x => e (x.trans e2)
        simp [e2, e]
      · simp [e2]

theorem hashContains_remove (h : DockViewHash) (k : ContainmentPtr) :
    hashContains (hashRemove h k) k = false := by
  rw [hashContains_eq_isSome, hashValue_remove]
  simp

theorem hashValue_map_insert (h : DockViewHash) (k : ContainmentPtr) (v : DockView)
    (k2 : ContainmentPtr) :
    hashValue (h.map (fun kv => if kv.1 = k then (k, v) else kv)) k2 =
      if k2 = k then (hashValue h k).map (fun _ => v) else hashValue h k2 := by
  induction h with
  | nil => simp [hashValue]
  | cons kv h ih =>
    rw [List.map_cons, hashValue_cons, ih, hashValue_cons, hashValue_cons]
    by_cases e : kv.1 = k
    · by_cases e2 : k2 = k
      · simp [e, e2]
      · have : ¬ k = k2 := fun x => e2 x.symm
        simp [e, e2, this]
    · by_cases e2 : k2 = k
      · have : ¬ kv.1 = k2 := fun x => e (x.trans e2)
        simp [e, e2]
      · simp [e, e2]

theorem hashValue_append_single (h : DockViewHash) (kv : ContainmentPtr × DockView)
    (k : ContainmentPtr) :
    hashValue (h ++ [kv]) k =
      match hashValue h k with
      | some v => some v
      | none => if kv.1 = k then some kv.2 else none := by
  induction h with
  | nil => simp [hashValue_cons, hashValue]
  | cons a h ih =>
    rw [List.cons_append, hashValue_cons, hashValue_cons, ih]
    by_cases e : a.1 = k
    · simp [e]
    · simp [e]

/-- The view read after the assignment `h[k] = v`. -/
theorem hashValue_insert (h : DockViewHash) (k : ContainmentPtr) (v : DockView)
    (k2 : ContainmentPtr) :
    hashValue (hashInsert h k v) k2 = if k2 = k then some v else hashValue h k2 := by
  unfold hashInsert
  by_cases c : hashContains h k = true
  · rw [if_pos c, hashValue_map_insert]
    rw [hashContains_eq_isSome, Option.isSome_iff_exists] at c
    obtain ⟨u, hu⟩ := c
    simp [hu]
  · rw [if_neg c, hashValue_append_single]
    have c2 : hashValue h k = none := by
      rw [hashContains_eq_isSome] at c
      simpa using c
    by_cases e : k2 = k
    · subst e
      simp [c2]
    · have : ¬ k = k2 := fun x => e x.symm
      simp only [this, if_false, e]
      cases hashValue h k2 <;> rfl

theorem foldl_filter_ne (cs xs : List ContainmentPtr) :
    cs.foldl (fun acc c => acc.filter (fun x => x ≠ c)) xs
      = xs.filter (fun x => decide (x ∉ cs)) := by
  induction cs generalizing xs with
  | nil => simp
  | cons c cs ih =>
    rw [List.foldl_cons, ih, List.filter_filter]
    congr 1
    funext x
    by_cases e : x = c
    · simp [e]
    · simp [e]

/-! ## Moving a dock view between layouts -/

/-- C4. With a corona set, `unassignFromLayout(view)` returns the containment of the view
first, followed by exactly those containments of the layout whose parent is an applet
living in the containment of the view (its systrays), in list order. Afterwards none of
the returned containments is in the containment list of the layout, the containment of
the view is no key of the dock-view map, and every other containment and every other
dock-view entry is unchanged. -/
theorem unassignFromLayout_returns_relevant (w : World) (l : Layout) (view : DockView)
    (h : l.m_corona = true) :
    (unassignFromLayout w l view).2 =
      view.containment :: l.m_containments.filter (fun c =>
        decide ((w.containment c).parent ≠ 0 ∧
          (w.applet (w.containment c).parent).containment ≠ 0 ∧
          (w.applet (w.containment c).parent).containment = view.containment)) ∧
    (∀ c ∈ (unassignFromLayout w l view).2, c ∉ (unassignFromLayout w l view).1.m_containments) ∧
    hashContains (unassignFromLayout w l view).1.m_dockViews view.containment = false ∧
    (unassignFromLayout w l view).1.m_containments =
      l.m_containments.filter (fun c => decide (c ∉ (unassignFromLayout w l view).2)) ∧
    (∀ k, k ≠ view.containment →
      hashValue (unassignFromLayout w l view).1.m_dockViews k = hashValue l.m_dockViews k) ∧
    (unassignFromLayout w l view).1.m_waitingDockViews = l.m_waitingDockViews := by
  have hr : unassignFromLayout w l view =
      ({ l with
          m_containments := l.m_containments.filter (fun x => decide (x ∉
            view.containment :: l.m_containments.filter (isSystrayOf w view.containment))),
          m_dockViews := hashRemove l.m_dockViews view.containment },
        view.containment :: l.m_containments.filter (isSystrayOf w view.containment)) := by
    unfold unassignFromLayout
    simp only [h, Bool.true_eq_false, if_false, List.length_cons, gt_iff_lt, Nat.zero_lt_succ,
      if_true, foldl_filter_ne]
  rw [hr]
  refine ⟨rfl, ?_, hashContains_remove _ _, rfl, ?_, rfl⟩
  · intro c hc hc2
    simp only [List.mem_filter, decide_eq_true_eq] at hc2
    exact hc2.2 hc
  · intro k hk
    simp only [hashValue_remove, hk, if_false]

theorem unassignFromLayout_returns_relevant_witness :
    sampleLayout.m_corona = true ∧
    (unassignFromLayout sampleWorld sampleLayout sampleView).2 = [1, 2] ∧
    (unassignFromLayout sampleWorld sampleLayout sampleView).1.m_containments = [] :=
  ⟨rfl,
    (unassignFromLayout_returns_relevant sampleWorld sampleLayout sampleView rfl).1.trans
      (by decide),
    (unassignFromLayout_returns_relevant sampleWorld sampleLayout sampleView rfl).2.2.2.1.trans
      (by decide)⟩

theorem layoutId_after_writes (n : String) (cs : List ContainmentPtr) (w : World)
    (c : ContainmentPtr)
    (h : c ∈ cs ∨ (w.containment c).config.readString [] "layoutId" "" = n) :
    ((cs.foldl (fun w c => w.setContainmentConfig c
        ((w.containment c).config.writeEntry [] "layoutId" (KValue.str n))) w).containment c
      ).config.readString [] "layoutId" "" = n := by
  induction cs generalizing w with
  | nil =>
    rcases h with h | h
    · simp at h
    · exact h
  | cons x cs ih =>
    rw [List.foldl_cons]
    apply ih
    by_cases e : c = x
    · right
      subst e
      simp [World.setContainmentConfig, KConfig.readString, KConfig.lookup_writeEntry]
    · rcases h with h | h
      · left
        rcases List.mem_cons.mp h with h | h
        · exact absurd h e
        · exact h
      · right
        simpa [World.setContainmentConfig, e] using h

/-- C5. Moving a dock view between layouts: for layouts A and B that both have a corona,
after `B.assignToLayout(view, A.unassignFromLayout(view))` the containment list of B is
its old list followed by the returned containments, the dock-view map of B maps the
containment of the view to the view (now managed by B), the `layoutId` entry of every
moved containment is the name of B, and A holds neither the view nor any of the moved
containments. -/
theorem move_view_between_layouts (w : World) (A B : Layout) (view : DockView)
    (hA : A.m_corona = true) (hB : B.m_corona = true) :
    (assignToLayout w B (some view) (unassignFromLayout w A view).2).2.m_containments =
      B.m_containments ++ (unassignFromLayout w A view).2 ∧
    hashValue (assignToLayout w B (some view) (unassignFromLayout w A view).2).2.m_dockViews
      view.containment = some { view with managedLayout := name B } ∧
    (∀ c ∈ (unassignFromLayout w A view).2,
      ((assignToLayout w B (some view) (unassignFromLayout w A view).2).1.containment c
        ).config.readString [] "layoutId" "" = name B) ∧
    hashContains (unassignFromLayout w A view).1.m_dockViews view.containment = false ∧
    (∀ c ∈ (unassignFromLayout w A view).2, c ∉ (unassignFromLayout w A view).1.m_containments) := by
  have hr : unassignFromLayout w A view =
      ({ A with
          m_containments := A.m_containments.filter (fun x => decide (x ∉
            view.containment :: A.m_containments.filter (isSystrayOf w view.containment))),
          m_dockViews := hashRemove A.m_dockViews view.containment },
        view.containment :: A.m_containments.filter (isSystrayOf w view.containment)) := by
    unfold unassignFromLayout
    simp only [hA, Bool.true_eq_false, if_false, List.length_cons, gt_iff_lt, Nat.zero_lt_succ,
      if_true, foldl_filter_ne]
  rw [hr]
  refine ⟨?_, ?_, ?_, hashContains_remove _ _, ?_⟩
  · simp [assignToLayout, hB]
  · simp [assignToLayout, hB, hashValue_insert, name]
  · intro c hc
    simp only [assignToLayout, hB, Bool.true_eq_false, if_false]
    exact layoutId_after_writes (name B) _ w c (Or.inl hc)
  · intro c hc hc2
    simp only [List.mem_filter, decide_eq_true_eq] at hc2
    exact hc2.2 hc

theorem move_view_between_layouts_witness :
    sampleLayout.m_corona = true ∧ otherLayout.m_corona = true ∧
    (assignToLayout sampleWorld otherLayout (some sampleView)
      (unassignFromLayout sampleWorld sampleLayout sampleView).2).2.m_containments = [1, 2] ∧
    hashValue (assignToLayout sampleWorld otherLayout (some sampleView)
      (unassignFromLayout sampleWorld sampleLayout sampleView).2).2.m_dockViews 1
      = some { sampleView with managedLayout := "Other" } :=
  ⟨rfl, rfl,
    (move_view_between_layouts sampleWorld sampleLayout otherLayout sampleView rfl rfl).1.trans
      (by decide),
    (move_view_between_layouts sampleWorld sampleLayout otherLayout sampleView rfl rfl).2.1⟩

/-! ## A layout without corona -/

/-- C6. A layout on which `initToCorona` has not been called does nothing in its
corona-dependent operations: `addDock`, `copyDock`, `importToCorona`,
`syncDockViewsToScreens`, `syncToLayoutFile`, `unloadContainments`, `unloadDockViews` and
`assignToLayout` leave the containment list, both dock-view maps and the list of unloaded
ids unchanged for every argument (the operations that return a layout return the very
same layout, `syncToLayoutFile` leaves the world as it is); `unassignFromLayout` returns
the empty list and `isActiveLayout` returns false. -/
theorem no_corona_no_effect (w : World) (l : Layout)
    (importLayout : World → KConfig → World × List ContainmentPtr)
    (h : l.m_corona = false) :
    (∀ (containment : ContainmentPtr) (forceLoading : Bool) (expDockScreen : Int),
      (addDock w l containment forceLoading expDockScreen).2 = l) ∧
    (∀ containment : ContainmentPtr, (copyDock importLayout w l containment).2 = l) ∧
    (importToCorona importLayout w l).2 = l ∧
    (syncDockViewsToScreens w l).2 = l ∧
    syncToLayoutFile w l = w ∧
    unloadContainments w l = l ∧
    unloadDockViews l = l ∧
    (∀ (dockView : Option DockView) (containments : List ContainmentPtr),
      (assignToLayout w l dockView containments).2 = l) ∧
    (∀ dockView : DockView,
      (unassignFromLayout w l dockView).2 = [] ∧ (unassignFromLayout w l dockView).1 = l) ∧
    isActiveLayout w l = false := by
  refine ⟨?_, ?_, ?_, ?_, ?_, ?_, ?_, ?_, ?_, ?_⟩
  · intro c f e
    simp [addDock, h]
  · intro c
    simp [copyDock, h]
  · simp [importToCorona, h]
  · simp [syncDockViewsToScreens, h]
  · simp [syncToLayoutFile, h]
  · simp [unloadContainments, h]
  · simp [unloadDockViews, h]
  · intro dv cs
    simp [assignToLayout, h]
  · intro dv
    simp [unassignFromLayout, h]
  · simp [isActiveLayout, h]

theorem no_corona_no_effect_witness :
    Layout.fresh.m_corona = false ∧
    unloadContainments sampleWorld Layout.fresh = Layout.fresh ∧
    isActiveLayout sampleWorld Layout.fresh = false :=
  ⟨rfl,
    (no_corona_no_effect sampleWorld Layout.fresh (fun w _ => (w, [])) rfl).2.2.2.2.2.1,
    (no_corona_no_effect sampleWorld Layout.fresh (fun w _ => (w, [])) rfl).2.2.2.2.2.2.2.2.2⟩

/-! ## The settings group follows the settings -/

theorem settingsInSync_save (w : World) (l : Layout) (f : String)
    (h : l.m_layoutGroup = some f) : settingsInSync (saveConfig w l) l := by
  obtain ⟨h1, h2, h3, h4, h5⟩ := reads_after_save w l f h
  unfold settingsInSync layoutGroupConfig
  rw [h]
  exact ⟨h1, h2, h3, h4, h5⟩

theorem savedState_emit (w : World) (l : Layout) (s : Signal)
    (hg : l.m_layoutGroup ≠ none) (hc : l.saveConnected = true)
    (hs : s ≠ Signal.nameChanged ∧ s ≠ Signal.fileChanged) :
    savedState (emit w l s) := by
  obtain ⟨f, hf⟩ := Option.ne_none_iff_exists'.mp hg
  have he : emit w l s =
      (saveConfig w { l with emitted := l.emitted ++ [s] }, { l with emitted := l.emitted ++ [s] }) := by
    unfold emit
    rw [if_pos ⟨hc, hs.1, hs.2⟩]
  rw [he]
  exact ⟨hg, hc, settingsInSync_save w { l with emitted := l.emitted ++ [s] } f hf⟩

theorem savedState_run (st : World × Layout) (call : SetterCall) (h : savedState st) :
    savedState (call.run st) := by
  obtain ⟨hg, hc, hs⟩ := h
  cases call with
  | setVersion ver =>
    simp only [SetterCall.run, setVersion]
    split
    · exact ⟨hg, hc, hs⟩
    · exact savedState_emit _ _ _ hg hc (by decide)
  | setColor c =>
    simp only [SetterCall.run, setColor]
    split
    · exact ⟨hg, hc, hs⟩
    · exact savedState_emit _ _ _ hg hc (by decide)
  | setShowInMenu b =>
    simp only [SetterCall.run, setShowInMenu]
    split
    · exact ⟨hg, hc, hs⟩
    · exact savedState_emit _ _ _ hg hc (by decide)
  | setLaunchers ls =>
    simp only [SetterCall.run, setLaunchers]
    split
    · exact ⟨hg, hc, hs⟩
    · exact savedState_emit _ _ _ hg hc (by decide)
  | setActivities acts =>
    simp only [SetterCall.run, setActivities]
    split
    · exact ⟨hg, hc, hs⟩
    · exact savedState_emit _ _ _ hg hc (by decide)

theorem savedState_new (w : World) (layoutFile assignedName : String)
    (h : w.fileExists layoutFile = true) :
    savedState (Layout.new w layoutFile assignedName) := by
  have hne : layoutFile ≠ "" := by
    unfold World.fileExists at h
    simp only [Bool.and_eq_true, decide_eq_true_eq] at h
    exact h.1
  have hne2 : ¬ ("" = layoutFile) := fun e => hne e.symm
  unfold Layout.new
  rw [if_pos h]
  by_cases hn : (if assignedName = "" then layoutName layoutFile else assignedName) = ""
  · simp [setFile, setName, loadConfig, emit, init, Layout.fresh, hne2, hn, savedState,
      settingsInSync, layoutGroupConfig, version, color, showInMenu, activities, launchers]
  · have hn2 : ¬ ("" = if assignedName = "" then layoutName layoutFile else assignedName) :=
      fun e => hn e.symm
    simp [setFile, setName, loadConfig, emit, init, Layout.fresh, hne2, hn2, savedState,
      settingsInSync, layoutGroupConfig, version, color, showInMenu, activities, launchers]

theorem savedState_foldl (calls : List SetterCall) (st : World × Layout) (h : savedState st) :
    savedState (calls.foldl SetterCall.run st) := by
  induction calls generalizing st with
  | nil => exact h
  | cons call calls ih => exact ih _ (savedState_run st call h)

/-- C7. The layout keeps its configuration up to date with its general settings: on a
layout constructed from an existing file, after the construction and after every further
call of `setVersion`, `setColor`, `setShowInMenu`, `setLaunchers` or `setActivities`, the
entries version, color, showInMenu, activities and launchers of the group
`LayoutSettings`, read with the defaults of `loadConfig` (2, "blue", false, empty list,
empty list), are exactly the values of the five settings in memory. -/
theorem settings_group_in_sync (w : World) (layoutFile assignedName : String)
    (calls : List SetterCall) (h : w.fileExists layoutFile = true) :
    settingsInSync (calls.foldl SetterCall.run (Layout.new w layoutFile assignedName)).1
      (calls.foldl SetterCall.run (Layout.new w layoutFile assignedName)).2 :=
  (savedState_foldl calls _ (savedState_new w layoutFile assignedName h)).2.2

theorem settings_group_in_sync_witness :
    sampleWorld.fileExists samplePath = true ∧
    settingsInSync
      ([SetterCall.setVersion 3, SetterCall.setColor "blue"].foldl SetterCall.run
        (Layout.new sampleWorld samplePath "")).1
      ([SetterCall.setVersion 3, SetterCall.setColor "blue"].foldl SetterCall.run
        (Layout.new sampleWorld samplePath "")).2 :=
  ⟨by decide, settings_group_in_sync sampleWorld samplePath ""
    [SetterCall.setVersion 3, SetterCall.setColor "blue"] (by decide)⟩

/-! ## Saving and loading the settings -/

/-- C8. Saving then loading is the identity on the settings: on a layout whose settings
group is bound to a file, `saveConfig` followed by `loadConfig` leaves the version, the
color, showInMenu, the launchers and the activities as they were, whatever their values. -/
theorem saveConfig_loadConfig_id (w : World) (l : Layout) (f : String)
    (h : l.m_layoutGroup = some f) :
    version (loadConfig (saveConfig w l) l).2 = version l ∧
    color (loadConfig (saveConfig w l) l).2 = color l ∧
    showInMenu (loadConfig (saveConfig w l) l).2 = showInMenu l ∧
    launchers (loadConfig (saveConfig w l) l).2 = launchers l ∧
    activities (loadConfig (saveConfig w l) l).2 = activities l := by
  obtain ⟨h1, h2, h3, h4, h5⟩ := reads_after_save w l f h
  simp only [loadConfig, emit_fields, layoutGroupConfig, h, version, color, showInMenu,
    launchers, activities]
  exact ⟨h1, h2, h3, h5, h4⟩

theorem saveConfig_loadConfig_id_witness :
    sampleLayout.m_layoutGroup = some samplePath ∧
    version (loadConfig (saveConfig sampleWorld sampleLayout) sampleLayout).2
      = version sampleLayout ∧
    color (loadConfig (saveConfig sampleWorld sampleLayout) sampleLayout).2
      = color sampleLayout :=
  ⟨rfl, (saveConfig_loadConfig_id sampleWorld sampleLayout samplePath rfl).1,
    (saveConfig_loadConfig_id sampleWorld sampleLayout samplePath rfl).2.1⟩

/-! ## Settings: getters, setters and signals -/

/-- C9. For each of `setVersion`, `setColor`, `setShowInMenu`, `setLaunchers` and
`setActivities` and every argument: after the call the matching getter returns the
argument; the other four settings, the name and the file are unchanged; the log of
emitted signals grows by exactly the change signal of the setting when the argument
differs from the previous value and stays as it is otherwise; and a second call with the
same argument emits nothing. -/
theorem setters_frame_and_signal (w : World) (l : Layout) :
    (∀ ver : Int,
      version (setVersion w l ver).2 = ver ∧
      color (setVersion w l ver).2 = color l ∧
      showInMenu (setVersion w l ver).2 = showInMenu l ∧
      launchers (setVersion w l ver).2 = launchers l ∧
      activities (setVersion w l ver).2 = activities l ∧
      name (setVersion w l ver).2 = name l ∧ file (setVersion w l ver).2 = file l ∧
      (setVersion w l ver).2.emitted =
        l.emitted ++ (if ver ≠ version l then [Signal.versionChanged] else []) ∧
      (setVersion (setVersion w l ver).1 (setVersion w l ver).2 ver).2.emitted =
        (setVersion w l ver).2.emitted) ∧
    (∀ c : String,
      color (setColor w l c).2 = c ∧
      version (setColor w l c).2 = version l ∧
      showInMenu (setColor w l c).2 = showInMenu l ∧
      launchers (setColor w l c).2 = launchers l ∧
      activities (setColor w l c).2 = activities l ∧
      name (setColor w l c).2 = name l ∧ file (setColor w l c).2 = file l ∧
      (setColor w l c).2.emitted =
        l.emitted ++ (if c ≠ color l then [Signal.colorChanged] else []) ∧
      (setColor (setColor w l c).1 (setColor w l c).2 c).2.emitted =
        (setColor w l c).2.emitted) ∧
    (∀ b : Bool,
      showInMenu (setShowInMenu w l b).2 = b ∧
      version (setShowInMenu w l b).2 = version l ∧
      color (setShowInMenu w l b).2 = color l ∧
      launchers (setShowInMenu w l b).2 = launchers l ∧
      activities (setShowInMenu w l b).2 = activities l ∧
      name (setShowInMenu w l b).2 = name l ∧ file (setShowInMenu w l b).2 = file l ∧
      (setShowInMenu w l b).2.emitted =
        l.emitted ++ (if b ≠ showInMenu l then [Signal.showInMenuChanged] else []) ∧
      (setShowInMenu (setShowInMenu w l b).1 (setShowInMenu w l b).2 b).2.emitted =
        (setShowInMenu w l b).2.emitted) ∧
    (∀ ls : List String,
      launchers (setLaunchers w l ls).2 = ls ∧
      version (setLaunchers w l ls).2 = version l ∧
      color (setLaunchers w l ls).2 = color l ∧
      showInMenu (setLaunchers w l ls).2 = showInMenu l ∧
      activities (setLaunchers w l ls).2 = activities l ∧
      name (setLaunchers w l ls).2 = name l ∧ file (setLaunchers w l ls).2 = file l ∧
      (setLaunchers w l ls).2.emitted =
        l.emitted ++ (if ls ≠ launchers l then [Signal.launchersChanged] else []) ∧
      (setLaunchers (setLaunchers w l ls).1 (setLaunchers w l ls).2 ls).2.emitted =
        (setLaunchers w l ls).2.emitted) ∧
    (∀ acts : List String,
      activities (setActivities w l acts).2 = acts ∧
      version (setActivities w l acts).2 = version l ∧
      color (setActivities w l acts).2 = color l ∧
      showInMenu (setActivities w l acts).2 = showInMenu l ∧
      launchers (setActivities w l acts).2 = launchers l ∧
      name (setActivities w l acts).2 = name l ∧ file (setActivities w l acts).2 = file l ∧
      (setActivities w l acts).2.emitted =
        l.emitted ++ (if acts ≠ activities l then [Signal.activitiesChanged] else []) ∧
      (setActivities (setActivities w l acts).1 (setActivities w l acts).2 acts).2.emitted =
        (setActivities w l acts).2.emitted) := by
  refine ⟨?_, ?_, ?_, ?_, ?_⟩
  · intro ver
    by_cases h : l.m_version = ver
    · simp [setVersion, version, color, showInMenu, launchers, activities, name, file, h]
    · have h2 : ¬ ver = l.m_version := fun e => h e.symm
      simp [setVersion, version, color, showInMenu, launchers, activities, name, file, h, h2,
        emit_fields]
  · intro c
    by_cases h : l.m_color = c
    · simp [setColor, version, color, showInMenu, launchers, activities, name, file, h]
    · have h2 : ¬ c = l.m_color := fun e => h e.symm
      simp [setColor, version, color, showInMenu, launchers, activities, name, file, h, h2,
        emit_fields]
  · intro b
    by_cases h : l.m_showInMenu = b
    · simp [setShowInMenu, version, color, showInMenu, launchers, activities, name, file, h]
    · have h2 : ¬ b = l.m_showInMenu := fun e => h e.symm
      simp [setShowInMenu, version, color, showInMenu, launchers, activities, name, file, h, h2,
        emit_fields]
  · intro ls
    by_cases h : l.m_launchers = ls
    · simp [setLaunchers, version, color, showInMenu, launchers, activities, name, file, h]
    · have h2 : ¬ ls = l.m_launchers := fun e => h e.symm
      simp [setLaunchers, version, color, showInMenu, launchers, activities, name, file, h, h2,
        emit_fields]
  · intro acts
    by_cases h : l.m_activities = acts
    · simp [setActivities, version, color, showInMenu, launchers, activities, name, file, h]
    · have h2 : ¬ acts = l.m_activities := fun e => h e.symm
      simp [setActivities, version, color, showInMenu, launchers, activities, name, file, h, h2,
        emit_fields]


/-! ## Screen changes -/

theorem toUInt32_toInt32 (n : Nat) (h : n < 4294967296) : toUInt32 (toInt32 n) = n := by
  unfold toUInt32 toInt32
  split <;> omega

theorem toInt32_eq_neg_one (n : Nat) (h : n < 4294967296) :
    toInt32 n = -1 ↔ n = 4294967295 := by
  unfold toInt32
  split <;> omega

theorem idOf_lt (w : World) (c : ContainmentPtr) : w.idOf c < 4294967296 := by
  unfold World.idOf
  exact Nat.mod_lt _ (by decide)

theorem hashContains_iff (views : DockViewHash) (k : ContainmentPtr) :
    hashContains views k = true ↔ ∃ kv ∈ views, kv.1 = k := by
  unfold hashContains
  rw [List.any_eq_true]
  constructor
  · rintro ⟨kv, h1, h2⟩; exact ⟨kv, h1, by simpa using h2⟩
  · rintro ⟨kv, h1, h2⟩; exact ⟨kv, h1, by simpa using h2⟩

theorem hasFlag_contains (views : DockViewHash) (k : ContainmentPtr) (b : Bool)
    (h : hasFlag views k b) : hashContains views k = true := by
  obtain ⟨kv, h1, h2, _⟩ := h
  exact (hashContains_iff views k).mpr ⟨kv, h1, h2⟩

theorem hasFlag_remove (views : DockViewHash) (k k0 : ContainmentPtr) (b : Bool) (hk : k ≠ k0) :
    hasFlag (hashRemove views k0) k b ↔ hasFlag views k b := by
  unfold hasFlag hashRemove
  constructor
  · rintro ⟨kv, h1, h2, h3⟩
    exact ⟨kv, (List.mem_filter.mp h1).1, h2, h3⟩
  · rintro ⟨kv, h1, h2, h3⟩
    refine ⟨kv, List.mem_filter.mpr ⟨h1, ?_⟩, h2, h3⟩
    simpa [h2] using hk

theorem hasFlag_reconsider (w : World) (views : DockViewHash) (view : DockView)
    (k : ContainmentPtr) (b : Bool) :
    hasFlag (reconsider w views view) k b ↔ hasFlag views k b := by
  unfold hasFlag reconsider
  constructor
  · rintro ⟨kv, h1, h2, h3⟩
    obtain ⟨kv0, h0, rfl⟩ := List.mem_map.mp h1
    refine ⟨kv0, h0, ?_, ?_⟩
    · rw [← h2]; split <;> rfl
    · rw [← h3]
      split
      · rename_i hx; rw [hx]
      · rfl
  · rintro ⟨kv, h1, h2, h3⟩
    refine ⟨_, List.mem_map.mpr ⟨kv, h1, rfl⟩, ?_, ?_⟩
    · rw [← h2]; split <;> rfl
    · rw [← h3]
      split
      · rename_i hx; rw [hx]
      · rfl

theorem noDocksWithTasks_remove (views : DockViewHash) (k : ContainmentPtr) :
    noDocksWithTasks (hashRemove views k) ≤ noDocksWithTasks views := by
  unfold noDocksWithTasks hashRemove
  exact Int.ofNat_le.mpr ((List.Sublist.filter _ (List.filter_sublist _)).length_le)

theorem noDocksWithTasks_reconsider (w : World) (views : DockViewHash) (view : DockView) :
    noDocksWithTasks (reconsider w views view) = noDocksWithTasks views := by
  unfold noDocksWithTasks reconsider
  rw [List.filter_map, List.length_map]
  congr 2
  apply List.filter_congr
  intro kv _
  by_cases e : kv.2 = view
  · simp [e]
  · simp [e]

/-- What one round of the deleting loop does to the map: nothing, the removal of the key of
the view, or the reconsideration of its screen. -/
theorem deleteStep_cases (w : World) (p : Int) (s : Bool) (views : DockViewHash)
    (view : DockView) :
    deleteStep w p s views view = views ∨
    deleteStep w p s views view = hashRemove views view.containment ∨
    deleteStep w p s views view = reconsider w views view := by
  unfold deleteStep
  split_ifs
  · exact Or.inr (Or.inl rfl)
  · exact Or.inl rfl
  · exact Or.inr (Or.inl rfl)
  · exact Or.inr (Or.inr rfl)

theorem noDocksWithTasks_deleteStep (w : World) (p : Int) (s : Bool) (views : DockViewHash)
    (view : DockView) :
    noDocksWithTasks (deleteStep w p s views view) ≤ noDocksWithTasks views := by
  rcases deleteStep_cases w p s views view with h | h | h
  · rw [h]
  · rw [h]; exact noDocksWithTasks_remove _ _
  · rw [h, noDocksWithTasks_reconsider]

theorem hashContains_deleteStep (w : World) (p : Int) (s : Bool) (views : DockViewHash)
    (view : DockView) (k : ContainmentPtr)
    (h : hashContains (deleteStep w p s views view) k = true) : hashContains views k = true := by
  rw [hashContains_iff] at h ⊢
  obtain ⟨kv, h1, h2⟩ := h
  rcases deleteStep_cases w p s views view with e | e | e
  · rw [e] at h1; exact ⟨kv, h1, h2⟩
  · rw [e] at h1
    exact ⟨kv, (List.mem_filter.mp h1).1, h2⟩
  · rw [e] at h1
    unfold reconsider at h1
    obtain ⟨kv0, h0, rfl⟩ := List.mem_map.mp h1
    refine ⟨kv0, h0, ?_⟩
    rw [← h2]; split <;> rfl

/-- The deleting loop adds no key. -/
theorem hashContains_deleteLoop (w : World) (p : Int) (s : Bool) (vs : List DockView)
    (views : DockViewHash) (k : ContainmentPtr)
    (h : hashContains (vs.foldl (deleteStep w p s) views) k = true) :
    hashContains views k = true := by
  induction vs generalizing views with
  | nil => exact h
  | cons v vs ih =>
    rw [List.foldl_cons] at h
    exact hashContains_deleteStep w p s views v k (ih _ h)

theorem hasFlag_deleteStep_other (w : World) (p : Int) (s : Bool) (views : DockViewHash)
    (view : DockView) (k : ContainmentPtr) (b : Bool) (hk : view.containment ≠ k)
    (h : hasFlag views k b) : hasFlag (deleteStep w p s views view) k b := by
  rcases deleteStep_cases w p s views view with e | e | e
  · rw [e]; exact h
  · rw [e]; exact (hasFlag_remove _ _ _ _ (fun x => hk x.symm)).mpr h
  · rw [e]; exact (hasFlag_reconsider _ _ _ _ _).mpr h

/-- A key with a tasks view stays in the map through the deleting loop when no round of a
view of that key removes it, whatever the map is at that time as long as it still has
the key and no more views with tasks than `c0`. -/
theorem hasFlag_deleteLoop_keep (w : World) (p : Int) (s : Bool) (k : ContainmentPtr) (c0 : Int)
    (vs : List DockView) (views : DockViewHash)
    (hc : noDocksWithTasks views ≤ c0) (hf : hasFlag views k true)
    (hkeep : ∀ view ∈ vs, view.containment = k → ∀ L, noDocksWithTasks L ≤ c0 →
      hasFlag L k true →
      (deleteStep w p s L view = L ∨ deleteStep w p s L view = reconsider w L view)) :
    hasFlag (vs.foldl (deleteStep w p s) views) k true := by
  induction vs generalizing views with
  | nil => exact hf
  | cons v vs ih =>
    rw [List.foldl_cons]
    refine ih _ ((noDocksWithTasks_deleteStep w p s views v).trans hc) ?_
      (fun view hv => hkeep view (List.mem_cons_of_mem _ hv))
    by_cases e : v.containment = k
    · rcases hkeep v (List.mem_cons_self _ _) e views hc hf with h | h
      · rw [h]; exact hf
      · rw [h]; exact (hasFlag_reconsider _ _ _ _ _).mpr hf
    · exact hasFlag_deleteStep_other w p s views v k true e hf

/-! ### The adding part -/

theorem createDock_views (w : World) (l : Layout) (c : ContainmentPtr) (scr : QScreen)
    (f : Bool) :
    (createDock w l c scr f).1 = w ∧
    ∃ dv : DockView, dv.containment = c ∧
      (createDock w l c scr f).2 = { l with m_dockViews := hashInsert l.m_dockViews c dv } := by
  unfold createDock
  cases f
  · exact ⟨rfl, _, rfl, rfl⟩
  · exact ⟨rfl, _, rfl, rfl⟩

theorem hashInsert_absent (views : DockViewHash) (k : ContainmentPtr) (v : DockView)
    (h : hashContains views k = false) : hashInsert views k v = views ++ [(k, v)] := by
  unfold hashInsert
  rw [h]
  rfl

/-- `addDock` keeps the world, the well-formedness of the dock-view map and every entry of
it. -/
theorem addDock_views (w : World) (l : Layout) (c : ContainmentPtr) (f : Bool) (e : Int)
    (hwf : DockViewsWF l.m_dockViews) :
    (addDock w l c f e).1 = w ∧ (addDock w l c f e).2.m_corona = l.m_corona ∧
    DockViewsWF (addDock w l c f e).2.m_dockViews ∧
    ∀ kv ∈ l.m_dockViews, kv ∈ (addDock w l c f e).2.m_dockViews := by
  by_cases hany : l.m_dockViews.any (fun kv => decide (kv.2.containment = c)) = true
  · have : addDock w l c f e = (w, l) := by
      unfold addDock
      split_ifs <;> rfl
    rw [this]
    exact ⟨rfl, rfl, hwf, fun kv h => h⟩
  · rcases addDock_cases w l c f e with h | ⟨scr, h⟩
    · rw [h]
      exact ⟨rfl, rfl, hwf, fun kv h => h⟩
    · rw [h]
      obtain ⟨h1, dv, hdv, h2⟩ := createDock_views w l c scr f
      have habs : hashContains l.m_dockViews c = false := by
        cases hx : hashContains l.m_dockViews c
        · rfl
        · exfalso
          apply hany
          obtain ⟨kv, hk1, hk2⟩ := (hashContains_iff _ _).mp hx
          rw [List.any_eq_true]
          exact ⟨kv, hk1, by simpa using (hwf.2 kv hk1).trans hk2⟩
      rw [h1, h2, hashInsert_absent _ _ _ habs]
      refine ⟨rfl, rfl, ⟨?_, ?_⟩, fun kv h => List.mem_append_left _ h⟩
      · simp only [List.map_append, List.map_cons, List.map_nil]
        rw [List.nodup_append]
        refine ⟨hwf.1, List.nodup_singleton _, ?_⟩
        intro x hx1 hx2
        rw [List.mem_singleton] at hx2
        obtain ⟨kv, hk1, hk2⟩ := List.mem_map.mp hx1
        have : hashContains l.m_dockViews c = true :=
          (hashContains_iff _ _).mpr ⟨kv, hk1, hk2.trans hx2⟩
        rw [habs] at this
        exact absurd this (by decide)
      · intro kv hkv
        rcases List.mem_append.mp hkv with hkv | hkv
        · exact hwf.2 kv hkv
        · rw [List.mem_singleton.mp hkv]
          exact hdv

theorem syncAddOne_views (scr : QScreen) (st : World × Layout) (cont : ContainmentPtr)
    (hwf : DockViewsWF st.2.m_dockViews) :
    (syncAddOne scr st cont).1 = st.1 ∧ (syncAddOne scr st cont).2.m_corona = st.2.m_corona ∧
    DockViewsWF (syncAddOne scr st cont).2.m_dockViews ∧
    ∀ kv ∈ st.2.m_dockViews, kv ∈ (syncAddOne scr st cont).2.m_dockViews := by
  unfold syncAddOne
  simp only []
  split_ifs <;>
    first
    | exact addDock_views _ _ _ _ _ hwf
    | exact ⟨rfl, rfl, hwf, fun kv h => h⟩

theorem syncAddInner_views (scr : QScreen) (cs : List ContainmentPtr) (st : World × Layout)
    (hwf : DockViewsWF st.2.m_dockViews) :
    (cs.foldl (syncAddOne scr) st).1 = st.1 ∧
    (cs.foldl (syncAddOne scr) st).2.m_corona = st.2.m_corona ∧
    DockViewsWF (cs.foldl (syncAddOne scr) st).2.m_dockViews ∧
    ∀ kv ∈ st.2.m_dockViews, kv ∈ (cs.foldl (syncAddOne scr) st).2.m_dockViews := by
  induction cs generalizing st with
  | nil => exact ⟨rfl, rfl, hwf, fun kv h => h⟩
  | cons c cs ih =>
    rw [List.foldl_cons]
    obtain ⟨s1, s2, s3, s4⟩ := syncAddOne_views scr st c hwf
    obtain ⟨r1, r2, r3, r4⟩ := ih _ s3
    exact ⟨r1.trans s1, r2.trans s2, r3, fun kv h => r4 kv (s4 kv h)⟩

theorem syncAddOuter_views (scrs : List QScreen) (st : World × Layout)
    (hwf : DockViewsWF st.2.m_dockViews) :
    (scrs.foldl (fun st scr => st.1.coronaContainments.foldl (syncAddOne scr) st) st).1 = st.1 ∧
    (scrs.foldl (fun st scr => st.1.coronaContainments.foldl (syncAddOne scr) st) st).2.m_corona
      = st.2.m_corona ∧
    DockViewsWF
      (scrs.foldl (fun st scr => st.1.coronaContainments.foldl (syncAddOne scr) st) st).2.m_dockViews ∧
    ∀ kv ∈ st.2.m_dockViews, kv ∈
      (scrs.foldl (fun st scr => st.1.coronaContainments.foldl (syncAddOne scr) st) st).2.m_dockViews := by
  induction scrs generalizing st with
  | nil => exact ⟨rfl, rfl, hwf, fun kv h => h⟩
  | cons scr scrs ih =>
    rw [List.foldl_cons]
    obtain ⟨s1, s2, s3, s4⟩ := syncAddInner_views scr st.1.coronaContainments st hwf
    obtain ⟨r1, r2, r3, r4⟩ := ih _ s3
    exact ⟨r1.trans s1, r2.trans s2, r3, fun kv h => r4 kv (s4 kv h)⟩

/-- The adding part of `syncDockViewsToScreens` keeps the world, the well-formedness of the
dock-view map and every entry of it. -/
theorem syncAdd_views (w : World) (l : Layout) (hwf : DockViewsWF l.m_dockViews) :
    (syncAdd w l).1 = w ∧ (syncAdd w l).2.m_corona = l.m_corona ∧
    DockViewsWF (syncAdd w l).2.m_dockViews ∧
    ∀ kv ∈ l.m_dockViews, kv ∈ (syncAdd w l).2.m_dockViews :=
  syncAddOuter_views w.screens (w, l) hwf

/-! ### The loop that finds the containment to preserve -/

/-- After the first loop over the views `vs`: a dock with tasks will be shown exactly when
some view with tasks has its screen; the id to preserve is `-1` when no view with tasks
can be deleted, and otherwise the least id of the views with tasks that can be deleted. -/
theorem preserveLoop_spec (w : World) (S : DockViewHash) (vs : List DockView) :
    ((vs.foldl (preserveStep w S) (-1, false)).2 = true ↔
      ∃ v ∈ vs, screenFound w v = true ∧ v.tasksPresent = true) ∧
    ((∀ v ∈ vs, ¬ (explicitDeletable w S v = true ∧ v.tasksPresent = true)) →
      (vs.foldl (preserveStep w S) (-1, false)).1 = -1) ∧
    ((∃ v ∈ vs, explicitDeletable w S v = true ∧ v.tasksPresent = true) →
      ∃ P ∈ vs, explicitDeletable w S P = true ∧ P.tasksPresent = true ∧
        (vs.foldl (preserveStep w S) (-1, false)).1 = toInt32 (w.idOf P.containment) ∧
        ∀ V ∈ vs, explicitDeletable w S V = true → V.tasksPresent = true →
          w.idOf P.containment ≤ w.idOf V.containment) := by
  induction vs using List.reverseRecOn with
  | nil => simp
  | append_singleton vs v ih =>
    obtain ⟨ih1, ih2, ih3⟩ := ih
    rw [List.foldl_append, List.foldl_cons, List.foldl_nil]
    generalize hst : vs.foldl (preserveStep w S) (-1, false) = st at ih1 ih2 ih3
    refine ⟨?_, ?_, ?_⟩
    · unfold preserveStep
      simp only []
      by_cases hf : screenFound w v = true ∧ v.tasksPresent = true
      · rw [if_pos hf]
        simp only [true_iff]
        exact ⟨v, by simp, hf⟩
      · rw [if_neg hf, ih1]
        constructor
        · rintro ⟨u, hu, h⟩
          exact ⟨u, List.mem_append_left _ hu, h⟩
        · rintro ⟨u, hu, h⟩
          rcases List.mem_append.mp hu with hu | hu
          · exact ⟨u, hu, h⟩
          · rw [List.mem_singleton.mp hu] at h
            exact absurd h hf
    · intro hnone
      have hv : ¬ (explicitDeletable w S v = true ∧ v.tasksPresent = true) :=
        hnone v (by simp)
      have hp := ih2 (fun u hu => hnone u (List.mem_append_left _ hu))
      unfold preserveStep
      simp only []
      by_cases hd : explicitDeletable w S v = true
      · have ht : ¬ v.tasksPresent = true := fun t => hv ⟨hd, t⟩
        rw [if_pos hd, if_neg ht]
        exact hp
      · rw [if_neg hd]
        exact hp
    · intro hsome
      by_cases hv : explicitDeletable w S v = true ∧ v.tasksPresent = true
      · have hstep : (preserveStep w S st v).1 =
            if st.1 = -1 then toInt32 (w.idOf v.containment)
            else if w.idOf v.containment < toUInt32 st.1 then toInt32 (w.idOf v.containment)
            else st.1 := by
          unfold preserveStep
          simp only []
          rw [if_pos hv.1, if_pos hv.2]
        rw [hstep]
        by_cases hold : ∃ u ∈ vs, explicitDeletable w S u = true ∧ u.tasksPresent = true
        · obtain ⟨P, hP, hPd, hPt, hPp, hPmin⟩ := ih3 hold
          have hu : toUInt32 st.1 = w.idOf P.containment := by
            rw [hPp]; exact toUInt32_toInt32 _ (idOf_lt w _)
          by_cases h1 : st.1 = -1
          · rw [if_pos h1]
            have hmax : w.idOf P.containment = 4294967295 :=
              (toInt32_eq_neg_one _ (idOf_lt w _)).mp (hPp ▸ h1)
            refine ⟨v, by simp, hv.1, hv.2, rfl, ?_⟩
            intro V hV hVd hVt
            rcases List.mem_append.mp hV with hV | hV
            · have := hPmin V hV hVd hVt
              have := idOf_lt w v.containment
              omega
            · rw [List.mem_singleton.mp hV]
          · rw [if_neg h1]
            by_cases h2 : w.idOf v.containment < toUInt32 st.1
            · rw [if_pos h2]
              refine ⟨v, by simp, hv.1, hv.2, rfl, ?_⟩
              intro V hV hVd hVt
              rcases List.mem_append.mp hV with hV | hV
              · have := hPmin V hV hVd hVt
                omega
              · rw [List.mem_singleton.mp hV]
            · rw [if_neg h2]
              refine ⟨P, List.mem_append_left _ hP, hPd, hPt, hPp, ?_⟩
              intro V hV hVd hVt
              rcases List.mem_append.mp hV with hV | hV
              · exact hPmin V hV hVd hVt
              · rw [List.mem_singleton.mp hV]
                omega
        · have hp := ih2 (fun u hu hx => hold ⟨u, hu, hx⟩)
          rw [if_pos hp]
          refine ⟨v, by simp, hv.1, hv.2, rfl, ?_⟩
          intro V hV hVd hVt
          rcases List.mem_append.mp hV with hV | hV
          · exact absurd ⟨V, hV, hVd, hVt⟩ hold
          · rw [List.mem_singleton.mp hV]
      · have hstep : (preserveStep w S st v).1 = st.1 := by
          unfold preserveStep
          simp only []
          by_cases hd : explicitDeletable w S v = true
          · have ht : ¬ v.tasksPresent = true := fun t => hv ⟨hd, t⟩
            rw [if_pos hd, if_neg ht]
          · rw [if_neg hd]
        rw [hstep]
        have hold : ∃ u ∈ vs, explicitDeletable w S u = true ∧ u.tasksPresent = true := by
          obtain ⟨u, hu, hx⟩ := hsome
          rcases List.mem_append.mp hu with hu | hu
          · exact ⟨u, hu, hx⟩
          · rw [List.mem_singleton.mp hu] at hx
            exact absurd hx hv
        obtain ⟨P, hP, hPd, hPt, hPp, hPmin⟩ := ih3 hold
        refine ⟨P, List.mem_append_left _ hP, hPd, hPt, hPp, ?_⟩
        intro V hV hVd hVt
        rcases List.mem_append.mp hV with hV | hV
        · exact hPmin V hV hVd hVt
        · rw [List.mem_singleton.mp hV] at hVd hVt
          exact absurd ⟨hVd, hVt⟩ hv

/-! ### The deleting loop -/

theorem wf_unique (S : DockViewHash) (hwf : DockViewsWF S) (kv1 kv2 : ContainmentPtr × DockView)
    (h1 : kv1 ∈ S) (h2 : kv2 ∈ S) (hk : kv1.1 = kv2.1) : kv1 = kv2 :=
  List.inj_on_of_nodup_map hwf.1 h1 h2 hk

theorem wf_view_entry (S : DockViewHash) (hwf : DockViewsWF S) (v : DockView)
    (hv : v ∈ S.map Prod.snd) : (v.containment, v) ∈ S := by
  obtain ⟨kv, hkv, rfl⟩ := List.mem_map.mp hv
  have := hwf.2 kv hkv
  rw [this]
  exact hkv

theorem wf_containments (S : DockViewHash) (hwf : DockViewsWF S) :
    ((S.map Prod.snd).map (fun v => v.containment)).Nodup := by
  have : (S.map Prod.snd).map (fun v => v.containment) = S.map Prod.fst := by
    rw [List.map_map]
    apply List.map_congr_left
    intro kv hkv
    exact hwf.2 kv hkv
  rw [this]
  exact hwf.1

theorem screenFound_of_onPrimary (w : World) (v : DockView)
    (h : v.onPrimary = true) : screenFound w v = true := by
  unfold screenFound
  rw [List.any_eq_true]
  exact ⟨w.primaryScreen, List.mem_cons_self _ _, by simp [h]⟩

theorem deleteStep_found (w : World) (p : Int) (s : Bool) (L : DockViewHash) (v : DockView)
    (h : screenFound w v = true) : deleteStep w p s L v = reconsider w L v := by
  unfold deleteStep explicitDeletable
  simp [h]

theorem deleteStep_preserved (w : World) (p : Int) (L : DockViewHash) (v : DockView)
    (hp : toUInt32 p = w.idOf v.containment) (he : v.onPrimary = false) :
    deleteStep w p false L v = L ∨ deleteStep w p false L v = reconsider w L v := by
  unfold deleteStep
  split_ifs with h1 h2 h3
  · rcases h2 with h2 | h2
    · exact absurd h2 (by decide)
    · exact absurd hp h2
  · exact Or.inl rfl
  · rw [he] at h3
    exact absurd h3.1 (by decide)
  · exact Or.inr rfl

theorem deleteStep_last_tasks (w : World) (p : Int) (s : Bool) (L : DockViewHash)
    (v : DockView) (ht : v.tasksPresent = true) (he : v.onPrimary = false)
    (hc : noDocksWithTasks L = 1) : deleteStep w p s L v = reconsider w L v := by
  unfold deleteStep explicitDeletable
  simp [ht, he, hc]

theorem tasks_filter_mem (L : DockViewHash) (k : ContainmentPtr) (h : hasFlag L k true) :
    ∃ kv ∈ L.filter (fun kv => kv.2.tasksPresent), kv.1 = k := by
  obtain ⟨kv, h1, h2, h3⟩ := h
  exact ⟨kv, List.mem_filter.mpr ⟨h1, h3⟩, h2⟩

theorem one_le_noDocksWithTasks (L : DockViewHash) (k : ContainmentPtr) (h : hasFlag L k true) :
    1 ≤ noDocksWithTasks L := by
  obtain ⟨kv, h1, _⟩ := tasks_filter_mem L k h
  unfold noDocksWithTasks
  have := List.length_pos_of_mem h1
  omega

theorem two_le_of_two_flags (L : DockViewHash) (k kP : ContainmentPtr) (hne : k ≠ kP)
    (h1 : hasFlag L k true) (h2 : hasFlag L kP true) :
    2 ≤ noDocksWithTasks L ∧ 1 < L.length := by
  obtain ⟨a, ha, hak⟩ := tasks_filter_mem L k h1
  obtain ⟨b, hb, hbk⟩ := tasks_filter_mem L kP h2
  have hab : a ≠ b := fun e => hne (by rw [← hak, ← hbk, e])
  have hlen : 2 ≤ (L.filter (fun kv => kv.2.tasksPresent)).length := by
    cases hF : L.filter (fun kv => kv.2.tasksPresent) with
    | nil => rw [hF] at ha; simp at ha
    | cons x xs =>
      cases xs with
      | nil =>
        rw [hF] at ha hb
        rw [List.mem_singleton] at ha hb
        exact absurd (ha.trans hb.symm) hab
      | cons y ys => simp
  have hle := List.length_filter_le (fun kv : ContainmentPtr × DockView => kv.2.tasksPresent) L
  unfold noDocksWithTasks
  constructor
  · omega
  · omega

theorem noDocksWithTasks_le_length (L : DockViewHash) : noDocksWithTasks L ≤ L.length := by
  unfold noDocksWithTasks
  exact Int.ofNat_le.mpr (List.length_filter_le _ _)

/-- A view that is removed in its round, whenever the map still has its key and the key of
a view that is never removed, is not in the map after the deleting loop. -/
theorem deleteLoop_removes (w : World) (p : Int) (s : Bool) (k kP : ContainmentPtr)
    (V : DockView) (hVk : V.containment = k)
    (vs : List DockView) (L : DockViewHash) (hV : V ∈ vs)
    (hnd : (vs.map (fun v => v.containment)).Nodup)
    (hfk : hasFlag L k true) (hfP : hasFlag L kP true)
    (hkeep : ∀ view ∈ vs, view.containment = kP → ∀ L',
      (deleteStep w p s L' view = L' ∨ deleteStep w p s L' view = reconsider w L' view))
    (hdoom : ∀ L', hasFlag L' k true → hasFlag L' kP true →
      deleteStep w p s L' V = hashRemove L' k) :
    hashContains (vs.foldl (deleteStep w p s) L) k = false := by
  induction vs generalizing L with
  | nil => simp at hV
  | cons u vs ih =>
    rw [List.foldl_cons]
    rw [List.map_cons, List.nodup_cons] at hnd
    by_cases hu : u.containment = k
    · have huV : u = V := by
        rcases List.mem_cons.mp hV with e | e
        · exact e.symm
        · exfalso
          apply hnd.1
          rw [hu, ← hVk]
          exact List.mem_map.mpr ⟨V, e, rfl⟩
      rw [huV, hdoom L hfk hfP]
      cases hx : hashContains (vs.foldl (deleteStep w p s) (hashRemove L k)) k
      · rfl
      · have := hashContains_deleteLoop w p s vs _ k hx
        rw [hashContains_remove] at this
        exact absurd this (by decide)
    · have hV' : V ∈ vs := by
        rcases List.mem_cons.mp hV with e | e
        · exact absurd (e ▸ hVk) hu
        · exact e
      refine ih _ hV' hnd.2 (hasFlag_deleteStep_other w p s L u k true hu hfk) ?_
        (fun view hv => hkeep view (List.mem_cons_of_mem _ hv))
      by_cases huP : u.containment = kP
      · rcases hkeep u (List.mem_cons_self _ _) huP L with h | h
        · rw [h]; exact hfP
        · rw [h]; exact (hasFlag_reconsider _ _ _ _ _).mpr hfP
      · exact hasFlag_deleteStep_other w p s L u kP true huP hfP

/-- The removing part keeps a dock view with tasks when there is one. -/
theorem syncRemove_keeps_tasks (w : World) (l : Layout) (hwf : DockViewsWF l.m_dockViews)
    (h : ∃ kv ∈ l.m_dockViews, kv.2.tasksPresent = true) :
    ∃ kv ∈ (syncRemove w l).m_dockViews, kv.2.tasksPresent = true := by
  have hflag : ∀ k, hasFlag (syncRemove w l).m_dockViews k true →
      ∃ kv ∈ (syncRemove w l).m_dockViews, kv.2.tasksPresent = true := by
    rintro k ⟨kv, h1, _, h3⟩
    exact ⟨kv, h1, h3⟩
  obtain ⟨sp1, sp2, sp3⟩ := preserveLoop_spec w l.m_dockViews (l.m_dockViews.map Prod.snd)
  unfold syncRemove at hflag ⊢
  simp only [] at hflag ⊢
  generalize hst : (l.m_dockViews.map Prod.snd).foldl (preserveStep w l.m_dockViews) (-1, false)
    = st at sp1 sp2 sp3 hflag ⊢
  have same : ∀ (k : ContainmentPtr) (v0 view : DockView), (k, v0) ∈ l.m_dockViews →
      view ∈ l.m_dockViews.map Prod.snd → view.containment = k → view = v0 := by
    intro k v0 view h0 hv hk
    have h1 := wf_view_entry _ hwf view hv
    have := wf_unique _ hwf _ _ h1 h0 hk
    exact (Prod.ext_iff.mp this).2
  by_cases hs : st.2 = true
  · obtain ⟨F, hF, hFf, hFt⟩ := sp1.mp hs
    have hFe := wf_view_entry _ hwf F hF
    apply hflag F.containment
    apply hasFlag_deleteLoop_keep w st.1 st.2 F.containment (noDocksWithTasks l.m_dockViews)
      _ _ (le_refl _) ⟨_, hFe, rfl, hFt⟩
    intro view hv hk L _ _
    rw [same _ _ _ hFe hv hk]
    exact Or.inr (deleteStep_found w _ _ L F hFf)
  · have hs' : st.2 = false := by simpa using hs
    by_cases hD : ∃ v ∈ l.m_dockViews.map Prod.snd,
        explicitDeletable w l.m_dockViews v = true ∧ v.tasksPresent = true
    · obtain ⟨P, hP, hPd, hPt, hPp, _⟩ := sp3 hD
      have hPe := wf_view_entry _ hwf P hP
      have hPx : P.onPrimary = false := by
        unfold explicitDeletable at hPd
        simp only [decide_eq_true_eq] at hPd
        exact hPd.2.1
      apply hflag P.containment
      apply hasFlag_deleteLoop_keep w st.1 st.2 P.containment (noDocksWithTasks l.m_dockViews)
        _ _ (le_refl _) ⟨_, hPe, rfl, hPt⟩
      intro view hv hk L _ _
      rw [same _ _ _ hPe hv hk, hs']
      exact deleteStep_preserved w st.1 L P
        (by rw [hPp]; exact toUInt32_toInt32 _ (idOf_lt w _)) hPx
    · obtain ⟨kv0, hkv0, ht0⟩ := h
      have hv0 : kv0.2 ∈ l.m_dockViews.map Prod.snd := List.mem_map.mpr ⟨kv0, hkv0, rfl⟩
      have hc0 : kv0.2.containment = kv0.1 := hwf.2 kv0 hkv0
      have hnf : screenFound w kv0.2 = false := by
        cases hx : screenFound w kv0.2
        · rfl
        · exact absurd (sp1.mpr ⟨kv0.2, hv0, hx, ht0⟩) hs
      have hx0 : kv0.2.onPrimary = false := by
        cases hx : kv0.2.onPrimary
        · rfl
        · rw [screenFound_of_onPrimary w _ hx] at hnf
          exact absurd hnf (by decide)
      have hf0 : hasFlag l.m_dockViews kv0.1 true := ⟨kv0, hkv0, rfl, ht0⟩
      have hcount : noDocksWithTasks l.m_dockViews = 1 := by
        have hnd : ¬ (explicitDeletable w l.m_dockViews kv0.2 = true) :=
          fun hx => hD ⟨kv0.2, hv0, hx, ht0⟩
        unfold explicitDeletable at hnd
        simp only [decide_eq_true_eq, hnf, hx0, ht0, true_and, hc0,
          hasFlag_contains _ _ _ hf0, not_and, not_not] at hnd
        have h1 := one_le_noDocksWithTasks _ _ hf0
        have h2 := noDocksWithTasks_le_length l.m_dockViews
        by_cases hl : l.m_dockViews.length > 1
        · exact hnd hl
        · omega
      apply hflag kv0.1
      apply hasFlag_deleteLoop_keep w st.1 st.2 kv0.1 1 _ _ (le_of_eq hcount) hf0
      intro view hv hk L hL hLf
      have hview : view = kv0.2 := same kv0.1 kv0.2 view hkv0 hv hk
      rw [hview]
      have h1 := one_le_noDocksWithTasks _ _ hLf
      exact Or.inr (deleteStep_last_tasks w _ _ L kv0.2 ht0 hx0 (by omega))

/-- The removing part, when no dock with tasks has its screen: an explicit dock with tasks
is kept exactly when its containment id is the least among the explicit docks with tasks. -/
theorem syncRemove_keeps_min (w : World) (l : Layout) (hwf : DockViewsWF l.m_dockViews)
    (hnf : ∀ kv ∈ l.m_dockViews, kv.2.tasksPresent = true → screenFound w kv.2 = false)
    (kv : ContainmentPtr × DockView) (hkv : kv ∈ l.m_dockViews)
    (ht : kv.2.tasksPresent = true) (he : kv.2.onPrimary = false) :
    hashContains (syncRemove w l).m_dockViews kv.1 = true ↔
      ∀ kv' ∈ l.m_dockViews, kv'.2.tasksPresent = true → kv'.2.onPrimary = false →
        w.idOf kv.1 ≤ w.idOf kv'.1 := by
  obtain ⟨sp1, sp2, sp3⟩ := preserveLoop_spec w l.m_dockViews (l.m_dockViews.map Prod.snd)
  unfold syncRemove
  simp only []
  generalize hst : (l.m_dockViews.map Prod.snd).foldl (preserveStep w l.m_dockViews) (-1, false)
    = st at sp1 sp2 sp3 ⊢
  have same : ∀ (k : ContainmentPtr) (v0 view : DockView), (k, v0) ∈ l.m_dockViews →
      view ∈ l.m_dockViews.map Prod.snd → view.containment = k → view = v0 := by
    intro k v0 view h0 hv hk
    have h1 := wf_view_entry _ hwf view hv
    have := wf_unique _ hwf _ _ h1 h0 hk
    exact (Prod.ext_iff.mp this).2
  have hs' : st.2 = false := by
    cases hx : st.2
    · rfl
    · obtain ⟨F, hF, hFf, hFt⟩ := sp1.mp hx
      have := hnf _ (wf_view_entry _ hwf F hF) hFt
      rw [hFf] at this
      exact absurd this (by decide)
  have hv : kv.2 ∈ l.m_dockViews.map Prod.snd := List.mem_map.mpr ⟨kv, hkv, rfl⟩
  have hc : kv.2.containment = kv.1 := hwf.2 kv hkv
  have hf : hasFlag l.m_dockViews kv.1 true := ⟨kv, hkv, rfl, ht⟩
  have hkve : (kv.1, kv.2) ∈ l.m_dockViews := hkv
  by_cases hcount : noDocksWithTasks l.m_dockViews = 1
  · -- a single dock with tasks: it is the least and it is kept
    have hmin : ∀ kv' ∈ l.m_dockViews, kv'.2.tasksPresent = true → kv'.2.onPrimary = false →
        w.idOf kv.1 ≤ w.idOf kv'.1 := by
      intro kv' hkv' ht' _
      have hlen : (l.m_dockViews.filter (fun kv => kv.2.tasksPresent)).length = 1 := by
        unfold noDocksWithTasks at hcount
        omega
      obtain ⟨x, hx⟩ := List.length_eq_one.mp hlen
      have h1 : kv ∈ l.m_dockViews.filter (fun kv => kv.2.tasksPresent) :=
        List.mem_filter.mpr ⟨hkv, ht⟩
      have h2 : kv' ∈ l.m_dockViews.filter (fun kv => kv.2.tasksPresent) :=
        List.mem_filter.mpr ⟨hkv', ht'⟩
      rw [hx, List.mem_singleton] at h1 h2
      rw [h1, h2]
    refine ⟨fun _ => hmin, fun _ => ?_⟩
    apply hasFlag_contains _ _ true
    apply hasFlag_deleteLoop_keep w st.1 st.2 kv.1 1 _ _ (le_of_eq hcount) hf
    intro view hview hk L hL hLf
    rw [same kv.1 kv.2 view hkve hview hk]
    have h1 := one_le_noDocksWithTasks _ _ hLf
    exact Or.inr (deleteStep_last_tasks w _ _ L kv.2 ht he (by omega))
  · -- several docks with tasks: all explicit ones can be deleted
    have hge := one_le_noDocksWithTasks _ _ hf
    have hlen := noDocksWithTasks_le_length l.m_dockViews
    have hdel : ∀ kv' ∈ l.m_dockViews, kv'.2.tasksPresent = true → kv'.2.onPrimary = false →
        explicitDeletable w l.m_dockViews kv'.2 = true := by
      intro kv' hkv' ht' he'
      unfold explicitDeletable
      simp only [decide_eq_true_eq]
      refine ⟨hnf kv' hkv' ht', he', by omega, ?_, fun hx => hcount hx.2⟩
      rw [hwf.2 kv' hkv']
      exact (hashContains_iff _ _).mpr ⟨kv', hkv', rfl⟩
    obtain ⟨P, hP, hPd, hPt, hPp, hPmin⟩ := sp3 ⟨kv.2, hv, hdel kv hkv ht he, ht⟩
    have hPe := wf_view_entry _ hwf P hP
    have hPx : P.onPrimary = false := by
      unfold explicitDeletable at hPd
      simp only [decide_eq_true_eq] at hPd
      exact hPd.2.1
    have hup : toUInt32 st.1 = w.idOf P.containment := by
      rw [hPp]; exact toUInt32_toInt32 _ (idOf_lt w _)
    have hPle : w.idOf P.containment ≤ w.idOf kv.1 := by
      have := hPmin kv.2 hv (hdel kv hkv ht he) ht
      rw [hc] at this
      exact this
    constructor
    · -- kept, so least
      intro hkept kv' hkv' ht' he'
      by_contra hlt
      have hlt' : w.idOf kv'.1 < w.idOf kv.1 := by omega
      have hPle' : w.idOf P.containment ≤ w.idOf kv'.1 := by
        have := hPmin kv'.2 (List.mem_map.mpr ⟨kv', hkv', rfl⟩) (hdel kv' hkv' ht' he') ht'
        rw [hwf.2 kv' hkv'] at this
        exact this
      have hne : kv.1 ≠ P.containment := by
        intro e
        rw [e] at hlt'
        omega
      have : hashContains ((l.m_dockViews.map Prod.snd).foldl (deleteStep w st.1 st.2)
          l.m_dockViews) kv.1 = false := by
        apply deleteLoop_removes w st.1 st.2 kv.1 P.containment kv.2 hc _ _ hv
          (wf_containments _ hwf) hf ⟨_, hPe, rfl, hPt⟩
        · intro view hview hk L'
          rw [same _ _ _ hPe hview hk, hs']
          exact deleteStep_preserved w st.1 L' P hup hPx
        · intro L' hL1 hL2
          obtain ⟨c2, l2⟩ := two_le_of_two_flags L' kv.1 P.containment hne hL1 hL2
          have hdl : explicitDeletable w L' kv.2 = true := by
            unfold explicitDeletable
            simp only [decide_eq_true_eq]
            refine ⟨hnf kv hkv ht, he, l2, ?_, fun hx => ?_⟩
            · rw [hc]; exact hasFlag_contains _ _ _ hL1
            · have := hx.2
              omega
          unfold deleteStep
          rw [if_pos hdl, hc, if_pos]
          right
          rw [hup]
          omega
      rw [this] at hkept
      exact absurd hkept (by decide)
    · -- least, so kept
      intro hmin
      have hle : w.idOf kv.1 ≤ w.idOf P.containment := by
        have := hmin (P.containment, P) hPe hPt hPx
        exact this
      apply hasFlag_contains _ _ true
      apply hasFlag_deleteLoop_keep w st.1 st.2 kv.1 (noDocksWithTasks l.m_dockViews)
        _ _ (le_refl _) hf
      intro view hview hk L _ _
      rw [same kv.1 kv.2 view hkve hview hk, hs']
      exact deleteStep_preserved w st.1 L kv.2 (by rw [hup, hc]; omega) he

/-- C10. `syncDockViewsToScreens` never deletes the last tasks dock, and the last tasks
dock which exists in the end is the one with the lowest containment id. For every
dock-view map (one that stores each view under its own containment) and every list of
connected screens: if some dock view with tasks is in the map before the call then a
dock view with tasks is in the map after it; and when, after the views that are missing
have been added, no dock view with tasks has its screen among the connected screens, an
explicit dock view with tasks is in the map after the call exactly when its containment
id is the minimum of the containment ids of the explicit dock views with tasks. -/
theorem sync_keeps_lowest_tasks_dock (w : World) (l : Layout)
    (hwf : DockViewsWF l.m_dockViews) :
    ((∃ kv ∈ l.m_dockViews, kv.2.tasksPresent = true) →
      ∃ kv ∈ (syncDockViewsToScreens w l).2.m_dockViews, kv.2.tasksPresent = true) ∧
    (l.m_corona = true →
      (∀ kv ∈ (syncAdd w l).2.m_dockViews, kv.2.tasksPresent = true →
        screenFound w kv.2 = false) →
      ∀ kv ∈ (syncAdd w l).2.m_dockViews, kv.2.tasksPresent = true → kv.2.onPrimary = false →
        (hashContains (syncDockViewsToScreens w l).2.m_dockViews kv.1 = true ↔
          ∀ kv' ∈ (syncAdd w l).2.m_dockViews, kv'.2.tasksPresent = true →
            kv'.2.onPrimary = false → w.idOf kv.1 ≤ w.idOf kv'.1)) := by
  obtain ⟨a1, _, a3, a4⟩ := syncAdd_views w l hwf
  cases hc : l.m_corona
  · refine ⟨fun h => ?_, fun h => absurd h (by decide)⟩
    simpa [syncDockViewsToScreens, hc] using h
  · have hr : (syncDockViewsToScreens w l).2 = syncRemove w (syncAdd w l).2 := by
      unfold syncDockViewsToScreens
      rw [hc, if_neg (by decide)]
      simp only [a1]
    rw [hr]
    refine ⟨fun h => ?_, fun _ hnf kv hkv ht he => ?_⟩
    · obtain ⟨kv, hkv, ht⟩ := h
      exact syncRemove_keeps_tasks w _ a3 ⟨kv, a4 kv hkv, ht⟩
    · exact syncRemove_keeps_min w _ a3 hnf kv hkv ht he

theorem sync_keeps_lowest_tasks_dock_witness :
    DockViewsWF goneScreenLayout.m_dockViews ∧
    (∃ kv ∈ (syncDockViewsToScreens goneScreenWorld goneScreenLayout).2.m_dockViews,
      kv.2.tasksPresent = true) ∧
    (syncDockViewsToScreens goneScreenWorld goneScreenLayout).2.m_dockViews
      = [(3, goneView 3)] :=
  ⟨by unfold DockViewsWF; decide,
    (sync_keeps_lowest_tasks_dock goneScreenWorld goneScreenLayout
      (by unfold DockViewsWF; decide)).1 ⟨(5, goneView 5), by decide, rfl⟩,
    by decide⟩

/-! ## Docks on the primary screen and explicit docks -/

/-- A containment whose entry `onPrimary` is true gets no view while an explicit dock holds
its edge of the primary screen: the call changes nothing, forced or not. -/
theorem addDock_entry_onPrimary_occupied (w : World) (l : Layout) (c : ContainmentPtr)
    (f : Bool) (e : Int)
    (hp : (w.containment c).config.readBool [] "onPrimary" true = true)
    (ho : w.explicitDockOccupyEdge l.m_dockViews w.primaryScreenId (w.containment c).location
      = true) :
    addDock w l c f e = (w, l) := by
  unfold addDock
  simp only [hp, ho]
  split_ifs <;> first | rfl | simp_all

/-- A forced load of a containment whose entry `onPrimary` is false asks nothing about the
edge: the view is made on the primary screen and set `onPrimary`. -/
theorem addDock_forced_entry_false (w : World) (l : Layout) (c : ContainmentPtr) (e : Int)
    (h0 : c ≠ 0) (hc : l.m_corona = true) (hv : (w.containment c).kPackageValid = true)
    (hid : (w.containment c).pluginId = "org.kde.latte.containment")
    (hn : l.m_dockViews.any (fun kv => kv.2.containment = c) = false)
    (hp : (w.containment c).config.readBool [] "onPrimary" true = false) :
    addDock w l c true e = createDock w l c w.primaryScreen true ∧
    ((hashValue (addDock w l c true e).2.m_dockViews c).map DockView.onPrimary) = some true := by
  have h1 : addDock w l c true e = createDock w l c w.primaryScreen true := by
    unfold addDock
    simp [h0, hc, hv, hid, hn, hp]
  refine ⟨h1, ?_⟩
  rw [h1]
  unfold createDock
  simp [hashValue_insert]

/-- C11: a forced load takes an edge that an explicit dock holds, against the rule of
`addDock` that an onPrimary dock never takes the same edge of the same screen as an explicit
dock. The containment at address `4` has the entry `onPrimary` false, and the corona reports
its edge of the primary screen as occupied by an explicit dock. `addDock` with
`forceLoading` makes a view for it on the primary screen and sets it `onPrimary`, and the
dock-view map is not the one of before the call. -/
theorem addDock_forced_takes_occupied_edge :
    occupiedWorld.explicitDockOccupyEdge occupiedLayout.m_dockViews
      occupiedWorld.primaryScreenId (occupiedWorld.containment 4).location = true ∧
    (addDock occupiedWorld occupiedLayout 4 true (-1)).2.m_dockViews =
      [(3, explicitView),
       (4, { containment := 4, onPrimary := true, currentScreen := "eDP-1",
             tasksPresent := false, location := BottomEdge, dockWin := true,
             managedLayout := "My" })] ∧
    (addDock occupiedWorld occupiedLayout 4 true (-1)).2.m_dockViews
      ≠ occupiedLayout.m_dockViews := by
  decide

/-! ## Unloading the containments -/

theorem containmentDestroyed_fields (l : Layout) (c : ContainmentPtr) :
    (containmentDestroyed l c).m_unloadedContainmentsIds = l.m_unloadedContainmentsIds ∧
    (containmentDestroyed l c).m_corona = l.m_corona ∧
    ((containmentDestroyed l c).m_containments = l.m_containments ∨
      (containmentDestroyed l c).m_containments = l.m_containments.erase c) := by
  unfold containmentDestroyed
  by_cases h1 : l.m_corona = false
  · simp [h1]
  · by_cases h2 : c = 0
    · simp [h1, h2]
    · by_cases h3 : hashContains l.m_dockViews c = true <;> simp [h1, h2, h3]

theorem containmentDestroyed_absent (l : Layout) (c : ContainmentPtr)
    (h : c ∉ l.m_containments) :
    (containmentDestroyed l c).m_containments = l.m_containments := by
  rcases (containmentDestroyed_fields l c).2.2 with h1 | h1
  · exact h1
  · rw [h1, List.erase_of_not_mem h]

/-- The loop over the systrays records their ids in order and leaves the containments that
are none of them. -/
theorem unloadSystrays_spec (w : World) (ss : List ContainmentPtr) (l : Layout) :
    (unloadSystrays ss w l).m_unloadedContainmentsIds =
      l.m_unloadedContainmentsIds ++ ss.map (fun c => qNumber (w.idOf c)) ∧
    (unloadSystrays ss w l).m_containments =
      l.m_containments.filter (fun c => decide (c ∉ ss)) ∧
    (unloadSystrays ss w l).m_corona = l.m_corona := by
  induction ss generalizing l with
  | nil => simp [unloadSystrays]
  | cons s ss ih =>
    rw [unloadSystrays]
    obtain ⟨a1, a2, a3⟩ := ih (containmentDestroyed
      { l with
        m_unloadedContainmentsIds := l.m_unloadedContainmentsIds ++ [qNumber (w.idOf s)],
        m_containments := l.m_containments.filter (fun c => c ≠ s) } s)
    obtain ⟨b1, b2, _⟩ := containmentDestroyed_fields
      { l with
        m_unloadedContainmentsIds := l.m_unloadedContainmentsIds ++ [qNumber (w.idOf s)],
        m_containments := l.m_containments.filter (fun c => c ≠ s) } s
    have b3 := containmentDestroyed_absent
      { l with
        m_unloadedContainmentsIds := l.m_unloadedContainmentsIds ++ [qNumber (w.idOf s)],
        m_containments := l.m_containments.filter (fun c => c ≠ s) } s
      (by simp [List.mem_filter])
    refine ⟨?_, ?_, ?_⟩
    · rw [a1, b1]; simp
    · rw [a2, b3]
      simp only [List.filter_filter]
      apply List.filter_congr
      intro c _
      by_cases h1 : c = s <;> by_cases h2 : c ∈ ss <;> simp [h1, h2]
    · rw [a3, b2]

/-- The loop over the rest records the ids in order and empties the list, when no
containment stands twice in it. -/
theorem unloadRest_spec (w : World) (fuel : Nat) (l : Layout)
    (hf : l.m_containments.length ≤ fuel) (hnd : l.m_containments.Nodup) :
    (unloadRest fuel w l).m_unloadedContainmentsIds =
      l.m_unloadedContainmentsIds ++ l.m_containments.map (fun c => qNumber (w.idOf c)) ∧
    (unloadRest fuel w l).m_containments = [] := by
  induction fuel generalizing l with
  | zero =>
    have h : l.m_containments = [] := List.length_eq_zero.mp (Nat.le_zero.mp hf)
    simp [unloadRest, h]
  | succ n ih =>
    rw [unloadRest]
    cases hl : l.m_containments with
    | nil => simp [hl]
    | cons c rest =>
      simp only []
      rw [hl] at hnd hf
      have hc : c ∉ rest := (List.nodup_cons.mp hnd).1
      have b3 := containmentDestroyed_absent
        { l with
          m_unloadedContainmentsIds := l.m_unloadedContainmentsIds ++ [qNumber (w.idOf c)],
          m_containments := rest } c hc
      obtain ⟨b1, _, _⟩ := containmentDestroyed_fields
        { l with
          m_unloadedContainmentsIds := l.m_unloadedContainmentsIds ++ [qNumber (w.idOf c)],
          m_containments := rest } c
      obtain ⟨a1, a2⟩ := ih (containmentDestroyed
        { l with
          m_unloadedContainmentsIds := l.m_unloadedContainmentsIds ++ [qNumber (w.idOf c)],
          m_containments := rest } c)
        (by rw [b3]; simpa using Nat.le_of_succ_le_succ hf)
        (by rw [b3]; exact (List.nodup_cons.mp hnd).2)
      refine ⟨?_, a2⟩
      rw [a1, b1, b3]
      simp

/-- C12: with a corona and a containment list without repeated entries, `unloadContainments`
empties the containment list, and `unloadedContainmentsIds()` is then the decimal ids of the
containments whose parent is an applet, in list order, followed by the decimal ids of the
other containments, in list order; what an earlier unload recorded is not part of it. -/
theorem unloadContainments_ids_systrays_first (w : World) (l : Layout)
    (hc : l.m_corona = true) (hnd : l.m_containments.Nodup) :
    (unloadContainments w l).m_containments = [] ∧
    unloadedContainmentsIds (unloadContainments w l) =
      (l.m_containments.filter (fun c => decide ((w.containment c).parent ≠ 0))).map
          (fun c => qNumber (w.idOf c)) ++
        (l.m_containments.filter (fun c => decide ((w.containment c).parent = 0))).map
          (fun c => qNumber (w.idOf c)) := by
  have hu : unloadContainments w l =
      unloadRest
        (unloadSystrays (l.m_containments.filter (fun c => (w.containment c).parent ≠ 0)) w
          { l with m_unloadedContainmentsIds := [] }).m_containments.length w
        (unloadSystrays (l.m_containments.filter (fun c => (w.containment c).parent ≠ 0)) w
          { l with m_unloadedContainmentsIds := [] }) := by
    unfold unloadContainments
    rw [if_neg (by rw [hc]; decide)]
  unfold unloadedContainmentsIds
  rw [hu]
  obtain ⟨a1, a2, _⟩ := unloadSystrays_spec w
    (l.m_containments.filter (fun c => (w.containment c).parent ≠ 0))
    { l with m_unloadedContainmentsIds := [] }
  have hrest : (unloadSystrays (l.m_containments.filter (fun c => (w.containment c).parent ≠ 0))
      w { l with m_unloadedContainmentsIds := [] }).m_containments =
      l.m_containments.filter (fun c => decide ((w.containment c).parent = 0)) := by
    rw [a2]
    apply List.filter_congr
    intro c hcm
    simp [List.mem_filter, hcm]
  obtain ⟨r1, r2⟩ := unloadRest_spec w _ _ (le_refl _)
    (by rw [hrest]; exact hnd.filter _)
  refine ⟨r2, ?_⟩
  rw [r1, a1, hrest]
  simp

theorem unloadContainments_ids_systrays_first_witness :
    sampleLayout.m_corona = true ∧ sampleLayout.m_containments.Nodup ∧
    (unloadContainments sampleWorld sampleLayout).m_containments = [] ∧
    unloadedContainmentsIds (unloadContainments sampleWorld sampleLayout) = ["2", "1"] :=
  ⟨rfl, by decide,
    (unloadContainments_ids_systrays_first sampleWorld sampleLayout rfl (by decide)).1,
    (unloadContainments_ids_systrays_first sampleWorld sampleLayout rfl (by decide)).2.trans
      (by decide)⟩

/-! ## A copy of a whole config group -/

theorem lookup_eq_none_of_not_mem (c : KConfig) (g : List String) (k : String)
    (h : (g, k) ∉ c.map (fun e => (e.mGroup, e.mKey))) : c.lookup g k = none := by
  by_contra hne
  have h2 : c.hasKey g k = true := by
    rw [KConfig.hasKey_eq_isSome]
    exact Option.isSome_iff_ne_none.mpr hne
  obtain ⟨e, he, hg, hk⟩ := (hasKey_iff c g k).mp h2
  exact h (List.mem_map.mpr ⟨e, he, by rw [hg, hk]⟩)

theorem hasKey_writeEntry (c : KConfig) (g : List String) (k : String) (v : KValue) :
    (c.writeEntry g k v).hasKey g k = true := by
  rw [KConfig.hasKey_eq_isSome, KConfig.lookup_writeEntry]
  simp

/-- A second write of the same value under the same key changes nothing. -/
theorem writeEntry_writeEntry_same (c : KConfig) (g : List String) (k : String) (v : KValue) :
    (c.writeEntry g k v).writeEntry g k v = c.writeEntry g k v := by
  have h0 : ∀ d : KConfig, d.hasKey g k = true → d.writeEntry g k v =
      d.map (fun e => if e.mGroup = g ∧ e.mKey = k then { e with value := v } else e) := by
    intro d hd
    unfold KConfig.writeEntry
    rw [if_pos hd]
  rw [h0 _ (hasKey_writeEntry c g k v)]
  unfold KConfig.writeEntry
  by_cases h : c.hasKey g k = true
  · rw [if_pos h, List.map_map]
    apply List.map_congr_left
    intro e _
    by_cases he : e.mGroup = g ∧ e.mKey = k
    · simp [he]
    · simp [he]
  · rw [if_neg h, List.map_append]
    have h2 : c.map (fun e => if e.mGroup = g ∧ e.mKey = k then { e with value := v } else e)
        = c := by
      conv_rhs => rw [← List.map_id c]
      apply List.map_congr_left
      intro e he
      have : ¬ (e.mGroup = g ∧ e.mKey = k) := fun hx =>
        h ((hasKey_iff c g k).mpr ⟨e, he, hx.1, hx.2⟩)
      simp [this]
    rw [h2]
    simp

theorem uniqueKeys_writeEntry (c : KConfig) (g : List String) (k : String) (v : KValue)
    (h : UniqueKeys c) : UniqueKeys (c.writeEntry g k v) := by
  unfold UniqueKeys at *
  unfold KConfig.writeEntry
  by_cases hk : c.hasKey g k = true
  · rw [if_pos hk, List.map_map]
    have : ((fun e : KEntry => (e.mGroup, e.mKey)) ∘
        (fun e => if e.mGroup = g ∧ e.mKey = k then { e with value := v } else e))
        = (fun e : KEntry => (e.mGroup, e.mKey)) := by
      funext e
      by_cases he : e.mGroup = g ∧ e.mKey = k
      · simp [he]
      · simp [he]
    rw [this]
    exact h
  · rw [if_neg hk, List.map_append]
    refine List.Nodup.append h (by simp) ?_
    intro x hx hx2
    simp only [List.map_cons, List.map_nil, List.mem_singleton] at hx2
    subst hx2
    obtain ⟨e, he, hxe⟩ := List.mem_map.mp hx
    simp only [Prod.mk.injEq] at hxe
    exact hk ((hasKey_iff c g k).mpr ⟨e, he, hxe.1, hxe.2⟩)

/-- Entries written below `dg` do not show under a group outside `dg`. -/
theorem lookup_foldl_write_outside (L : List KEntry) (dg : List String) (dst : KConfig)
    (g : List String) (k : String) (hg : ¬ dg <+: g) :
    KConfig.lookup (L.foldl (fun acc e => acc.writeEntry (dg ++ e.mGroup) e.mKey e.value) dst)
      g k = dst.lookup g k := by
  induction L generalizing dst with
  | nil => rfl
  | cons e L ih =>
    rw [List.foldl_cons, ih, KConfig.lookup_writeEntry]
    have : ¬ (g = dg ++ e.mGroup ∧ k = e.mKey) := by
      rintro ⟨h1, _⟩
      exact hg (h1 ▸ List.prefix_append _ _)
    rw [if_neg this]

/-- Entries written below `dg` from a map read back as in the map. -/
theorem lookup_foldl_write_inside (L : List KEntry) (dg : List String) (dst : KConfig)
    (p : List String) (k : String) (hL : UniqueKeys L) :
    KConfig.lookup (L.foldl (fun acc e => acc.writeEntry (dg ++ e.mGroup) e.mKey e.value) dst)
      (dg ++ p) k =
      match KConfig.lookup L p k with
      | some v => some v
      | none => dst.lookup (dg ++ p) k := by
  induction L generalizing dst with
  | nil => rfl
  | cons e L ih =>
    have hL2 : UniqueKeys L := by
      unfold UniqueKeys at *
      rw [List.map_cons] at hL
      exact (List.nodup_cons.mp hL).2
    rw [List.foldl_cons, ih _ hL2, KConfig.lookup_writeEntry, KConfig.lookup_cons]
    by_cases he : e.mGroup = p ∧ e.mKey = k
    · have hn : KConfig.lookup L p k = none := by
        apply lookup_eq_none_of_not_mem
        unfold UniqueKeys at hL
        rw [List.map_cons] at hL
        rw [← he.1, ← he.2]
        exact (List.nodup_cons.mp hL).1
      rw [hn, if_pos he, if_pos ⟨by rw [he.1], he.2.symm⟩]
    · have h2 : ¬ (dg ++ p = dg ++ e.mGroup ∧ k = e.mKey) := by
        rintro ⟨a, b⟩
        exact he ⟨(List.append_cancel_left a).symm, b.symm⟩
      rw [if_neg he, if_neg h2]

theorem copyGroup_root (src dst : KConfig) (dg : List String) :
    KConfig.copyGroup src [] dst dg =
      src.foldl (fun acc e => acc.writeEntry (dg ++ e.mGroup) e.mKey e.value) dst := by
  unfold KConfig.copyGroup KConfig.entriesBelow
  have : src.filter (fun e => ([] : List String).isPrefixOf e.mGroup) = src := by
    apply List.filter_eq_self.mpr
    intro e _
    simp
  rw [this]
  rfl

/-- Which groups hold an entry after a run of writes: those that did, and the targets of
the writes. -/
theorem foldl_write_groups_iff (L : List KEntry) (dg : List String) (dst : KConfig)
    (q : List String) :
    (∃ e ∈ L.foldl (fun acc e => acc.writeEntry (dg ++ e.mGroup) e.mKey e.value) dst,
        e.mGroup = q) ↔
      ((∃ e0 ∈ dst, e0.mGroup = q) ∨ ∃ e1 ∈ L, q = dg ++ e1.mGroup) := by
  induction L generalizing dst with
  | nil => simp
  | cons e L ih =>
    rw [List.foldl_cons, ih, mem_writeEntry_group]
    constructor
    · rintro ((h | h) | ⟨e1, h1, h2⟩)
      · exact Or.inl h
      · exact Or.inr ⟨e, List.mem_cons_self _ _, h⟩
      · exact Or.inr ⟨e1, List.mem_cons_of_mem _ h1, h2⟩
    · rintro (h | ⟨e1, h1, h2⟩)
      · exact Or.inl (Or.inl h)
      · rcases List.mem_cons.mp h1 with rfl | h1
        · exact Or.inl (Or.inr h2)
        · exact Or.inr ⟨e1, h1, h2⟩

/-! ## The layout file after a sync -/

/-- One round of the loop of `syncToLayoutFile`: the file takes a copy of the config of the
containment with its `layoutId` emptied, and that config is now the one of the containment. -/
theorem syncContainment_spec (file : String) (w : World) (c : ContainmentPtr) :
    (syncContainment file w c).openConfig file =
      KConfig.copyGroup ((w.containment c).config.writeEntry [] "layoutId" (KValue.str "")) []
        (w.openConfig file) (contGroup (qNumber (w.idOf c))) ∧
    (∀ p, ((syncContainment file w c).containment p).id = (w.containment p).id) ∧
    (∀ p, ((syncContainment file w c).containment p).config =
      if p = c then (w.containment c).config.writeEntry [] "layoutId" (KValue.str "")
      else (w.containment p).config) := by
  unfold syncContainment
  simp only []
  refine ⟨?_, ?_, ?_⟩
  · rw [openConfig_setConfig]
    simp [World.setContainmentConfig, World.openConfig, World.idOf]
  · intro p
    simp only [World.setConfig, World.setContainmentConfig]
    by_cases h : p = c
    · simp [h]
    · simp [h]
  · intro p
    simp only [World.setConfig, World.setContainmentConfig]
    by_cases h : p = c
    · simp [h]
    · simp [h]

/-- The containments after the loop: the ids stay, the `layoutId` of each containment of the
list is emptied. -/
theorem syncContainment_foldl_containments (file : String) (cs : List ContainmentPtr)
    (w : World) (p : ContainmentPtr) :
    ((cs.foldl (syncContainment file) w).containment p).id = (w.containment p).id ∧
    ((cs.foldl (syncContainment file) w).containment p).config =
      if p ∈ cs then (w.containment p).config.writeEntry [] "layoutId" (KValue.str "")
      else (w.containment p).config := by
  induction cs generalizing w with
  | nil => simp
  | cons c cs ih =>
    rw [List.foldl_cons]
    obtain ⟨_, b2, b3⟩ := syncContainment_spec file w c
    obtain ⟨a1, a2⟩ := ih (syncContainment file w c)
    refine ⟨by rw [a1, b2], ?_⟩
    rw [a2, b3 p]
    by_cases hpc : p = c
    · subst hpc
      rw [if_pos rfl, writeEntry_writeEntry_same, if_pos (List.mem_cons_self _ _)]
      split_ifs <;> rfl
    · rw [if_neg hpc]
      by_cases hm : p ∈ cs
      · rw [if_pos hm, if_pos (List.mem_cons_of_mem _ hm)]
      · rw [if_neg hm, if_neg (fun h => (List.mem_cons.mp h).elim hpc hm)]

/-- The file after the loop is the file before it with the copies made in turn. -/
theorem syncContainment_foldl_file (file : String) (cs : List ContainmentPtr) (w : World) :
    (cs.foldl (syncContainment file) w).openConfig file =
      cs.foldl (fun acc c => KConfig.copyGroup
        ((w.containment c).config.writeEntry [] "layoutId" (KValue.str "")) [] acc
        (contGroup (qNumber (w.idOf c)))) (w.openConfig file) := by
  induction cs generalizing w with
  | nil => rfl
  | cons c cs ih =>
    rw [List.foldl_cons, List.foldl_cons, ih]
    obtain ⟨b1, b2, b3⟩ := syncContainment_spec file w c
    rw [b1]
    have hf : (fun (acc : KConfig) (c' : ContainmentPtr) => KConfig.copyGroup
          (((syncContainment file w c).containment c').config.writeEntry [] "layoutId"
            (KValue.str "")) [] acc
          (contGroup (qNumber ((syncContainment file w c).idOf c')))) =
        (fun (acc : KConfig) (c' : ContainmentPtr) => KConfig.copyGroup
          ((w.containment c').config.writeEntry [] "layoutId" (KValue.str "")) [] acc
          (contGroup (qNumber (w.idOf c')))) := by
      funext acc c'
      have hid : (syncContainment file w c).idOf c' = w.idOf c' := by
        unfold World.idOf
        rw [b2]
      rw [hid, b3 c']
      by_cases h : c' = c
      · subst h
        rw [if_pos rfl, writeEntry_writeEntry_same]
      · rw [if_neg h]
    rw [hf]

theorem contGroup_isPrefix_iff (n x : String) (r : List String) :
    ["Containments", x] <+: contGroup n ++ r ↔ x = n := by
  unfold contGroup
  simp [List.cons_prefix_cons]

/-- The subgroups of `Containments` after the copies: those of before and one for each
config copied, when no config is empty. -/
theorem copies_groups (S : ContainmentPtr → KConfig) (N : ContainmentPtr → String)
    (cs : List ContainmentPtr) (dst : KConfig) (hS : ∀ c ∈ cs, S c ≠ []) (x : String) :
    groupExists (cs.foldl (fun acc c => KConfig.copyGroup (S c) [] acc (contGroup (N c))) dst)
        ["Containments", x] ↔
      (groupExists dst ["Containments", x] ∨ ∃ c ∈ cs, x = N c) := by
  induction cs generalizing dst with
  | nil => simp
  | cons c cs ih =>
    rw [List.foldl_cons, ih _ (fun c' hc' => hS c' (List.mem_cons_of_mem _ hc'))]
    have step : groupExists (KConfig.copyGroup (S c) [] dst (contGroup (N c)))
        ["Containments", x] ↔ (groupExists dst ["Containments", x] ∨ x = N c) := by
      rw [copyGroup_root, groupExists_iff, groupExists_iff]
      constructor
      · rintro ⟨q, hq, hp⟩
        rcases (foldl_write_groups_iff _ _ _ _).mp hq with h | ⟨e1, _, h2⟩
        · exact Or.inl ⟨q, h, hp⟩
        · rw [h2] at hp
          exact Or.inr ((contGroup_isPrefix_iff _ _ _).mp hp)
      · rintro (⟨q, hq, hp⟩ | h)
        · exact ⟨q, (foldl_write_groups_iff _ _ _ _).mpr (Or.inl hq), hp⟩
        · obtain ⟨e1, he1⟩ := List.exists_mem_of_ne_nil _ (hS c (List.mem_cons_self _ _))
          exact ⟨contGroup (N c) ++ e1.mGroup,
            (foldl_write_groups_iff _ _ _ _).mpr (Or.inr ⟨e1, he1, rfl⟩),
            (contGroup_isPrefix_iff _ _ _).mpr h⟩
    rw [step]
    constructor
    · rintro ((h | h) | ⟨c', h1, h2⟩)
      · exact Or.inl h
      · exact Or.inr ⟨c, List.mem_cons_self _ _, h⟩
      · exact Or.inr ⟨c', List.mem_cons_of_mem _ h1, h2⟩
    · rintro (h | ⟨c', h1, h2⟩)
      · exact Or.inl (Or.inl h)
      · rcases List.mem_cons.mp h1 with rfl | h1
        · exact Or.inl (Or.inr h2)
        · exact Or.inr ⟨c', h1, h2⟩

/-- An entry of the group of a containment after the copies: the entry of its config, when
the name of the group is its own. -/
theorem copies_lookup (S : ContainmentPtr → KConfig) (N : ContainmentPtr → String)
    (cs : List ContainmentPtr) (dst : KConfig) (c : ContainmentPtr)
    (hinj : ∀ c' ∈ cs, N c' = N c → c' = c) (hS : UniqueKeys (S c))
    (p : List String) (k : String) :
    KConfig.lookup (cs.foldl (fun acc c => KConfig.copyGroup (S c) [] acc (contGroup (N c))) dst)
        (contGroup (N c) ++ p) k =
      if c ∈ cs then
        match KConfig.lookup (S c) p k with
        | some v => some v
        | none => dst.lookup (contGroup (N c) ++ p) k
      else dst.lookup (contGroup (N c) ++ p) k := by
  induction cs generalizing dst with
  | nil => simp
  | cons c0 cs ih =>
    rw [List.foldl_cons, ih _ (fun c' hc' => hinj c' (List.mem_cons_of_mem _ hc'))]
    by_cases h0 : c0 = c
    · subst h0
      rw [if_pos (List.mem_cons_self _ _), copyGroup_root, lookup_foldl_write_inside _ _ _ _ _ hS]
      split_ifs <;> cases KConfig.lookup (S c0) p k <;> rfl
    · have hn : N c0 ≠ N c := fun h => h0 (hinj c0 (List.mem_cons_self _ _) h)
      have hout : ¬ contGroup (N c0) <+: contGroup (N c) ++ p := by
        intro h
        exact hn ((contGroup_isPrefix_iff (N c) (N c0) p).mp h)
      rw [copyGroup_root, lookup_foldl_write_outside _ _ _ _ _ hout]
      by_cases hm : c ∈ cs
      · rw [if_pos hm, if_pos (List.mem_cons_of_mem _ hm)]
      · rw [if_neg hm, if_neg (fun h => (List.mem_cons.mp h).elim (fun e => h0 e.symm) hm)]

theorem deleteGroup_no_subgroup (cfg : KConfig) (x : String) :
    ¬ groupExists (cfg.deleteGroup ["Containments"]) ["Containments", x] := by
  rintro ⟨e, he, hp⟩
  have h1 := ((mem_deleteGroup cfg ["Containments"] e).mp he).2
  obtain ⟨t, ht⟩ := hp
  exact h1 ⟨x :: t, by rw [← ht]; rfl⟩

theorem deleteGroup_lookup_none (cfg : KConfig) (g : List String) (k : String)
    (hg : ["Containments"] <+: g) : (cfg.deleteGroup ["Containments"]).lookup g k = none := by
  apply lookup_eq_none_of_not_mem
  intro hm
  obtain ⟨e, he, hx⟩ := List.mem_map.mp hm
  simp only [Prod.mk.injEq] at hx
  have h1 := ((mem_deleteGroup cfg ["Containments"] e).mp he).2
  exact h1 (hx.1 ▸ hg)

theorem syncToLayoutFile_eq (w : World) (l : Layout) (hc : l.m_corona = true) :
    (syncToLayoutFile w l).openConfig l.m_layoutFile =
      l.m_containments.foldl (fun acc c => KConfig.copyGroup
        ((w.containment c).config.writeEntry [] "layoutId" (KValue.str "")) [] acc
        (contGroup (qNumber (w.idOf c))))
        ((w.openConfig l.m_layoutFile).deleteGroup ["Containments"]) ∧
    ∀ p, ((syncToLayoutFile w l).containment p).id = (w.containment p).id ∧
      ((syncToLayoutFile w l).containment p).config =
        if p ∈ l.m_containments then
          (w.containment p).config.writeEntry [] "layoutId" (KValue.str "")
        else (w.containment p).config := by
  have hu : syncToLayoutFile w l = l.m_containments.foldl (syncContainment l.m_layoutFile)
      (w.setConfig l.m_layoutFile ((w.openConfig l.m_layoutFile).deleteGroup ["Containments"]))
      := by
    unfold syncToLayoutFile
    rw [if_neg (by rw [hc]; decide)]
  rw [hu]
  refine ⟨?_, fun p => ?_⟩
  · rw [syncContainment_foldl_file, openConfig_setConfig]
    rfl
  · exact syncContainment_foldl_containments _ _ _ p

/-- C13: with a corona, after `syncToLayoutFile` the subgroups of the group `Containments` of
the layout file are the decimal ids of the containments of the layout, one for each
containment; the `layoutId` of each containment is emptied and its subgroup reads, at every
group below it and every key, as the config of the containment, with `layoutId` empty; a
subgroup of before the call that is the id of no containment is gone. The containments are
those of one corona, so distinct containments have distinct ids, and their configs are
entry maps, with one entry under a key. -/
theorem syncToLayoutFile_subgroups (w : World) (l : Layout) (hc : l.m_corona = true)
    (hid : ∀ c ∈ l.m_containments, ∀ c' ∈ l.m_containments, w.idOf c = w.idOf c' → c = c')
    (hk : ∀ c ∈ l.m_containments, UniqueKeys (w.containment c).config) :
    (((syncToLayoutFile w l).openConfig l.m_layoutFile).groupList ["Containments"]).Perm
        (l.m_containments.dedup.map (fun c => qNumber (w.idOf c))) ∧
    (∀ c ∈ l.m_containments,
      (syncToLayoutFile w l).idOf c = w.idOf c ∧
      ((syncToLayoutFile w l).containment c).config =
        (w.containment c).config.writeEntry [] "layoutId" (KValue.str "") ∧
      ((syncToLayoutFile w l).openConfig l.m_layoutFile).readString
        (contGroup (qNumber (w.idOf c))) "layoutId" "none" = "" ∧
      ∀ p k, ((syncToLayoutFile w l).openConfig l.m_layoutFile).lookup
          (contGroup (qNumber (w.idOf c)) ++ p) k =
        ((syncToLayoutFile w l).containment c).config.lookup p k) ∧
    (∀ x ∈ (w.openConfig l.m_layoutFile).groupList ["Containments"],
      (∀ c ∈ l.m_containments, x ≠ qNumber (w.idOf c)) →
      x ∉ ((syncToLayoutFile w l).openConfig l.m_layoutFile).groupList ["Containments"]) := by
  obtain ⟨hfile, hcont⟩ := syncToLayoutFile_eq w l hc
  have hmem : ∀ x, x ∈ ((syncToLayoutFile w l).openConfig l.m_layoutFile).groupList
      ["Containments"] ↔ ∃ c ∈ l.m_containments, x = qNumber (w.idOf c) := by
    intro x
    rw [mem_groupList, hfile]
    have := copies_groups
      (fun c => (w.containment c).config.writeEntry [] "layoutId" (KValue.str ""))
      (fun c => qNumber (w.idOf c)) l.m_containments
      ((w.openConfig l.m_layoutFile).deleteGroup ["Containments"])
      (fun c _ h => by
        have h2 := hasKey_writeEntry (w.containment c).config [] "layoutId" (KValue.str "")
        simp only [] at h
        rw [h] at h2
        exact absurd h2 (by decide)) x
    rw [show ["Containments"] ++ [x] = ["Containments", x] from rfl, this]
    constructor
    · rintro (h | h)
      · exact absurd h (deleteGroup_no_subgroup _ x)
      · exact h
    · exact Or.inr
  have hlook : ∀ c ∈ l.m_containments, ∀ p k,
      ((syncToLayoutFile w l).openConfig l.m_layoutFile).lookup
          (contGroup (qNumber (w.idOf c)) ++ p) k =
        ((w.containment c).config.writeEntry [] "layoutId" (KValue.str "")).lookup p k := by
    intro c hcm p k
    rw [hfile]
    have := copies_lookup
      (fun c => (w.containment c).config.writeEntry [] "layoutId" (KValue.str ""))
      (fun c => qNumber (w.idOf c)) l.m_containments
      ((w.openConfig l.m_layoutFile).deleteGroup ["Containments"]) c
      (fun c' hc' h => hid c' hc' c hcm (qNumber_natCast_injective _ _ h))
      (uniqueKeys_writeEntry _ _ _ _ (hk c hcm)) p k
    simp only [] at this
    have hz := deleteGroup_lookup_none (w.openConfig l.m_layoutFile)
      (contGroup (qNumber (w.idOf c)) ++ p) k ⟨qNumber (w.idOf c) :: p, rfl⟩
    rw [this, if_pos hcm, hz]
    cases KConfig.lookup ((w.containment c).config.writeEntry [] "layoutId" (KValue.str "")) p k
      <;> rfl
  refine ⟨?_, fun c hcm => ?_, fun x _ hx hin => ?_⟩
  · have hnd : (((syncToLayoutFile w l).openConfig l.m_layoutFile).groupList
        ["Containments"]).Nodup := by
      unfold KConfig.groupList
      exact List.nodup_dedup _
    refine (List.perm_ext_iff_of_nodup hnd ?_).mpr (fun x => ?_)
    · refine List.Nodup.map_on ?_ (List.nodup_dedup _)
      intro a ha b hb hab
      exact hid a (List.mem_dedup.mp ha) b (List.mem_dedup.mp hb)
        (qNumber_natCast_injective _ _ hab)
    · rw [hmem, List.mem_map]
      constructor
      · rintro ⟨c, h1, h2⟩
        exact ⟨c, List.mem_dedup.mpr h1, h2.symm⟩
      · rintro ⟨c, h1, h2⟩
        exact ⟨c, List.mem_dedup.mp h1, h2.symm⟩
  · have hcfg : ((syncToLayoutFile w l).containment c).config =
        (w.containment c).config.writeEntry [] "layoutId" (KValue.str "") := by
      rw [(hcont c).2, if_pos hcm]
    refine ⟨?_, hcfg, ?_, fun p k => ?_⟩
    · unfold World.idOf
      rw [(hcont c).1]
    · have h := hlook c hcm [] "layoutId"
      rw [List.append_nil, KConfig.lookup_writeEntry, if_pos ⟨rfl, rfl⟩] at h
      unfold KConfig.readString
      rw [h]
    · rw [hcfg]
      exact hlook c hcm p k
  · obtain ⟨c, h1, h2⟩ := (hmem x).mp hin
    exact hx c h1 h2

theorem syncToLayoutFile_subgroups_witness :
    sampleLayout.m_corona = true ∧
    (∀ c ∈ sampleLayout.m_containments, ∀ c' ∈ sampleLayout.m_containments,
      sampleWorld.idOf c = sampleWorld.idOf c' → c = c') ∧
    (∀ c ∈ sampleLayout.m_containments, UniqueKeys (sampleWorld.containment c).config) ∧
    (((syncToLayoutFile sampleWorld sampleLayout).openConfig sampleLayout.m_layoutFile).groupList
        ["Containments"]).Perm
      (sampleLayout.m_containments.dedup.map (fun c => qNumber (sampleWorld.idOf c))) ∧
    ((syncToLayoutFile sampleWorld sampleLayout).openConfig samplePath).groupList
      ["Containments"] = ["1", "2"] ∧
    ((syncToLayoutFile sampleWorld sampleLayout).openConfig samplePath).lookup
      ["Containments", "1"] "layoutId" = some (KValue.str "") :=
  ⟨rfl, by decide, by unfold UniqueKeys; decide,
    (syncToLayoutFile_subgroups sampleWorld sampleLayout rfl (by decide)
      (by unfold UniqueKeys; decide)).1,
    by decide, by decide⟩

end Latte
